import Mathlib

set_option maxHeartbeats 1000000

/-!
Verification development for the `anthropic-bridge` streaming proxy.

The development shallowly embeds the per-request streaming state machines of
the four provider adapters (`OpenAIProvider._stream_response`,
`CopilotProvider._stream_chat`, `stream_responses_api`, `CodexClient.handle`),
the synthesized error path (`yield_error_events`), the provider dispatch logic
of `server.py`, the OAuth credential path of `providers/openai/auth.py`, and
the reasoning-effort table of `providers/utils.py`.

Emitted SSE frames are modelled by the inductive type `SSE` below; each
machine is a pure function from its (already parsed) upstream input sequence
to the list of frames it yields.  Fields of the wire frames that no theorem
inspects (the random message id, the echoed model name, JSON serialization
details) are elided, as noted at each definition.
-/

namespace AnthropicBridge

/-- Usage counters carried by `message_start` / `message_delta` frames.
The chat-completions and responses machines only populate
`inputTokens`/`outputTokens`; the Copilot machine and `yield_error_events`
also carry the two cache counters (zero elsewhere). -/
structure Usage where
  inputTokens : Nat
  cacheCreation : Nat
  cacheRead : Nat
  outputTokens : Nat
deriving DecidableEq, Repr

def Usage.zero : Usage := ⟨0, 0, 0, 0⟩

/-- The type tag of a `content_block_start` frame. -/
inductive BlockKind
  | thinking
  | text
  | toolUse (id : String) (name : String)
deriving DecidableEq, Repr

/-- The `delta` payload of a `content_block_delta` frame. -/
inductive DeltaKind
  | thinkingD (s : String)
  | textD (s : String)
  | signatureD (s : String)
  | inputJsonD (s : String)
deriving DecidableEq, Repr

/-- One downstream SSE frame.  `doneMarker` is the bare `data: [DONE]` frame
(yielded without an `event:` name by the OpenAI, responses and Codex
machines); all other constructors are named SSE events. -/
inductive SSE
  | messageStart (usage : Usage)
  | ping
  | blockStart (idx : Int) (kind : BlockKind)
  | blockDelta (idx : Int) (d : DeltaKind)
  | blockStop (idx : Int)
  | errorEvent (msg : String)
  | messageDelta (stopReason : String) (usage : Usage)
  | messageStop
  | doneMarker
deriving DecidableEq, Repr

def SSE.isMessageStart : SSE → Bool
  | .messageStart _ => true
  | _ => false

def SSE.isMessageStop : SSE → Bool
  | .messageStop => true
  | _ => false

def SSE.isDoneMarker : SSE → Bool
  | .doneMarker => true
  | _ => false

def SSE.isErrorEvent : SSE → Bool
  | .errorEvent _ => true
  | _ => false

def SSE.isToolUseStart : SSE → Bool
  | .blockStart _ (.toolUse _ _) => true
  | _ => false

/-- Frames the streaming loops may emit between the opening
`message_start`/`ping` pair and the terminal sequence: keep-alive pings and
content-block frames, never message-level events. -/
def SSE.isInner : SSE → Bool
  | .ping => true
  | .blockStart _ _ => true
  | .blockDelta _ _ => true
  | .blockStop _ => true
  | _ => false

/-- Indices carried by `content_block_start` frames, in emission order. -/
def startIdxs (l : List SSE) : List Int :=
  l.filterMap fun e =>
    match e with
    | .blockStart i _ => some i
    | _ => none

/-- The named SSE events of an output: every frame except the bare
`data: [DONE]` marker. -/
def namedEvents (l : List SSE) : List SSE :=
  l.filter fun e => !e.isDoneMarker

/-- `providers/utils.py::yield_error_events`: the synthesized complete error
sequence.  The random message id and the echoed model are elided from
`message_start`. -/
def yield_error_events (message : String) : List SSE :=
  [ .messageStart Usage.zero,
    .errorEvent message,
    .messageDelta "end_turn" Usage.zero,
    .messageStop ]

/-! ## providers/utils.py: the reasoning-effort table (C10)

Model identifiers are embedded as `List Char`; `lowerChar` mirrors ASCII
lowercasing as performed by `str.lower()` on the ASCII model ids involved. -/

def lowerChar (c : Char) : Char :=
  if c.toNat ≥ 65 ∧ c.toNat ≤ 90 then Char.ofNat (c.toNat + 32) else c

def lowerStr (s : List Char) : List Char := s.map lowerChar

def hasSlash (s : List Char) : Bool := s.any fun c => c == '/'

/-- `lower.split("/", 1)[1]`: everything after the first slash. -/
def afterFirstSlash : List Char → List Char
  | [] => []
  | c :: rest => if c == '/' then rest else afterFirstSlash rest

/-- `providers/utils.py::_model_supports_xhigh`, translated from the source:
lowercase, then drop an optional segment up to the first "/", then test the
three prefixes. -/
def model_supports_xhigh : Option (List Char) → Bool
  | none => false
  | some s =>
    if s.isEmpty then false
    else
      let l := lowerStr s
      let l2 := if hasSlash l then afterFirstSlash l else l
      "gpt-5.1-codex-max".data.isPrefixOf l2
        || "gpt-5.2".data.isPrefixOf l2
        || "gpt-5.3".data.isPrefixOf l2

/-- `providers/utils.py::map_reasoning_effort`, translated from the source.
`if not budget_tokens` is true exactly for `None` and `0` (negative ints are
truthy in Python and fall through every `>=` test to the final `return
None`). -/
def map_reasoning_effort (budget : Option Int) (model : Option (List Char)) :
    Option String :=
  match budget with
  | none => none
  | some b =>
    if b = 0 then none
    else if b ≥ 32000 then
      if model_supports_xhigh model then some "xhigh" else some "high"
    else if b ≥ 15000 then some "high"
    else if b ≥ 10000 then some "medium"
    else if b ≥ 1 then some "low"
    else none

/-- The xhigh condition as worded by the claim: the model id, after stripping
an optional provider prefix (up to the first "/") and lowercasing, starts
with one of the three supported prefixes. -/
def claimSupportsXhigh : Option (List Char) → Bool
  | none => false
  | some s =>
    let stripped := if hasSlash s then afterFirstSlash s else s
    let l := lowerStr stripped
    "gpt-5.1-codex-max".data.isPrefixOf l
      || "gpt-5.2".data.isPrefixOf l
      || "gpt-5.3".data.isPrefixOf l

/-- The budget-to-effort table as worded by the claim. -/
def claimedReasoningEffort (budget : Option Int) (model : Option (List Char)) :
    Option String :=
  match budget with
  | none => none
  | some b =>
    if b ≤ 0 then none
    else if b < 10000 then some "low"
    else if b < 15000 then some "medium"
    else if b < 32000 then some "high"
    else if claimSupportsXhigh model then some "xhigh"
    else some "high"


/-! ## Insertion-ordered dictionaries

Python `dict` semantics: assignment to an existing key overwrites in place,
assignment to a fresh key appends; `values()` iterates in insertion order. -/

def dictLookup {K V : Type} [DecidableEq K] : List (K × V) → K → Option V
  | [], _ => none
  | (k2, v) :: rest, k => if k2 = k then some v else dictLookup rest k

def dictSet {K V : Type} [DecidableEq K] : List (K × V) → K → V → List (K × V)
  | [], k, v => [(k, v)]
  | (k2, v2) :: rest, k, v =>
    if k2 = k then (k2, v) :: rest else (k2, v2) :: dictSet rest k v

/-- The `signature_delta` + `content_block_stop` pair closing a thinking
block. -/
def closeThinking (idx : Int) (sig : String) : List SSE :=
  [.blockDelta idx (.signatureD sig), .blockStop idx]

/-! ## providers/openai/client.py: `OpenAIProvider._stream_response`

Input chunks are modelled post-parsing: Python truthiness tests on strings
(`if reasoning:`, `if delta.content:`, `if tc.id:` …) are modelled by
`Option String`, with `none` covering both a missing and an empty value. -/

/-- One tool-call slot of the `tools` dict (both chat machines). -/
structure ToolSlot where
  tid : String
  name : String
  blockIdx : Int
  started : Bool
  closed : Bool
deriving DecidableEq, Repr

/-- One entry of `delta.tool_calls`; `index` is the upstream slot index with
`tc.index or 0` already applied. -/
structure OAIToolCallDelta where
  index : Nat
  tid : Option String
  fname : Option String
  fargs : Option String
deriving DecidableEq, Repr

/-- `chunk.choices[0].delta`. -/
structure OAIDelta where
  reasoning : Option String
  content : Option String
  toolCalls : List OAIToolCallDelta
  finish : Option String
deriving DecidableEq, Repr

/-- One SSE chunk of the chat-completions stream; `usage` is
`(prompt_tokens or 0, completion_tokens or 0)` when `chunk.usage` is truthy,
`choice` is `none` when `chunk.choices` is empty. -/
structure OAIChunk where
  usage : Option (Nat × Nat)
  choice : Option OAIDelta
deriving DecidableEq, Repr

structure OAIState where
  textStarted : Bool
  textIdx : Int
  thinkingStarted : Bool
  thinkingIdx : Int
  curIdx : Int
  tools : List (Nat × ToolSlot)
  usage : Option (Nat × Nat)
deriving DecidableEq, Repr

def OAIState.init : OAIState :=
  { textStarted := false, textIdx := -1, thinkingStarted := false,
    thinkingIdx := -1, curIdx := 0, tools := [], usage := none }

/-- The `reasoning` branch of the chunk loop. -/
def oaiStepReasoning (s : OAIState) (r : Option String) : OAIState × List SSE :=
  match r with
  | none => (s, [])
  | some txt =>
    if s.thinkingStarted then
      (s, [.blockDelta s.thinkingIdx (.thinkingD txt)])
    else
      let idx := s.curIdx
      ({ s with thinkingStarted := true, thinkingIdx := idx, curIdx := idx + 1 },
       [.blockStart idx .thinking, .blockDelta idx (.thinkingD txt)])

/-- The `delta.content` branch: close an open thinking block, open a text
block if needed, emit the text delta. -/
def oaiStepContent (s : OAIState) (c : Option String) : OAIState × List SSE :=
  match c with
  | none => (s, [])
  | some txt =>
    let p1 : OAIState × List SSE :=
      if s.thinkingStarted then
        ({ s with thinkingStarted := false }, closeThinking s.thinkingIdx "")
      else (s, [])
    let s1 := p1.1
    let p2 : OAIState × List SSE :=
      if s1.textStarted then (s1, [])
      else
        ({ s1 with textStarted := true, textIdx := s1.curIdx,
                   curIdx := s1.curIdx + 1 },
         [.blockStart s1.curIdx .text])
    (p2.1, p1.2 ++ p2.2 ++ [.blockDelta p2.1.textIdx (.textD txt)])

/-- One entry of the `delta.tool_calls` loop: allocate a fresh slot on first
sight of an upstream index (closing open thinking/text blocks first), emit
`content_block_start` once a name is known, then the arguments delta. -/
def oaiStepToolCall (now : Nat) (s : OAIState) (tc : OAIToolCallDelta) :
    OAIState × List SSE :=
  let p1 : OAIState × List SSE :=
    if (dictLookup s.tools tc.index).isSome then (s, [])
    else
      let pa : OAIState × List SSE :=
        if s.thinkingStarted then
          ({ s with thinkingStarted := false }, closeThinking s.thinkingIdx "")
        else (s, [])
      let sa := pa.1
      let pb : OAIState × List SSE :=
        if sa.textStarted then
          ({ sa with textStarted := false }, [.blockStop sa.textIdx])
        else (sa, [])
      let sb := pb.1
      let defaultId := "tool_" ++ toString now ++ "_" ++ toString tc.index
      let slot : ToolSlot :=
        { tid := tc.tid.getD defaultId, name := "", blockIdx := sb.curIdx,
          started := false, closed := false }
      ({ sb with tools := dictSet sb.tools tc.index slot,
                 curIdx := sb.curIdx + 1 },
       pa.2 ++ pb.2)
  let s1 := p1.1
  match dictLookup s1.tools tc.index with
  | none => (s1, p1.2)
  | some t0 =>
    let t1 := match tc.tid with
      | some i => { t0 with tid := i }
      | none => t0
    let p2 : ToolSlot × List SSE :=
      match tc.fname with
      | some nm =>
        if t1.started then (t1, [])
        else ({ t1 with name := nm, started := true },
              [.blockStart t1.blockIdx (.toolUse t1.tid nm)])
      | none => (t1, [])
    let t2 := p2.1
    let out3 : List SSE :=
      match tc.fargs with
      | some a => if t2.started then [.blockDelta t2.blockIdx (.inputJsonD a)] else []
      | none => []
    ({ s1 with tools := dictSet s1.tools tc.index t2 }, p1.2 ++ p2.2 ++ out3)

def oaiStepToolCalls (now : Nat) (s : OAIState) :
    List OAIToolCallDelta → OAIState × List SSE
  | [] => (s, [])
  | tc :: rest =>
    let p := oaiStepToolCall now s tc
    let q := oaiStepToolCalls now p.1 rest
    (q.1, p.2 ++ q.2)

/-- `finish_reason == "tool_calls"`: close every started, still-open slot. -/
def oaiStepFinish (s : OAIState) (finish : Option String) : OAIState × List SSE :=
  if finish = some "tool_calls" then
    ({ s with tools := s.tools.map fun kv =>
        (kv.1, if kv.2.started && !kv.2.closed then { kv.2 with closed := true } else kv.2) },
     s.tools.filterMap fun kv =>
       if kv.2.started && !kv.2.closed then some (.blockStop kv.2.blockIdx) else none)
  else (s, [])

def oaiStepChunk (now : Nat) (s : OAIState) (ch : OAIChunk) : OAIState × List SSE :=
  let s0 := match ch.usage with
    | some u => { s with usage := some u }
    | none => s
  match ch.choice with
  | none => (s0, [])
  | some d =>
    let p1 := oaiStepReasoning s0 d.reasoning
    let p2 := oaiStepContent p1.1 d.content
    let p3 := oaiStepToolCalls now p2.1 d.toolCalls
    let p4 := oaiStepFinish p3.1 d.finish
    (p4.1, p1.2 ++ p2.2 ++ p3.2 ++ p4.2)

def oaiRunChunks (now : Nat) (s : OAIState) :
    List OAIChunk → OAIState × List SSE
  | [] => (s, [])
  | ch :: rest =>
    let p := oaiStepChunk now s ch
    let q := oaiRunChunks now p.1 rest
    (q.1, p.2 ++ q.2)

/-- The post-loop closing frames of the normal-completion path. -/
def oaiCloseAll (s : OAIState) : List SSE :=
  (if s.thinkingStarted then closeThinking s.thinkingIdx "" else [])
    ++ (if s.textStarted then [.blockStop s.textIdx] else [])
    ++ (s.tools.filterMap fun kv =>
          if kv.2.started && !kv.2.closed then some (.blockStop kv.2.blockIdx) else none)

def oaiUsage (s : OAIState) : Usage :=
  match s.usage with
  | some u => ⟨u.1, 0, 0, u.2⟩
  | none => Usage.zero

/-- Whether and how the upstream iteration ends: `ok` models normal
exhaustion of the SSE body, `err` models an exception (connection error,
non-2xx status, mid-stream failure) raised after the listed chunks were
processed. -/
inductive UpstreamEnd
  | ok
  | err (msg : String)
deriving DecidableEq, Repr

/-- `OpenAIProvider._stream_response` as a whole: opening pair, chunk loop,
then either the `except` path (error + `message_stop` + `[DONE]`, with no
`message_delta`) or the normal closing sequence, whose terminal
`message_delta` always carries `stop_reason = "end_turn"`. -/
def openaiStream (now : Nat) (chunks : List OAIChunk) (e : UpstreamEnd) : List SSE :=
  let p := oaiRunChunks now OAIState.init chunks
  [.messageStart Usage.zero, .ping] ++ p.2 ++
    (match e with
     | .err m => [.errorEvent m, .messageStop, .doneMarker]
     | .ok =>
       oaiCloseAll p.1
         ++ [.messageDelta "end_turn" (oaiUsage p.1), .messageStop, .doneMarker])

/-! ## providers/copilot/client.py: `CopilotProvider._stream_chat`

Input frames are modelled post-parsing; skipped lines (empty, `[DONE]`,
unparseable JSON) simply do not appear in the input list.  A line that fails
the SSE-shape check raises and is modelled by `UpstreamEnd.err`, as is a
non-200 status. -/

/-- The four usage counters read from a Copilot `usage` object
(`prompt_tokens`, `cache_creation_input_tokens`, `cache_read_input_tokens`,
`completion_tokens`, each with default 0 applied at the terminal read). -/
structure CoUsage where
  promptTokens : Nat
  cacheCreation : Nat
  cacheRead : Nat
  completionTokens : Nat
deriving DecidableEq, Repr

/-- One entry of `delta.tool_calls`: `index` has `tc.get("index", 0)`
applied; `tid`/`fname`/`fargs` are `none` when missing or empty. -/
structure CoToolCallDelta where
  index : Nat
  tid : Option String
  fname : Option String
  fargs : Option String
deriving DecidableEq, Repr

/-- One parsed `data:` frame of the Copilot chat stream. -/
structure CoData where
  usage : Option CoUsage
  reasoningOpaque : Option String
  reasoningText : Option String
  content : Option String
  toolCalls : List CoToolCallDelta
  finish : Option String
deriving DecidableEq, Repr

structure CoState where
  textStarted : Bool
  textIdx : Int
  thinkingStarted : Bool
  thinkingIdx : Int
  curIdx : Int
  tools : List (Nat × ToolSlot)
  usage : Option CoUsage
  hadContent : Bool
  reasoningOpaque : Option String
deriving DecidableEq, Repr

def CoState.init : CoState :=
  { textStarted := false, textIdx := -1, thinkingStarted := false,
    thinkingIdx := -1, curIdx := 0, tools := [], usage := none,
    hadContent := false, reasoningOpaque := none }

def coStepReasoning (s : CoState) (r : Option String) : CoState × List SSE :=
  match r with
  | none => (s, [])
  | some txt =>
    let s0 := { s with hadContent := true }
    if s0.thinkingStarted then
      (s0, [.blockDelta s0.thinkingIdx (.thinkingD txt)])
    else
      let idx := s0.curIdx
      ({ s0 with thinkingStarted := true, thinkingIdx := idx, curIdx := idx + 1 },
       [.blockStart idx .thinking, .blockDelta idx (.thinkingD txt)])

/-- The `content` branch; the signature closing a thinking block is the last
`reasoning_opaque` seen (or `""`). -/
def coStepContent (s : CoState) (c : Option String) : CoState × List SSE :=
  match c with
  | none => (s, [])
  | some txt =>
    let s0 := { s with hadContent := true }
    let p1 : CoState × List SSE :=
      if s0.thinkingStarted then
        ({ s0 with thinkingStarted := false },
         closeThinking s0.thinkingIdx (s0.reasoningOpaque.getD ""))
      else (s0, [])
    let s1 := p1.1
    let p2 : CoState × List SSE :=
      if s1.textStarted then (s1, [])
      else
        ({ s1 with textStarted := true, textIdx := s1.curIdx,
                   curIdx := s1.curIdx + 1 },
         [.blockStart s1.curIdx .text])
    (p2.1, p1.2 ++ p2.2 ++ [.blockDelta p2.1.textIdx (.textD txt)])

/-- One entry of the Copilot `tool_calls` loop.  Unlike the OpenAI machine,
slot allocation closes only an open text block — an open thinking block stays
open.  The slot name is seeded from the creating frame. -/
def coStepToolCall (now : Nat) (s : CoState) (tc : CoToolCallDelta) :
    CoState × List SSE :=
  let s' := { s with hadContent := true }
  let p1 : CoState × List SSE :=
    if (dictLookup s'.tools tc.index).isSome then (s', [])
    else
      let pb : CoState × List SSE :=
        if s'.textStarted then
          ({ s' with textStarted := false }, [.blockStop s'.textIdx])
        else (s', [])
      let sb := pb.1
      let defaultId := "tool_" ++ toString now ++ "_" ++ toString tc.index
      let slot : ToolSlot :=
        { tid := tc.tid.getD defaultId, name := tc.fname.getD "",
          blockIdx := sb.curIdx, started := false, closed := false }
      ({ sb with tools := dictSet sb.tools tc.index slot,
                 curIdx := sb.curIdx + 1 },
       pb.2)
  let s1 := p1.1
  match dictLookup s1.tools tc.index with
  | none => (s1, p1.2)
  | some t0 =>
    let p2 : ToolSlot × List SSE :=
      match tc.fname with
      | some nm =>
        if t0.started then (t0, [])
        else ({ t0 with name := nm, started := true },
              [.blockStart t0.blockIdx (.toolUse t0.tid nm)])
      | none => (t0, [])
    let t2 := p2.1
    let out3 : List SSE :=
      match tc.fargs with
      | some a => if t2.started then [.blockDelta t2.blockIdx (.inputJsonD a)] else []
      | none => []
    ({ s1 with tools := dictSet s1.tools tc.index t2 }, p1.2 ++ p2.2 ++ out3)

def coStepToolCalls (now : Nat) (s : CoState) :
    List CoToolCallDelta → CoState × List SSE
  | [] => (s, [])
  | tc :: rest =>
    let p := coStepToolCall now s tc
    let q := coStepToolCalls now p.1 rest
    (q.1, p.2 ++ q.2)

def coStepFinish (s : CoState) (finish : Option String) : CoState × List SSE :=
  if finish = some "tool_calls" then
    ({ s with tools := s.tools.map fun kv =>
        (kv.1, if kv.2.started && !kv.2.closed then { kv.2 with closed := true } else kv.2) },
     s.tools.filterMap fun kv =>
       if kv.2.started && !kv.2.closed then some (.blockStop kv.2.blockIdx) else none)
  else (s, [])

def coStepData (now : Nat) (s : CoState) (d : CoData) : CoState × List SSE :=
  let s0 := match d.usage with
    | some u => { s with usage := some u }
    | none => s
  let s0' := match d.reasoningOpaque with
    | some ro => { s0 with reasoningOpaque := some ro }
    | none => s0
  let p1 := coStepReasoning s0' d.reasoningText
  let p2 := coStepContent p1.1 d.content
  let p3 := coStepToolCalls now p2.1 d.toolCalls
  let p4 := coStepFinish p3.1 d.finish
  (p4.1, p1.2 ++ p2.2 ++ p3.2 ++ p4.2)

def coRunData (now : Nat) (s : CoState) : List CoData → CoState × List SSE
  | [] => (s, [])
  | d :: rest =>
    let p := coStepData now s d
    let q := coRunData now p.1 rest
    (q.1, p.2 ++ q.2)

/-- The no-content diagnostic message (quoting punctuation elided). -/
def copilotNoContentMsg (targetModel : String) : String :=
  "No content received from Copilot API for model " ++ targetModel

def coCloseAll (s : CoState) : List SSE :=
  (if s.thinkingStarted then
      closeThinking s.thinkingIdx (s.reasoningOpaque.getD "")
    else [])
    ++ (if s.textStarted then [.blockStop s.textIdx] else [])
    ++ (s.tools.filterMap fun kv =>
          if kv.2.started && !kv.2.closed then some (.blockStop kv.2.blockIdx) else none)

def coUsage (s : CoState) : Usage :=
  match s.usage with
  | some u => ⟨u.promptTokens, u.cacheCreation, u.cacheRead, u.completionTokens⟩
  | none => Usage.zero

/-- `CopilotProvider._stream_chat` as a whole.  The terminal `stop_reason` is
`"tool_use"` whenever the `tools` dict is non-empty — even when no tool block
was ever started.  No `[DONE]` frame is yielded by this machine. -/
def copilotStream (now : Nat) (targetModel : String) (ds : List CoData)
    (e : UpstreamEnd) : List SSE :=
  let p := coRunData now CoState.init ds
  [.messageStart Usage.zero, .ping] ++ p.2 ++
    (match e with
     | .err m =>
       [.errorEvent m, .messageDelta "end_turn" Usage.zero, .messageStop]
     | .ok =>
       (if !p.1.hadContent && p.1.tools.isEmpty then
          [.errorEvent (copilotNoContentMsg targetModel)]
        else [])
         ++ coCloseAll p.1
         ++ [.messageDelta (if p.1.tools.isEmpty then "end_turn" else "tool_use")
               (coUsage p.1),
             .messageStop])

/-! ## providers/responses_api.py: `stream_responses_api`

Named SSE events are modelled post-parsing; frames with missing data, an
unknown event name, or an item type other than `function_call` are
`otherEvent`.  A non-200 status raises before any event is processed and is
modelled by `UpstreamEnd.err` with an empty event list. -/

inductive RespEvent
  | outputTextDelta (delta : Option String)
  | reasoningDelta (delta : Option String)
  | itemAddedFunctionCall (callId : Option String) (name : String)
  | funcArgsDelta (callId : String) (delta : Option String)
  | itemDoneFunctionCall (callId : String) (args : Option String)
  | completed (usageIn usageOut : Nat)
  | otherEvent
deriving DecidableEq, Repr

structure RespState where
  textStarted : Bool
  textIdx : Int
  thinkingStarted : Bool
  thinkingIdx : Int
  curIdx : Int
  tools : List (String × ToolSlot)
  usageIn : Nat
  usageOut : Nat
deriving DecidableEq, Repr

def RespState.init : RespState :=
  { textStarted := false, textIdx := -1, thinkingStarted := false,
    thinkingIdx := -1, curIdx := 0, tools := [], usageIn := 0, usageOut := 0 }

/-- One loop iteration of `stream_responses_api` for every event other than
`response.completed`.  Note that `response.output_item.added` opens the
tool_use block immediately, without closing an open thinking or text
block. -/
def respStep (now : Nat) (s : RespState) : RespEvent → RespState × List SSE
  | .outputTextDelta none => (s, [])
  | .outputTextDelta (some txt) =>
    let p1 : RespState × List SSE :=
      if s.thinkingStarted then
        ({ s with thinkingStarted := false }, closeThinking s.thinkingIdx "")
      else (s, [])
    let s1 := p1.1
    let p2 : RespState × List SSE :=
      if s1.textStarted then (s1, [])
      else
        ({ s1 with textStarted := true, textIdx := s1.curIdx,
                   curIdx := s1.curIdx + 1 },
         [.blockStart s1.curIdx .text])
    (p2.1, p1.2 ++ p2.2 ++ [.blockDelta p2.1.textIdx (.textD txt)])
  | .reasoningDelta none => (s, [])
  | .reasoningDelta (some txt) =>
    if s.thinkingStarted then
      (s, [.blockDelta s.thinkingIdx (.thinkingD txt)])
    else
      let idx := s.curIdx
      ({ s with thinkingStarted := true, thinkingIdx := idx, curIdx := idx + 1 },
       [.blockStart idx .thinking, .blockDelta idx (.thinkingD txt)])
  | .itemAddedFunctionCall cid name =>
    let callId := cid.getD ("tool_" ++ toString now)
    let slot : ToolSlot :=
      { tid := callId, name := name, blockIdx := s.curIdx,
        started := true, closed := false }
    ({ s with tools := dictSet s.tools callId slot, curIdx := s.curIdx + 1 },
     [.blockStart s.curIdx (.toolUse callId name)])
  | .funcArgsDelta cid d =>
    match dictLookup s.tools cid, d with
    | some t, some txt => (s, [.blockDelta t.blockIdx (.inputJsonD txt)])
    | _, _ => (s, [])
  | .itemDoneFunctionCall cid args =>
    match dictLookup s.tools cid with
    | some t =>
      if t.closed then (s, [])
      else
        ({ s with tools := dictSet s.tools cid { t with closed := true } },
         (match args with
          | some a => [.blockDelta t.blockIdx (.inputJsonD a)]
          | none => [])
           ++ [.blockStop t.blockIdx])
    | none => (s, [])
  | .completed _ _ => (s, [])
  | .otherEvent => (s, [])

/-- The event loop: processes events in order, breaking at the first
`response.completed` (which records the final usage). -/
def respRun (now : Nat) (s : RespState) : List RespEvent → RespState × List SSE
  | [] => (s, [])
  | .completed uIn uOut :: _ => ({ s with usageIn := uIn, usageOut := uOut }, [])
  | e :: rest =>
    let p := respStep now s e
    let q := respRun now p.1 rest
    (q.1, p.2 ++ q.2)

def respCloseAll (s : RespState) : List SSE :=
  (if s.thinkingStarted then closeThinking s.thinkingIdx "" else [])
    ++ (if s.textStarted then [.blockStop s.textIdx] else [])
    ++ (s.tools.filterMap fun kv =>
          if kv.2.started && !kv.2.closed then some (.blockStop kv.2.blockIdx) else none)

/-- `stream_responses_api` as a whole. -/
def responsesStream (now : Nat) (events : List RespEvent) (e : UpstreamEnd) :
    List SSE :=
  let p := respRun now RespState.init events
  [.messageStart Usage.zero, .ping] ++ p.2 ++
    (match e with
     | .err m =>
       [.errorEvent m, .messageDelta "end_turn" Usage.zero, .messageStop,
        .doneMarker]
     | .ok =>
       respCloseAll p.1
         ++ [.messageDelta (if p.1.tools.isEmpty then "end_turn" else "tool_use")
               ⟨p.1.usageIn, 0, 0, p.1.usageOut⟩,
             .messageStop, .doneMarker])

/-! ## providers/codex.py: `CodexClient.handle`

The JSON-RPC notification stream is modelled post-parsing (unparseable lines
are skipped by `_read_notifications` and do not appear).  The instance
counter behind `_next_tool_id` starts at 0 for the request under analysis
and its random suffix is elided; JSON string escaping in the inline tool
markers is likewise elided. -/

/-- One entry of a `fileChange` item's `changes` list (non-dict entries are
skipped by the source and do not appear). -/
structure CodexChange where
  path : String
  kind : String
deriving DecidableEq, Repr

/-- A notification item.  Fields only read on `item/started` (e.g.
`command`, `query`, serialized `arguments`) or only on `item/completed`
(e.g. `aggregatedOutput`, `exitCode`, result content) are carried together;
the irrelevant ones are simply never read by the handler concerned. -/
inductive CodexItem
  | commandExecution (id command aggregatedOutput : String) (exitCode : Int)
  | fileChange (id : String) (changes : List CodexChange)
  | mcpToolCall (id tool argsJson outputJson : String)
  | webSearch (id query : String)
  | otherItem
deriving DecidableEq, Repr

inductive CodexNote
  | agentMessageDelta (delta : Option String)
  | reasoningSummaryDelta (delta : Option String)
  | itemStarted (item : CodexItem)
  | itemCompleted (item : CodexItem)
  | turnCompleted
  | tokenUsage (inp outp : Nat)
  | errorNote (msg : String)
  | otherMethod
deriving DecidableEq, Repr

structure CodexState where
  textStarted : Bool
  textIdx : Int
  thinkingStarted : Bool
  thinkingIdx : Int
  curIdx : Int
  usageIn : Nat
  usageOut : Nat
  toolCounter : Nat
  activeTools : List (String × String)
deriving DecidableEq, Repr

def CodexState.init : CodexState :=
  { textStarted := false, textIdx := 0, thinkingStarted := false,
    thinkingIdx := -1, curIdx := 0, usageIn := 0, usageOut := 0,
    toolCounter := 0, activeTools := [] }

def cdxNextToolId (s : CodexState) (idPrefixPart : String) : CodexState × String :=
  ({ s with toolCounter := s.toolCounter + 1 },
   idPrefixPart ++ "_" ++ toString (s.toolCounter + 1))

/-- `_tool_marker`: the inert marker embedded in a text delta. -/
def toolMarker (markerType payload : String) : String :=
  "<!--CODEX_TOOL_" ++ markerType ++ ":" ++ payload ++ "-->"

def jsonField (k v : String) : String := "\"" ++ k ++ "\": \"" ++ v ++ "\""

def cdxStartPayload (toolId name inputJson : String) : String :=
  "\x7b" ++ jsonField "id" toolId ++ ", " ++ jsonField "name" name
    ++ ", \"input\": " ++ inputJson ++ "\x7d"

/-- Open a text block at `cur_idx` if none is open; used by the branches
that do *not* close an open thinking block first. -/
def cdxOpenTextNoClose (s : CodexState) : CodexState × List SSE :=
  if s.textStarted then (s, [])
  else
    ({ s with textStarted := true, textIdx := s.curIdx, curIdx := s.curIdx + 1 },
     [.blockStart s.curIdx .text])

/-- Open a text block, first closing an open thinking block; used by the
agent-message and command-execution branches. -/
def cdxOpenTextClosing (s : CodexState) : CodexState × List SSE :=
  if s.textStarted then (s, [])
  else
    let p1 : CodexState × List SSE :=
      if s.thinkingStarted then
        ({ s with thinkingStarted := false }, closeThinking s.thinkingIdx "")
      else (s, [])
    let s1 := p1.1
    (({ s1 with textStarted := true, textIdx := s1.curIdx,
                curIdx := s1.curIdx + 1 }),
     p1.2 ++ [.blockStart s1.curIdx .text])

/-- The per-change loop of the `item/started` `fileChange` branch. -/
def cdxFileStartChanges (id : String) (s : CodexState) :
    List CodexChange → CodexState × List SSE
  | [] => (s, [])
  | ch :: rest =>
    let pn := cdxNextToolId s "codex_file"
    let s1 := { pn.1 with
      activeTools := dictSet pn.1.activeTools (id ++ ":" ++ ch.path) pn.2 }
    let toolName := if ch.kind = "add" then "Write" else "Edit"
    let p2 := cdxOpenTextNoClose s1
    let marker := toolMarker "START"
      (cdxStartPayload pn.2 toolName
        ("\x7b" ++ jsonField "file_path" ch.path ++ "\x7d"))
    let q := cdxFileStartChanges id p2.1 rest
    (q.1, p2.2 ++ [.blockDelta p2.1.textIdx (.textD marker), .ping] ++ q.2)

/-- The `item/started` handler. -/
def cdxItemStarted (s : CodexState) : CodexItem → CodexState × List SSE
  | .commandExecution id cmd _ _ =>
    let pn := cdxNextToolId s "codex_cmd"
    let s1 := { pn.1 with activeTools := dictSet pn.1.activeTools id pn.2 }
    let p2 := cdxOpenTextClosing s1
    let marker := toolMarker "START"
      (cdxStartPayload pn.2 "CodexCommand"
        ("\x7b" ++ jsonField "command" cmd ++ "\x7d"))
    (p2.1, p2.2 ++ [.blockDelta p2.1.textIdx (.textD marker), .ping])
  | .fileChange id changes => cdxFileStartChanges id s changes
  | .mcpToolCall id tool argsJson _ =>
    let pn := cdxNextToolId s "codex_mcp"
    let s1 := { pn.1 with activeTools := dictSet pn.1.activeTools id pn.2 }
    let p2 := cdxOpenTextNoClose s1
    let marker := toolMarker "START" (cdxStartPayload pn.2 tool argsJson)
    (p2.1, p2.2 ++ [.blockDelta p2.1.textIdx (.textD marker), .ping])
  | .webSearch id query =>
    let pn := cdxNextToolId s "codex_search"
    let s1 := { pn.1 with activeTools := dictSet pn.1.activeTools id pn.2 }
    let p2 := cdxOpenTextNoClose s1
    let marker := toolMarker "START"
      (cdxStartPayload pn.2 "WebSearch"
        ("\x7b" ++ jsonField "query" query ++ "\x7d"))
    (p2.1, p2.2 ++ [.blockDelta p2.1.textIdx (.textD marker), .ping])
  | .otherItem => (s, [])

def dictPop {K V : Type} [DecidableEq K] : List (K × V) → K → List (K × V)
  | [], _ => []
  | (k2, v) :: rest, k => if k2 = k then rest else (k2, v) :: dictPop rest k

/-- The per-change loop of the `item/completed` `fileChange` branch.  It
emits at the current `text_idx` without first ensuring a text block is
open — faithfully mirroring the source. -/
def cdxFileDoneChanges (id : String) (s : CodexState) :
    List CodexChange → CodexState × List SSE
  | [] => (s, [])
  | ch :: rest =>
    match dictLookup s.activeTools (id ++ ":" ++ ch.path) with
    | none => cdxFileDoneChanges id s rest
    | some toolId =>
      let s1 := { s with activeTools := dictPop s.activeTools (id ++ ":" ++ ch.path) }
      let marker := toolMarker "RESULT" ("\x7b" ++ jsonField "id" toolId ++ "\x7d")
      let q := cdxFileDoneChanges id s1 rest
      (q.1, [.blockDelta s1.textIdx (.textD marker), .ping] ++ q.2)

/-- The `item/completed` handler. -/
def cdxItemCompleted (s : CodexState) : CodexItem → CodexState × List SSE
  | .commandExecution id _ out code =>
    match dictLookup s.activeTools id with
    | none => (s, [])
    | some toolId =>
      let s1 := { s with activeTools := dictPop s.activeTools id }
      let p2 := cdxOpenTextNoClose s1
      let marker := toolMarker "RESULT"
        ("\x7b" ++ jsonField "id" toolId ++ ", " ++ jsonField "output" out
          ++ ", \"exit_code\": " ++ toString code ++ "\x7d")
      (p2.1, p2.2 ++ [.blockDelta p2.1.textIdx (.textD marker), .ping])
  | .fileChange id changes => cdxFileDoneChanges id s changes
  | .mcpToolCall id _ _ outJson =>
    match dictLookup s.activeTools id with
    | none => (s, [])
    | some toolId =>
      let s1 := { s with activeTools := dictPop s.activeTools id }
      let p2 := cdxOpenTextNoClose s1
      let marker := toolMarker "RESULT"
        ("\x7b" ++ jsonField "id" toolId ++ ", " ++ jsonField "output" outJson ++ "\x7d")
      (p2.1, p2.2 ++ [.blockDelta p2.1.textIdx (.textD marker), .ping])
  | .webSearch id _ =>
    match dictLookup s.activeTools id with
    | none => (s, [])
    | some toolId =>
      let s1 := { s with activeTools := dictPop s.activeTools id }
      let p2 := cdxOpenTextNoClose s1
      let marker := toolMarker "RESULT"
        ("\x7b" ++ jsonField "id" toolId ++ ", " ++ jsonField "output" "search completed" ++ "\x7d")
      (p2.1, p2.2 ++ [.blockDelta p2.1.textIdx (.textD marker), .ping])
  | .otherItem => (s, [])

def cdxStep (s : CodexState) : CodexNote → CodexState × List SSE
  | .agentMessageDelta none => (s, [])
  | .agentMessageDelta (some d) =>
    let p := cdxOpenTextClosing s
    (p.1, p.2 ++ [.blockDelta p.1.textIdx (.textD d)])
  | .reasoningSummaryDelta none => (s, [])
  | .reasoningSummaryDelta (some d) =>
    if s.thinkingStarted then
      (s, [.blockDelta s.thinkingIdx (.thinkingD d)])
    else
      let idx := s.curIdx
      ({ s with thinkingStarted := true, thinkingIdx := idx, curIdx := idx + 1 },
       [.blockStart idx .thinking, .blockDelta idx (.thinkingD d)])
  | .itemStarted item => cdxItemStarted s item
  | .itemCompleted item => cdxItemCompleted s item
  | .turnCompleted => (s, [])
  | .tokenUsage i o => ({ s with usageIn := i, usageOut := o }, [])
  | .errorNote msg =>
    let p := cdxOpenTextNoClose s
    (p.1, p.2 ++ [.blockDelta p.1.textIdx (.textD ("Error: " ++ msg))])
  | .otherMethod => (s, [])

/-- The notification loop: processes notes in order, breaking after a
`turn/completed` notification. -/
def cdxRun (s : CodexState) : List CodexNote → CodexState × List SSE
  | [] => (s, [])
  | .turnCompleted :: _ => (s, [])
  | n :: rest =>
    let p := cdxStep s n
    let q := cdxRun p.1 rest
    (q.1, p.2 ++ q.2)

/-- How the notification stream ends when no `turn/completed` note arrives:
subprocess EOF, or the 300-second idle timeout of `_read_notifications`
(which logs a warning and breaks the loop — nothing else). -/
inductive CodexEnd
  | turnDone
  | eof
  | timeout
deriving DecidableEq, Repr

/-- Whether the pre-loop handshake (pty/subprocess spawn, `initialize`,
`thread/start` returning a thread id) succeeded; on failure a RuntimeError
propagates out of the generator. -/
inductive CodexHandshake
  | hsOk
  | hsFailed (msg : String)
deriving DecidableEq, Repr

/-- `CodexClient.handle` as a whole: the pair is (frames yielded, uncaught
exception).  The `try` block around the handshake and loop has only a
`finally` (resource cleanup, no emission), so a handshake failure escapes
after `message_start`/`ping` were already yielded, and the loop's end kind
(`turn/completed`, EOF or idle timeout) makes no difference to the
suffix. -/
def codexHandle (hs : CodexHandshake) (notes : List CodexNote) (_ : CodexEnd) :
    List SSE × Option String :=
  match hs with
  | .hsFailed msg => ([.messageStart Usage.zero, .ping], some msg)
  | .hsOk =>
    let p := cdxRun CodexState.init notes
    ([.messageStart Usage.zero, .ping] ++ p.2
       ++ (if p.1.thinkingStarted then closeThinking p.1.thinkingIdx "" else [])
       ++ (if p.1.textStarted then [.blockStop p.1.textIdx] else [])
       ++ [.messageDelta "end_turn" ⟨p.1.usageIn, 0, 0, p.1.usageOut⟩,
           .messageStop, .doneMarker],
     none)

/-! ## server.py: provider dispatch (`AnthropicBridge._get_provider`)

The memoization dicts hold no logic relevant to selection and are elided;
`_make_provider` is modelled by its availability test plus the
(provider, model) pair it would construct. -/

inductive ProviderType
  | openrouter
  | copilot
  | openai
deriving DecidableEq, Repr

def providerName : ProviderType → String
  | .openrouter => "openrouter"
  | .copilot => "copilot"
  | .openai => "openai"

/-- `ProxyConfig` plus the `auth_file_exists()` environment fact consulted
for the OpenAI provider. -/
structure ProxyConfig where
  openrouterApiKey : Option String
  copilotToken : Option String
  authFileExists : Bool
deriving DecidableEq, Repr

def strStartsWith (pre s : String) : Bool := pre.data.isPrefixOf s.data

def strHasSlash (s : String) : Bool := hasSlash s.data

def strAfterFirstSlash (s : String) : String := ⟨afterFirstSlash s.data⟩

/-- `_get_requested_provider`. -/
def get_requested_provider (model : String) : Option ProviderType :=
  if strStartsWith "openai/" model then some .openai
  else if strStartsWith "copilot/" model then some .copilot
  else if strStartsWith "openrouter/" model then some .openrouter
  else none

/-- `_model_for_provider`: re-prefix the part after the first "/" (or the
whole identifier when it has no slash). -/
def model_for_provider (model : String) (p : ProviderType) : String :=
  let name := if strHasSlash model then strAfterFirstSlash model else model
  providerName p ++ "/" ++ name

def provider_available (cfg : ProxyConfig) : ProviderType → Bool
  | .openrouter => cfg.openrouterApiKey.isSome
  | .copilot => cfg.copilotToken.isSome
  | .openai => cfg.authFileExists

/-- `_make_provider`: the (provider, constructed-model) pair when the
provider's credential is available, else `none`. -/
def make_provider (cfg : ProxyConfig) (model : String) (p : ProviderType) :
    Option (ProviderType × String) :=
  if provider_available cfg p then some (p, model) else none

/-- `_get_provider`: try the requested provider, then the fixed priority
order `openrouter, copilot, openai`, skipping the requested one. -/
def get_provider (cfg : ProxyConfig) (model : String) :
    Option (ProviderType × String) :=
  let requested := get_requested_provider model
  let first : Option (ProviderType × String) :=
    match requested with
    | some p => make_provider cfg (model_for_provider model p) p
    | none => none
  match first with
  | some r => some r
  | none =>
    [ProviderType.openrouter, ProviderType.copilot, ProviderType.openai].foldl
      (fun acc pt =>
        match acc with
        | some r => some r
        | none =>
          if requested = some pt then none
          else make_provider cfg (model_for_provider model pt) pt)
      none

/-- The `POST /v1/messages` response shape: a streaming response driven by a
constructed provider, or a JSON error body (no provider constructed, no
upstream connection opened). -/
inductive Response
  | streamResp (p : ProviderType) (model : String)
  | jsonError (status : Nat) (errType : String) (msg : String)
deriving DecidableEq, Repr

/-- The fixed 401 body message of `server.py::messages`. -/
def authErrorMsg : String :=
  "No provider configured. Set OPENROUTER_API_KEY, GITHUB_COPILOT_TOKEN, or configure OpenAI auth."

/-- The `messages` route: dispatch, else the 401 JSON error body. -/
def messages (cfg : ProxyConfig) (model : String) : Response :=
  match get_provider cfg model with
  | none => .jsonError 401 "authentication_error" authErrorMsg
  | some r => .streamResp r.1 r.2

/-- First available provider of a candidate list, as worded by the claim. -/
def firstAvailable (cfg : ProxyConfig) (model : String) :
    List ProviderType → Option (ProviderType × String)
  | [] => none
  | q :: rest =>
    if provider_available cfg q then some (q, model_for_provider model q)
    else firstAvailable cfg model rest

/-- Naive substring test: `containsSub needle hay`. -/
def containsSub (needle : List Char) : List Char → Bool
  | [] => needle.isEmpty
  | c :: rest => needle.isPrefixOf (c :: rest) || containsSub needle rest

/-! ## providers/openai/auth.py: `get_auth` under concurrency (C9)

`get_auth` holds no lock: its await points (the auth-file read and the
refresh POST) let concurrent callers interleave.  Each caller is modelled as
the sequence of atomic segments between those await points, operating on a
shared `AuthSys`; `cache` is the caller-side cached `(token, expires_at)`
pair that `OpenAIProvider.handle` reads before and writes after the call
(only the skewed expiry matters here), `fileExp` the `exp` claim of the
access token currently in the auth file, and `refreshCount` the number of
refresh exchanges performed against the authorization endpoint. -/

structure AuthSys where
  cache : Option Int
  fileExp : Int
  refreshCount : Nat
deriving DecidableEq, Repr

/-- Program counter of one `get_auth` caller: check the cached expiry,
suspend at `read_auth_file`, decide on the file token's expiry (minus the
60-second skew), suspend at `refresh_tokens`, then persist and publish. -/
inductive AuthPC
  | start
  | atFileRead
  | atRefresh (localExp : Int)
  | atWriteBack (localNewExp : Int)
  | finished (didRefresh : Bool)
deriving DecidableEq, Repr

/-- One atomic segment of a `get_auth` caller.  `now` is the fixed current
time, `freshExp` the `exp` claim of the token the refresh exchange
returns. -/
def authStep (now freshExp : Int) (sys : AuthSys) : AuthPC → AuthSys × AuthPC
  | .start =>
    match sys.cache with
    | some e => if now < e then (sys, .finished false) else (sys, .atFileRead)
    | none => (sys, .atFileRead)
  | .atFileRead =>
    if now < sys.fileExp - 60 then
      ({ sys with cache := some (sys.fileExp - 60) }, .finished false)
    else (sys, .atRefresh sys.fileExp)
  | .atRefresh _ =>
    ({ sys with refreshCount := sys.refreshCount + 1, fileExp := freshExp },
     .atWriteBack freshExp)
  | .atWriteBack localNewExp =>
    ({ sys with cache := some (localNewExp - 60) }, .finished true)
  | .finished b => (sys, .finished b)

/-- Two concurrent callers sharing one `AuthSys`. -/
structure RaceState where
  sys : AuthSys
  pc0 : AuthPC
  pc1 : AuthPC
deriving DecidableEq, Repr

def raceStep (now freshExp : Int) (st : RaceState) (who : Bool) : RaceState :=
  if who then
    let p := authStep now freshExp st.sys st.pc1
    { st with sys := p.1, pc1 := p.2 }
  else
    let p := authStep now freshExp st.sys st.pc0
    { st with sys := p.1, pc0 := p.2 }

def raceRun (now freshExp : Int) (st : RaceState) (sched : List Bool) : RaceState :=
  sched.foldl (raceStep now freshExp) st

/-- Scenario D's initial state: the cached token's stored (already skewed)
expiry lies 30 seconds in the past because the file token's `exp` is 30
seconds in the future, inside the 60-second skew buffer. -/
def raceInit (now : Int) : RaceState :=
  { sys := { cache := some (now - 30), fileExp := now + 30, refreshCount := 0 },
    pc0 := .start, pc1 := .start }

/-! ## Derived observations on emitted frame sequences -/

def hasEvt (p : SSE → Bool) (l : List SSE) : Bool := l.any p

def msgStartCount (l : List SSE) : Nat := l.countP SSE.isMessageStart

def msgStopCount (l : List SSE) : Nat := l.countP SSE.isMessageStop

/-- The last named event of an output (ignoring the bare `[DONE]` frame). -/
def lastNamed (l : List SSE) : Option SSE := (namedEvents l).getLast?

/-- A terminal `message_delta` carrying the given stop reason. -/
def isStopReasonDelta (sr : String) : SSE → Bool
  | .messageDelta r _ => r == sr
  | _ => false

/-- Scanner for the thinking-closure discipline.  The state is the currently
open thinking block (its index, and whether its `signature_delta` has been
seen); the scan fails (`none`) when a text block starts, the terminal
`message_delta`/`message_stop` arrives, or the thinking block is stopped
without a preceding `signature_delta`, while a thinking block is open.  With
`toolStrict := true` a `tool_use` block start while thinking is open also
fails — this is the discipline exactly as the claim states it. -/
def thinkStep (toolStrict : Bool) (σ : Option (Int × Bool)) (e : SSE) :
    Option (Option (Int × Bool)) :=
  match σ, e with
  | some _, .blockStart _ .text => none
  | some p, .blockStart _ (.toolUse _ _) =>
    if toolStrict then none else some (some p)
  | some _, .messageDelta _ _ => none
  | some _, .messageStop => none
  | some (i, sawSig), .blockDelta j (.signatureD _) =>
    if j = i then some (some (i, true)) else some (some (i, sawSig))
  | some (i, sawSig), .blockStop j =>
    if j = i then (if sawSig then some none else none)
    else some (some (i, sawSig))
  | none, .blockStart i .thinking => some (some (i, false))
  | σ2, _ => some σ2

def thinkScan (toolStrict : Bool) (σ : Option (Int × Bool)) :
    List SSE → Option (Option (Int × Bool))
  | [] => some σ
  | e :: rest =>
    match thinkStep toolStrict σ e with
    | none => none
    | some σ2 => thinkScan toolStrict σ2 rest

/-- The thinking-closure discipline holds along `l` starting with no open
thinking block. -/
def thinkOK (toolStrict : Bool) (l : List SSE) : Bool :=
  (thinkScan toolStrict none l).isSome

/-- Strict increase of an index sequence, as the claim words it. -/
def strictlyInc : List Int → Bool
  | [] => true
  | [_] => true
  | a :: b :: rest => (a < b : Bool) && strictlyInc (b :: rest)

/-- The claim-side candidate order of C6: the requested provider first, then
the fixed priority order with the requested provider removed. -/
def claimedTryOrder (p : ProviderType) : List ProviderType :=
  p :: ([ProviderType.openrouter, ProviderType.copilot, ProviderType.openai].filter
    fun q => q != p)


/-- The thinking-scanner state corresponding to an OpenAI machine state. -/
def oaiScanSt (s : OAIState) : Option (Int × Bool) :=
  if s.thinkingStarted = true then some (s.thinkingIdx, false) else none

def coScanSt (s : CoState) : Option (Int × Bool) :=
  if s.thinkingStarted = true then some (s.thinkingIdx, false) else none

def respScanSt (s : RespState) : Option (Int × Bool) :=
  if s.thinkingStarted = true then some (s.thinkingIdx, false) else none

/-- Index-freshness invariant of the Copilot machine state: every allocated
block index is below the allocation counter, and while a thinking block is
open its index differs from the text index and from every tool block
index. -/
structure CoInv (s : CoState) : Prop where
  think_lt : s.thinkingStarted = true → s.thinkingIdx < s.curIdx
  text_lt : s.textStarted = true → s.textIdx < s.curIdx
  tools_lt : ∀ kv ∈ s.tools, kv.2.blockIdx < s.curIdx
  text_ne : s.thinkingStarted = true → s.textStarted = true →
    s.textIdx ≠ s.thinkingIdx
  tools_ne : s.thinkingStarted = true → ∀ kv ∈ s.tools,
    kv.2.blockIdx ≠ s.thinkingIdx

/-- Index-freshness invariant of the responses machine state. -/
structure RespInv (s : RespState) : Prop where
  think_lt : s.thinkingStarted = true → s.thinkingIdx < s.curIdx
  text_lt : s.textStarted = true → s.textIdx < s.curIdx
  tools_lt : ∀ kv ∈ s.tools, kv.2.blockIdx < s.curIdx
  text_ne : s.thinkingStarted = true → s.textStarted = true →
    s.textIdx ≠ s.thinkingIdx
  tools_ne : s.thinkingStarted = true → ∀ kv ∈ s.tools,
    kv.2.blockIdx ≠ s.thinkingIdx

/-- Invariant of the OpenAI machine state relative to the start indices
`seen` emitted so far: index freshness, distinct tool keys and block
indices, and every not-yet-started tool slot's index unseen. -/
structure OAIInv (s : OAIState) (seen : List Int) : Prop where
  think_lt : s.thinkingStarted = true → s.thinkingIdx < s.curIdx
  text_lt : s.textStarted = true → s.textIdx < s.curIdx
  tools_lt : ∀ kv ∈ s.tools, kv.2.blockIdx < s.curIdx
  text_ne : s.thinkingStarted = true → s.textStarted = true →
    s.textIdx ≠ s.thinkingIdx
  tools_ne : s.thinkingStarted = true → ∀ kv ∈ s.tools,
    kv.2.blockIdx ≠ s.thinkingIdx
  keys_nodup : (s.tools.map Prod.fst).Nodup
  tools_nodup : (s.tools.map fun kv => kv.2.blockIdx).Nodup
  seen_nodup : seen.Nodup
  seen_lt : ∀ i ∈ seen, i < s.curIdx
  unstarted_notin : ∀ kv ∈ s.tools, kv.2.started = false →
    kv.2.blockIdx ∉ seen

/-- Index-freshness invariant of the Copilot machine state relative to the
start indices `seen` emitted so far, used to show block indices are never
reused. -/
structure CoSeenInv (s : CoState) (seen : List Int) : Prop where
  think_lt : s.thinkingStarted = true → s.thinkingIdx < s.curIdx
  text_lt : s.textStarted = true → s.textIdx < s.curIdx
  tools_lt : ∀ kv ∈ s.tools, kv.2.blockIdx < s.curIdx
  text_ne : s.thinkingStarted = true → s.textStarted = true →
    s.textIdx ≠ s.thinkingIdx
  tools_ne : s.thinkingStarted = true → ∀ kv ∈ s.tools,
    kv.2.blockIdx ≠ s.thinkingIdx
  keys_nodup : (s.tools.map Prod.fst).Nodup
  tools_nodup : (s.tools.map fun kv => kv.2.blockIdx).Nodup
  seen_nodup : seen.Nodup
  seen_lt : ∀ i ∈ seen, i < s.curIdx
  unstarted_notin : ∀ kv ∈ s.tools, kv.2.started = false →
    kv.2.blockIdx ∉ seen

/-! ## Theorems -/

theorem lowerChar_eq_slash_iff (c : Char) : lowerChar c = '/' ↔ c = '/' := by
  constructor
  · intro h
    unfold lowerChar at h
    split at h
    · exfalso
      next hc =>
        have hv : (Char.ofNat (c.toNat + 32)).toNat = c.toNat + 32 := by
          unfold Char.ofNat
          split
          · rfl
          · next hbad => exact absurd (Or.inl (by omega)) hbad
        have h47 : ('/' : Char).toNat = 47 := by decide
        have := congrArg Char.toNat h
        rw [hv, h47] at this
        omega
    · exact h
  · intro h
    subst h
    decide

theorem lowerChar_beq_slash (c : Char) : (lowerChar c == '/') = (c == '/') := by
  by_cases h : c = '/'
  · subst h; decide
  · have h2 : lowerChar c ≠ '/' := fun hc => h ((lowerChar_eq_slash_iff c).mp hc)
    simp [h, h2]

theorem hasSlash_lowerStr (s : List Char) : hasSlash (lowerStr s) = hasSlash s := by
  induction s with
  | nil => rfl
  | cons c rest ih =>
    simp only [lowerStr, hasSlash, List.map_cons, List.any_cons] at *
    rw [lowerChar_beq_slash, ih]

theorem afterFirstSlash_lowerStr (s : List Char) :
    afterFirstSlash (lowerStr s) = lowerStr (afterFirstSlash s) := by
  induction s with
  | nil => rfl
  | cons c rest ih =>
    simp only [lowerStr, List.map_cons, afterFirstSlash]
    rw [lowerChar_beq_slash]
    by_cases h : (c == '/') = true
    · simp [h]
    · simp only [Bool.not_eq_true] at h
      simp only [h, Bool.false_eq_true, if_false]
      exact ih

theorem supportsXhigh_eq (m : Option (List Char)) :
    model_supports_xhigh m = claimSupportsXhigh m := by
  cases m with
  | none => rfl
  | some s =>
    cases s with
    | nil => rfl
    | cons c rest =>
      simp only [model_supports_xhigh, claimSupportsXhigh, List.isEmpty_cons,
        if_false, Bool.false_eq_true]
      rw [hasSlash_lowerStr]
      by_cases h : hasSlash (c :: rest) = true
      · simp only [h, if_true]
        rw [afterFirstSlash_lowerStr]
      · simp only [Bool.not_eq_true] at h
        simp [h]

/-- C10: `map_reasoning_effort` is total and implements the fixed
budget-to-effort table: `none` for a missing, zero or negative budget, `low`
on `[1, 10000)`, `medium` on `[10000, 15000)`, `high` on `[15000, 32000)`,
and for budgets ≥ 32000 `xhigh` exactly when the model id (stripped of an
optional provider prefix and lowercased) starts with `gpt-5.1-codex-max`,
`gpt-5.2` or `gpt-5.3`, else `high`. -/
theorem C10_map_reasoning_effort_table :
    ∀ (budget : Option Int) (model : Option (List Char)),
      map_reasoning_effort budget model = claimedReasoningEffort budget model := by
  intro budget model
  cases budget with
  | none => rfl
  | some b =>
    simp only [map_reasoning_effort, claimedReasoningEffort]
    rw [supportsXhigh_eq]
    split_ifs <;> first | rfl | omega

/-! ### Structural lemmas: loop emissions are inner frames; one start, one stop -/


theorem dictLookup_dictSet_self {K V : Type} [DecidableEq K]
    (d : List (K × V)) (k : K) (v : V) :
    dictLookup (dictSet d k v) k = some v := by
  induction d with
  | nil => simp [dictSet, dictLookup]
  | cons kv rest ih =>
    by_cases h : kv.1 = k
    · simp [dictSet, dictLookup, h]
    · simp [dictSet, dictLookup, h, ih]

theorem oaiStepReasoning_inner (s : OAIState) (r : Option String) :
    (oaiStepReasoning s r).2.all SSE.isInner = true := by
  cases r with
  | none => rfl
  | some txt =>
    by_cases h : s.thinkingStarted = true <;>
      simp [oaiStepReasoning, h, SSE.isInner]

theorem oaiStepContent_inner (s : OAIState) (c : Option String) :
    (oaiStepContent s c).2.all SSE.isInner = true := by
  cases c with
  | none => rfl
  | some txt =>
    by_cases h1 : s.thinkingStarted = true <;>
      by_cases h2 : s.textStarted = true <;>
        simp [oaiStepContent, h1, h2, SSE.isInner, closeThinking]

theorem oaiStepToolCall_inner (now : Nat) (s : OAIState) (tc : OAIToolCallDelta) :
    (oaiStepToolCall now s tc).2.all SSE.isInner = true := by
  by_cases hmem : (dictLookup s.tools tc.index).isSome = true
  · rw [Option.isSome_iff_exists] at hmem
    obtain ⟨t, ht⟩ := hmem
    rcases heqi : tc.tid with _ | i <;>
      rcases heqf : tc.fname with _ | nm <;>
        rcases heqa : tc.fargs with _ | a <;>
          by_cases hst : t.started = true <;>
            simp [oaiStepToolCall, ht, heqi, heqf, heqa, hst, SSE.isInner,
              Option.isSome_iff_exists]
  · rcases heqi : tc.tid with _ | i <;>
      rcases heqf : tc.fname with _ | nm <;>
        rcases heqa : tc.fargs with _ | a <;>
          by_cases h1 : s.thinkingStarted = true <;>
            by_cases h2 : s.textStarted = true <;>
              simp [oaiStepToolCall, hmem, heqi, heqf, heqa, h1, h2, SSE.isInner,
                closeThinking, dictLookup_dictSet_self]



theorem oaiStepFinish_inner (s : OAIState) (f : Option String) :
    (oaiStepFinish s f).2.all SSE.isInner = true := by
  unfold oaiStepFinish
  split
  · simp only [List.all_eq_true]
    intro e he
    simp only [List.mem_filterMap] at he
    obtain ⟨kv, -, hkv⟩ := he
    split at hkv
    · cases hkv; rfl
    · cases hkv
  · rfl

theorem oaiStepToolCalls_inner (now : Nat) (s : OAIState)
    (tcs : List OAIToolCallDelta) :
    (oaiStepToolCalls now s tcs).2.all SSE.isInner = true := by
  induction tcs generalizing s with
  | nil => rfl
  | cons tc rest ih =>
    simp [oaiStepToolCalls, List.all_append, oaiStepToolCall_inner, ih]

theorem oaiStepChunk_inner (now : Nat) (s : OAIState) (ch : OAIChunk) :
    (oaiStepChunk now s ch).2.all SSE.isInner = true := by
  rcases hu : ch.usage with _ | u <;> rcases hc : ch.choice with _ | d <;>
    simp [oaiStepChunk, hu, hc, List.all_append, oaiStepReasoning_inner,
      oaiStepContent_inner, oaiStepToolCalls_inner, oaiStepFinish_inner]

theorem oaiRunChunks_inner (now : Nat) (s : OAIState) (chunks : List OAIChunk) :
    (oaiRunChunks now s chunks).2.all SSE.isInner = true := by
  induction chunks generalizing s with
  | nil => rfl
  | cons ch rest ih =>
    simp [oaiRunChunks, List.all_append, oaiStepChunk_inner, ih]

theorem oaiCloseAll_inner (s : OAIState) :
    (oaiCloseAll s).all SSE.isInner = true := by
  unfold oaiCloseAll
  simp only [List.all_append, Bool.and_eq_true]
  refine ⟨⟨?_, ?_⟩, ?_⟩
  · split <;> simp [closeThinking, SSE.isInner]
  · split <;> simp [SSE.isInner]
  · simp only [List.all_eq_true]
    intro e he
    simp only [List.mem_filterMap] at he
    obtain ⟨kv, -, hkv⟩ := he
    split at hkv
    · cases hkv; rfl
    · cases hkv

theorem coStepReasoning_inner (s : CoState) (r : Option String) :
    (coStepReasoning s r).2.all SSE.isInner = true := by
  cases r with
  | none => rfl
  | some txt =>
    by_cases h : s.thinkingStarted = true <;>
      simp [coStepReasoning, h, SSE.isInner]

theorem coStepContent_inner (s : CoState) (c : Option String) :
    (coStepContent s c).2.all SSE.isInner = true := by
  cases c with
  | none => rfl
  | some txt =>
    by_cases h1 : s.thinkingStarted = true <;>
      by_cases h2 : s.textStarted = true <;>
        simp [coStepContent, h1, h2, SSE.isInner, closeThinking]

theorem coStepToolCall_inner (now : Nat) (s : CoState) (tc : CoToolCallDelta) :
    (coStepToolCall now s tc).2.all SSE.isInner = true := by
  by_cases hmem : (dictLookup s.tools tc.index).isSome = true
  · rw [Option.isSome_iff_exists] at hmem
    obtain ⟨t, ht⟩ := hmem
    rcases heqf : tc.fname with _ | nm <;>
      rcases heqa : tc.fargs with _ | a <;>
        by_cases hst : t.started = true <;>
          simp [coStepToolCall, ht, heqf, heqa, hst, SSE.isInner,
            Option.isSome_iff_exists]
  · rcases heqf : tc.fname with _ | nm <;>
      rcases heqa : tc.fargs with _ | a <;>
        by_cases h2 : s.textStarted = true <;>
          simp [coStepToolCall, hmem, heqf, heqa, h2, SSE.isInner,
            dictLookup_dictSet_self]

theorem coStepFinish_inner (s : CoState) (f : Option String) :
    (coStepFinish s f).2.all SSE.isInner = true := by
  unfold coStepFinish
  split
  · simp only [List.all_eq_true]
    intro e he
    simp only [List.mem_filterMap] at he
    obtain ⟨kv, -, hkv⟩ := he
    split at hkv
    · cases hkv; rfl
    · cases hkv
  · rfl

theorem coStepToolCalls_inner (now : Nat) (s : CoState)
    (tcs : List CoToolCallDelta) :
    (coStepToolCalls now s tcs).2.all SSE.isInner = true := by
  induction tcs generalizing s with
  | nil => rfl
  | cons tc rest ih =>
    simp [coStepToolCalls, List.all_append, coStepToolCall_inner, ih]

theorem coStepData_inner (now : Nat) (s : CoState) (d : CoData) :
    (coStepData now s d).2.all SSE.isInner = true := by
  rcases hu : d.usage with _ | u <;> rcases ho : d.reasoningOpaque with _ | ro <;>
    simp [coStepData, hu, ho, List.all_append, coStepReasoning_inner,
      coStepContent_inner, coStepToolCalls_inner, coStepFinish_inner]

theorem coRunData_inner (now : Nat) (s : CoState) (ds : List CoData) :
    (coRunData now s ds).2.all SSE.isInner = true := by
  induction ds generalizing s with
  | nil => rfl
  | cons d rest ih =>
    simp [coRunData, List.all_append, coStepData_inner, ih]

theorem coCloseAll_inner (s : CoState) :
    (coCloseAll s).all SSE.isInner = true := by
  unfold coCloseAll
  simp only [List.all_append, Bool.and_eq_true]
  refine ⟨⟨?_, ?_⟩, ?_⟩
  · split <;> simp [closeThinking, SSE.isInner]
  · split <;> simp [SSE.isInner]
  · simp only [List.all_eq_true]
    intro e he
    simp only [List.mem_filterMap] at he
    obtain ⟨kv, -, hkv⟩ := he
    split at hkv
    · cases hkv; rfl
    · cases hkv

theorem respStep_inner (now : Nat) (s : RespState) (e : RespEvent) :
    (respStep now s e).2.all SSE.isInner = true := by
  cases e with
  | outputTextDelta d =>
    cases d with
    | none => rfl
    | some txt =>
      by_cases h1 : s.thinkingStarted = true <;>
        by_cases h2 : s.textStarted = true <;>
          simp [respStep, h1, h2, SSE.isInner, closeThinking]
  | reasoningDelta d =>
    cases d with
    | none => rfl
    | some txt =>
      by_cases h : s.thinkingStarted = true <;>
        simp [respStep, h, SSE.isInner]
  | itemAddedFunctionCall cid name => simp [respStep, SSE.isInner]
  | funcArgsDelta cid d =>
    rcases ht : dictLookup s.tools cid with _ | t <;>
      rcases hd : d with _ | txt <;>
        simp [respStep, ht, hd, SSE.isInner]
  | itemDoneFunctionCall cid args =>
    rcases ht : dictLookup s.tools cid with _ | t
    · simp [respStep, ht]
    · by_cases hc : t.closed = true <;>
        rcases ha : args with _ | a <;>
          simp [respStep, ht, hc, ha, SSE.isInner]
  | completed uIn uOut => rfl
  | otherEvent => rfl

theorem respRun_inner (now : Nat) (s : RespState) (evs : List RespEvent) :
    (respRun now s evs).2.all SSE.isInner = true := by
  induction evs generalizing s with
  | nil => rfl
  | cons e rest ih =>
    cases e <;> simp [respRun, List.all_append, respStep_inner, ih]

theorem respCloseAll_inner (s : RespState) :
    (respCloseAll s).all SSE.isInner = true := by
  unfold respCloseAll
  simp only [List.all_append, Bool.and_eq_true]
  refine ⟨⟨?_, ?_⟩, ?_⟩
  · split <;> simp [closeThinking, SSE.isInner]
  · split <;> simp [SSE.isInner]
  · simp only [List.all_eq_true]
    intro e he
    simp only [List.mem_filterMap] at he
    obtain ⟨kv, -, hkv⟩ := he
    split at hkv
    · cases hkv; rfl
    · cases hkv



theorem cdxOpenTextNoClose_inner (s : CodexState) :
    (cdxOpenTextNoClose s).2.all SSE.isInner = true := by
  by_cases h : s.textStarted = true <;> simp [cdxOpenTextNoClose, h, SSE.isInner]

theorem cdxOpenTextClosing_inner (s : CodexState) :
    (cdxOpenTextClosing s).2.all SSE.isInner = true := by
  by_cases h1 : s.textStarted = true <;>
    by_cases h2 : s.thinkingStarted = true <;>
      simp [cdxOpenTextClosing, h1, h2, SSE.isInner, closeThinking]

theorem cdxFileStartChanges_inner (id : String) (s : CodexState)
    (chs : List CodexChange) :
    (cdxFileStartChanges id s chs).2.all SSE.isInner = true := by
  induction chs generalizing s with
  | nil => rfl
  | cons ch rest ih =>
    simp [cdxFileStartChanges, List.all_append, cdxOpenTextNoClose_inner, ih,
      SSE.isInner]

theorem cdxItemStarted_inner (s : CodexState) (item : CodexItem) :
    (cdxItemStarted s item).2.all SSE.isInner = true := by
  cases item with
  | commandExecution id cmd out code =>
    simp [cdxItemStarted, List.all_append, cdxOpenTextClosing_inner, SSE.isInner]
  | fileChange id changes => exact cdxFileStartChanges_inner id _ changes
  | mcpToolCall id tool argsJson outJson =>
    simp [cdxItemStarted, List.all_append, cdxOpenTextNoClose_inner, SSE.isInner]
  | webSearch id query =>
    simp [cdxItemStarted, List.all_append, cdxOpenTextNoClose_inner, SSE.isInner]
  | otherItem => rfl

theorem cdxFileDoneChanges_inner (id : String) (s : CodexState)
    (chs : List CodexChange) :
    (cdxFileDoneChanges id s chs).2.all SSE.isInner = true := by
  induction chs generalizing s with
  | nil => rfl
  | cons ch rest ih =>
    rcases ht : dictLookup s.activeTools (id ++ ":" ++ ch.path) with _ | toolId <;>
      simp [cdxFileDoneChanges, ht, List.all_append, ih, SSE.isInner]

theorem cdxItemCompleted_inner (s : CodexState) (item : CodexItem) :
    (cdxItemCompleted s item).2.all SSE.isInner = true := by
  cases item with
  | commandExecution id cmd out code =>
    rcases ht : dictLookup s.activeTools id with _ | toolId <;>
      simp [cdxItemCompleted, ht, List.all_append, cdxOpenTextNoClose_inner,
        SSE.isInner]
  | fileChange id changes => exact cdxFileDoneChanges_inner id _ changes
  | mcpToolCall id tool argsJson outJson =>
    rcases ht : dictLookup s.activeTools id with _ | toolId <;>
      simp [cdxItemCompleted, ht, List.all_append, cdxOpenTextNoClose_inner,
        SSE.isInner]
  | webSearch id query =>
    rcases ht : dictLookup s.activeTools id with _ | toolId <;>
      simp [cdxItemCompleted, ht, List.all_append, cdxOpenTextNoClose_inner,
        SSE.isInner]
  | otherItem => rfl

theorem cdxStep_inner (s : CodexState) (n : CodexNote) :
    (cdxStep s n).2.all SSE.isInner = true := by
  cases n with
  | agentMessageDelta d =>
    cases d with
    | none => rfl
    | some txt =>
      simp [cdxStep, List.all_append, cdxOpenTextClosing_inner, SSE.isInner]
  | reasoningSummaryDelta d =>
    cases d with
    | none => rfl
    | some txt =>
      by_cases h : s.thinkingStarted = true <;> simp [cdxStep, h, SSE.isInner]
  | itemStarted item => exact cdxItemStarted_inner s item
  | itemCompleted item => exact cdxItemCompleted_inner s item
  | turnCompleted => rfl
  | tokenUsage i o => rfl
  | errorNote msg =>
    simp [cdxStep, List.all_append, cdxOpenTextNoClose_inner, SSE.isInner]
  | otherMethod => rfl

theorem cdxRun_inner (s : CodexState) (notes : List CodexNote) :
    (cdxRun s notes).2.all SSE.isInner = true := by
  induction notes generalizing s with
  | nil => rfl
  | cons n rest ih =>
    cases n <;> simp [cdxRun, List.all_append, cdxStep_inner, ih]



theorem inner_count_zero (l : List SSE) (h : l.all SSE.isInner = true)
    (p : SSE → Bool) (hp : ∀ e, SSE.isInner e = true → p e = false) :
    l.countP p = 0 := by
  rw [List.countP_eq_zero]
  intro a ha
  have h2 := (List.all_eq_true.mp h) a ha
  simp [hp a h2]

theorem inner_not_start (e : SSE) (h : SSE.isInner e = true) :
    SSE.isMessageStart e = false := by
  cases e <;> simp_all [SSE.isInner, SSE.isMessageStart]

theorem inner_not_stop (e : SSE) (h : SSE.isInner e = true) :
    SSE.isMessageStop e = false := by
  cases e <;> simp_all [SSE.isInner, SSE.isMessageStop]

theorem lastNamed_append (a b : List SSE) (x : SSE) (h : lastNamed b = some x) :
    lastNamed (a ++ b) = some x := by
  unfold lastNamed namedEvents at *
  rw [List.filter_append, List.getLast?_append, h]
  rfl

theorem openai_one_start_stop (now : Nat) (chunks : List OAIChunk) (e : UpstreamEnd) :
    msgStartCount (openaiStream now chunks e) = 1 ∧
    msgStopCount (openaiStream now chunks e) = 1 ∧
    lastNamed (openaiStream now chunks e) = some .messageStop := by
  have hloop := oaiRunChunks_inner now OAIState.init chunks
  have hclose := oaiCloseAll_inner (oaiRunChunks now OAIState.init chunks).1
  refine ⟨?_, ?_, ?_⟩
  · unfold openaiStream msgStartCount
    cases e <;>
      simp [List.countP_append, List.countP_cons, SSE.isMessageStart,
        inner_count_zero _ hloop _ inner_not_start,
        inner_count_zero _ hclose _ inner_not_start]
  · unfold openaiStream msgStopCount
    cases e <;>
      simp [List.countP_append, List.countP_cons, SSE.isMessageStop,
        inner_count_zero _ hloop _ inner_not_stop,
        inner_count_zero _ hclose _ inner_not_stop]
  · cases e with
    | err m =>
      show lastNamed ([.messageStart Usage.zero, .ping]
        ++ ((oaiRunChunks now OAIState.init chunks).2
          ++ [.errorEvent m, .messageStop, .doneMarker])) = some .messageStop
      exact lastNamed_append _ _ _ (lastNamed_append _ _ _ rfl)
    | ok =>
      show lastNamed ([.messageStart Usage.zero, .ping]
        ++ ((oaiRunChunks now OAIState.init chunks).2
          ++ (oaiCloseAll (oaiRunChunks now OAIState.init chunks).1
            ++ [.messageDelta "end_turn" (oaiUsage (oaiRunChunks now OAIState.init chunks).1),
                .messageStop, .doneMarker]))) = some .messageStop
      exact lastNamed_append _ _ _ (lastNamed_append _ _ _ (lastNamed_append _ _ _ rfl))



theorem lastNamed_tail3 (a : List SSE) (sr : String) (u : Usage) :
    lastNamed (a ++ [.messageDelta sr u, .messageStop, .doneMarker]) =
      some .messageStop := lastNamed_append _ _ _ rfl

theorem lastNamed_tail2 (a : List SSE) (sr : String) (u : Usage) :
    lastNamed (a ++ [.messageDelta sr u, .messageStop]) =
      some .messageStop := lastNamed_append _ _ _ rfl

theorem lastNamed_errtail (a : List SSE) (m : String) :
    lastNamed (a ++ [.errorEvent m, .messageStop, .doneMarker]) =
      some .messageStop := lastNamed_append _ _ _ rfl

theorem copilot_one_start_stop (now : Nat) (tm : String) (ds : List CoData)
    (e : UpstreamEnd) :
    msgStartCount (copilotStream now tm ds e) = 1 ∧
    msgStopCount (copilotStream now tm ds e) = 1 ∧
    lastNamed (copilotStream now tm ds e) = some .messageStop := by
  have hloop := coRunData_inner now CoState.init ds
  have hclose := coCloseAll_inner (coRunData now CoState.init ds).1
  refine ⟨?_, ?_, ?_⟩
  · unfold copilotStream msgStartCount
    cases e <;>
      by_cases hnc : (!(coRunData now CoState.init ds).1.hadContent &&
        (coRunData now CoState.init ds).1.tools.isEmpty) = true <;>
      simp [List.countP_append, List.countP_cons, SSE.isMessageStart, hnc,
        inner_count_zero _ hloop _ inner_not_start,
        inner_count_zero _ hclose _ inner_not_start]
  · unfold copilotStream msgStopCount
    cases e <;>
      by_cases hnc : (!(coRunData now CoState.init ds).1.hadContent &&
        (coRunData now CoState.init ds).1.tools.isEmpty) = true <;>
      simp [List.countP_append, List.countP_cons, SSE.isMessageStop, hnc,
        inner_count_zero _ hloop _ inner_not_stop,
        inner_count_zero _ hclose _ inner_not_stop]
  · unfold copilotStream
    cases e with
    | err m =>
      simp only [List.append_assoc]
      exact lastNamed_append _ _ _ (lastNamed_append _ _ _ rfl)
    | ok =>
      simp only [List.append_assoc]
      exact lastNamed_append _ _ _ (lastNamed_append _ _ _
        (lastNamed_append _ _ _ (lastNamed_tail2 _ _ _)))

theorem responses_one_start_stop (now : Nat) (evs : List RespEvent)
    (e : UpstreamEnd) :
    msgStartCount (responsesStream now evs e) = 1 ∧
    msgStopCount (responsesStream now evs e) = 1 ∧
    lastNamed (responsesStream now evs e) = some .messageStop := by
  have hloop := respRun_inner now RespState.init evs
  have hclose := respCloseAll_inner (respRun now RespState.init evs).1
  refine ⟨?_, ?_, ?_⟩
  · unfold responsesStream msgStartCount
    cases e <;>
      simp [List.countP_append, List.countP_cons, SSE.isMessageStart,
        inner_count_zero _ hloop _ inner_not_start,
        inner_count_zero _ hclose _ inner_not_start]
  · unfold responsesStream msgStopCount
    cases e <;>
      simp [List.countP_append, List.countP_cons, SSE.isMessageStop,
        inner_count_zero _ hloop _ inner_not_stop,
        inner_count_zero _ hclose _ inner_not_stop]
  · unfold responsesStream
    cases e with
    | err m =>
      simp only [List.append_assoc]
      exact lastNamed_append _ _ _ (lastNamed_append _ _ _ rfl)
    | ok =>
      simp only [List.append_assoc]
      exact lastNamed_append _ _ _ (lastNamed_append _ _ _ (lastNamed_tail3 _ _ _))

theorem codex_ok_one_start_stop (notes : List CodexNote) (endk : CodexEnd) :
    msgStartCount (codexHandle .hsOk notes endk).1 = 1 ∧
    msgStopCount (codexHandle .hsOk notes endk).1 = 1 ∧
    lastNamed (codexHandle .hsOk notes endk).1 = some .messageStop ∧
    (codexHandle .hsOk notes endk).2 = none := by
  have hloop := cdxRun_inner CodexState.init notes
  refine ⟨?_, ?_, ?_, rfl⟩
  · unfold codexHandle msgStartCount
    by_cases h1 : (cdxRun CodexState.init notes).1.thinkingStarted = true <;>
      by_cases h2 : (cdxRun CodexState.init notes).1.textStarted = true <;>
      simp [List.countP_append, List.countP_cons, SSE.isMessageStart, h1, h2,
        closeThinking, inner_count_zero _ hloop _ inner_not_start]
  · unfold codexHandle msgStopCount
    by_cases h1 : (cdxRun CodexState.init notes).1.thinkingStarted = true <;>
      by_cases h2 : (cdxRun CodexState.init notes).1.textStarted = true <;>
      simp [List.countP_append, List.countP_cons, SSE.isMessageStop, h1, h2,
        closeThinking, inner_count_zero _ hloop _ inner_not_stop]
  · unfold codexHandle
    simp only [List.append_assoc]
    exact lastNamed_append _ _ _ (lastNamed_append _ _ _
      (lastNamed_append _ _ _ (lastNamed_tail3 _ _ _)))

theorem yield_error_one_start_stop (msg : String) :
    msgStartCount (yield_error_events msg) = 1 ∧
    msgStopCount (yield_error_events msg) = 1 ∧
    lastNamed (yield_error_events msg) = some .messageStop :=
  ⟨rfl, rfl, rfl⟩



/-! ### Helper lemmas: no error events from the loops -/

theorem inner_not_error (e : SSE) (h : SSE.isInner e = true) :
    SSE.isErrorEvent e = false := by
  cases e <;> simp_all [SSE.isInner, SSE.isErrorEvent]

theorem inner_any_false (l : List SSE) (h : l.all SSE.isInner = true)
    (p : SSE → Bool) (hp : ∀ e, SSE.isInner e = true → p e = false) :
    l.any p = false := by
  rw [List.any_eq_false]
  intro a ha
  have h2 := (List.all_eq_true.mp h) a ha
  simp [hp a h2]

/-! ### Claim theorems (first group) -/

/-- C1, counterexample: when the Codex handshake fails (e.g. `thread/start`
returns no thread id, or the `codex` binary cannot be spawned), the generator
has already yielded `message_start` and `ping`, and the RuntimeError then
propagates out of the `try`/`finally` — the request's event sequence contains
no `message_stop` at all, contradicting "exactly one message_stop ... always
last" for "every request ... including when the upstream fails before
producing any native event". -/
theorem C1_codex_handshake_failure_missing_stop :
    (codexHandle (.hsFailed "Failed to start thread") [] .eof).1 =
      [.messageStart Usage.zero, .ping] ∧
    msgStopCount (codexHandle (.hsFailed "Failed to start thread") [] .eof).1 = 0 ∧
    (codexHandle (.hsFailed "Failed to start thread") [] .eof).2 =
      some "Failed to start thread" :=
  ⟨rfl, rfl, rfl⟩

/-- C1, amended: for the OpenAI, Copilot chat, Copilot/responses streaming
providers and the synthesized `yield_error_events` path, every emitted event
sequence contains exactly one `message_start` and exactly one `message_stop`,
the `message_stop` last among named events; the Codex provider satisfies the
same whenever its handshake succeeds (on a handshake failure it emits
`message_start`/`ping` and then terminates with an uncaught exception,
emitting no `message_stop`). -/
theorem C1_amended_one_start_one_stop :
    (∀ (now : Nat) (chunks : List OAIChunk) (e : UpstreamEnd),
      msgStartCount (openaiStream now chunks e) = 1 ∧
      msgStopCount (openaiStream now chunks e) = 1 ∧
      lastNamed (openaiStream now chunks e) = some .messageStop) ∧
    (∀ (now : Nat) (tm : String) (ds : List CoData) (e : UpstreamEnd),
      msgStartCount (copilotStream now tm ds e) = 1 ∧
      msgStopCount (copilotStream now tm ds e) = 1 ∧
      lastNamed (copilotStream now tm ds e) = some .messageStop) ∧
    (∀ (now : Nat) (evs : List RespEvent) (e : UpstreamEnd),
      msgStartCount (responsesStream now evs e) = 1 ∧
      msgStopCount (responsesStream now evs e) = 1 ∧
      lastNamed (responsesStream now evs e) = some .messageStop) ∧
    (∀ (notes : List CodexNote) (endk : CodexEnd),
      msgStartCount (codexHandle .hsOk notes endk).1 = 1 ∧
      msgStopCount (codexHandle .hsOk notes endk).1 = 1 ∧
      lastNamed (codexHandle .hsOk notes endk).1 = some .messageStop ∧
      (codexHandle .hsOk notes endk).2 = none) ∧
    (∀ msg : String,
      msgStartCount (yield_error_events msg) = 1 ∧
      msgStopCount (yield_error_events msg) = 1 ∧
      lastNamed (yield_error_events msg) = some .messageStop) :=
  ⟨openai_one_start_stop, copilot_one_start_stop, responses_one_start_stop,
    codex_ok_one_start_stop, yield_error_one_start_stop⟩

/-- C3, counterexample: a 500 status before any event does not produce the
claimed four-frame sequence.  The responses machine emits a `ping` between
`message_start` and the error (plus a trailing `[DONE]` frame), and the
OpenAI chat machine additionally omits the `message_delta` entirely. -/
theorem C3_error_path_has_ping_and_openai_lacks_delta :
    responsesStream 0 [] (.err "API error (500): boom") =
      [.messageStart Usage.zero, .ping, .errorEvent "API error (500): boom",
       .messageDelta "end_turn" Usage.zero, .messageStop, .doneMarker] ∧
    responsesStream 0 [] (.err "API error (500): boom") ≠
      [.messageStart Usage.zero, .errorEvent "API error (500): boom",
       .messageDelta "end_turn" Usage.zero, .messageStop] ∧
    openaiStream 0 [] (.err "Error code: 500") =
      [.messageStart Usage.zero, .ping, .errorEvent "Error code: 500",
       .messageStop, .doneMarker] :=
  ⟨rfl, by decide, rfl⟩

/-- C3, amended: when the upstream fails before any native event, the
responses machine emits exactly `[message_start(zero usage), ping, error,
message_delta("end_turn", zero usage), message_stop]` plus a trailing
`[DONE]` frame; the Copilot chat machine the same without the `[DONE]`
frame; the OpenAI chat machine omits the `message_delta`, emitting
`[message_start, ping, error, message_stop]` plus `[DONE]`. -/
theorem C3_amended_error_sequences :
    (∀ (now : Nat) (m : String),
      responsesStream now [] (.err m) =
        [.messageStart Usage.zero, .ping, .errorEvent m,
         .messageDelta "end_turn" Usage.zero, .messageStop, .doneMarker]) ∧
    (∀ (now : Nat) (tm m : String),
      copilotStream now tm [] (.err m) =
        [.messageStart Usage.zero, .ping, .errorEvent m,
         .messageDelta "end_turn" Usage.zero, .messageStop]) ∧
    (∀ (now : Nat) (m : String),
      openaiStream now [] (.err m) =
        [.messageStart Usage.zero, .ping, .errorEvent m,
         .messageStop, .doneMarker]) :=
  ⟨fun _ _ => rfl, fun _ _ _ => rfl, fun _ _ => rfl⟩

/-- C8, counterexample: when `_read_notifications` hits its 300-second idle
timeout it logs a warning and breaks; `handle` then emits only the normal
terminal frames.  No error event of any kind appears in the sequence,
contradicting the claimed timeout-flavored error event. -/
theorem C8_timeout_emits_no_error_event :
    (codexHandle .hsOk [] .timeout).1 =
      [.messageStart Usage.zero, .ping, .messageDelta "end_turn" Usage.zero,
       .messageStop, .doneMarker] ∧
    hasEvt SSE.isErrorEvent (codexHandle .hsOk [] .timeout).1 = false :=
  ⟨rfl, rfl⟩

/-- C8, amended: on idle timeout the Codex notification loop ends silently
and behaves exactly like normal stream exhaustion: the emitted sequence
contains no error event (error notifications are rendered as text deltas,
never as error events), it still terminates with the normal
`message_delta("end_turn")`/`message_stop` pair (no hang, no missing
terminal), and no exception escapes. -/
theorem C8_amended_timeout_silent_termination :
    ∀ notes : List CodexNote,
      hasEvt SSE.isErrorEvent (codexHandle .hsOk notes .timeout).1 = false ∧
      lastNamed (codexHandle .hsOk notes .timeout).1 = some .messageStop ∧
      (codexHandle .hsOk notes .timeout).2 = none ∧
      codexHandle .hsOk notes .timeout = codexHandle .hsOk notes .eof := by
  intro notes
  have hloop := cdxRun_inner CodexState.init notes
  refine ⟨?_, (codex_ok_one_start_stop notes .timeout).2.2.1, rfl, rfl⟩
  unfold codexHandle hasEvt
  by_cases h1 : (cdxRun CodexState.init notes).1.thinkingStarted = true <;>
    by_cases h2 : (cdxRun CodexState.init notes).1.textStarted = true <;>
    simp [List.any_append, h1, h2, closeThinking, SSE.isErrorEvent,
      inner_any_false _ hloop _ inner_not_error]

/-- C9, counterexample: two callers of `get_auth` racing on the Scenario-D
state (cached expiry 30 s in the past after skew, file token `exp` 30 s in
the future, i.e. inside the 60-second buffer) and interleaving at the await
points each perform their own refresh exchange: the refresh count is 2, not
the claimed exactly-one. -/
theorem C9_interleaved_callers_refresh_twice :
    (raceRun 1000 4600 (raceInit 1000)
      [false, true, false, true, false, true, false, true]).sys.refreshCount = 2 ∧
    (raceRun 1000 4600 (raceInit 1000)
      [false, true, false, true, false, true, false, true]).pc0 = .finished true ∧
    (raceRun 1000 4600 (raceInit 1000)
      [false, true, false, true, false, true, false, true]).pc1 = .finished true := by
  refine ⟨?_, ?_, ?_⟩ <;> decide

/-- C9, amended: `get_auth` performs no single-flight coordination.  A caller
that starts only after another caller's refresh has been published reuses the
cached result (one refresh in total), but callers that interleave at the
await points each perform their own refresh exchange (two callers produce
two refresh calls). -/
theorem C9_amended_no_single_flight :
    (raceRun 1000 4600 (raceInit 1000)
      [false, false, false, false, true]).sys.refreshCount = 1 ∧
    (raceRun 1000 4600 (raceInit 1000)
      [false, false, false, false, true]).pc0 = .finished true ∧
    (raceRun 1000 4600 (raceInit 1000)
      [false, false, false, false, true]).pc1 = .finished false ∧
    (raceRun 1000 4600 (raceInit 1000)
      [false, true, false, true, false, true, false, true]).sys.refreshCount = 2 := by
  refine ⟨?_, ?_, ?_, ?_⟩ <;> decide

/-- C2, counterexample: a chat-completions stream that opens (and closes) a
tool_use block and completes normally still ends with
`stop_reason = "end_turn"` — the OpenAI chat machine's terminal
`message_delta` is hard-coded to `"end_turn"`. -/
theorem C2_openai_tool_stream_ends_end_turn :
    hasEvt SSE.isToolUseStart
      (openaiStream 7 [⟨none, some ⟨none, none,
        [⟨0, some "id1", some "f", some "\x7b\x7d"⟩], some "tool_calls"⟩⟩] .ok) = true ∧
    hasEvt (isStopReasonDelta "tool_use")
      (openaiStream 7 [⟨none, some ⟨none, none,
        [⟨0, some "id1", some "f", some "\x7b\x7d"⟩], some "tool_calls"⟩⟩] .ok) = false ∧
    hasEvt (isStopReasonDelta "end_turn")
      (openaiStream 7 [⟨none, some ⟨none, none,
        [⟨0, some "id1", some "f", some "\x7b\x7d"⟩], some "tool_calls"⟩⟩] .ok) = true := by
  refine ⟨?_, ?_, ?_⟩ <;> rfl

/-- C5, counterexample: in the OpenAI chat machine a tool slot seen without a
name reserves index 0, a text block then opens at index 1, and when the tool
name finally arrives its `content_block_start` is emitted with index 0 —
after the start with index 1.  The start-index sequence `[1, 0]` is not
strictly increasing. -/
theorem C5_openai_start_indices_out_of_order :
    startIdxs (openaiStream 7
      [⟨none, some ⟨none, none, [⟨0, none, none, none⟩], none⟩⟩,
       ⟨none, some ⟨none, some "hi", [], none⟩⟩,
       ⟨none, some ⟨none, none, [⟨0, none, some "f", none⟩], none⟩⟩] .ok) = [1, 0] ∧
    strictlyInc [(1 : Int), 0] = false :=
  ⟨rfl, rfl⟩

/-- C4, counterexample: the responses machine's `response.output_item.added`
handler opens the tool_use block immediately, without closing an open
thinking block — the discipline exactly as claimed (checked by
`thinkScan true`) fails on a reasoning delta followed by a function-call
item. -/
theorem C4_responses_tool_start_with_open_thinking :
    thinkOK true (responsesStream 7
      [.reasoningDelta (some "x"), .itemAddedFunctionCall (some "c1") "f"] .ok)
      = false := rfl


/-! ### C2: stop_reason vs tool blocks -/

theorem dictSet_not_isEmpty {K V : Type} [DecidableEq K]
    (d : List (K × V)) (k : K) (v : V) :
    (dictSet d k v).isEmpty = false := by
  cases d with
  | nil => rfl
  | cons kv rest =>
    by_cases h : kv.1 = k <;> simp [dictSet, h]

theorem dictLookup_some_not_isEmpty {K V : Type} [DecidableEq K]
    (d : List (K × V)) (k : K) (v : V) (h : dictLookup d k = some v) :
    d.isEmpty = false := by
  cases d with
  | nil => simp [dictLookup] at h
  | cons kv rest => rfl

theorem inner_not_stopdelta (sr : String) (e : SSE) (h : SSE.isInner e = true) :
    isStopReasonDelta sr e = false := by
  cases e <;> simp_all [SSE.isInner, isStopReasonDelta]

theorem respStep_toolStart (now : Nat) (s : RespState) (e : RespEvent) :
    (respStep now s e).1.tools.isEmpty =
      (s.tools.isEmpty && !(respStep now s e).2.any SSE.isToolUseStart) := by
  cases e with
  | outputTextDelta d =>
    cases d with
    | none => simp [respStep]
    | some txt =>
      by_cases h1 : s.thinkingStarted = true <;>
        by_cases h2 : s.textStarted = true <;>
          simp [respStep, h1, h2, SSE.isToolUseStart, closeThinking]
  | reasoningDelta d =>
    cases d with
    | none => simp [respStep]
    | some txt =>
      by_cases h : s.thinkingStarted = true <;>
        simp [respStep, h, SSE.isToolUseStart]
  | itemAddedFunctionCall cid name =>
    simp [respStep, SSE.isToolUseStart, dictSet_not_isEmpty]
  | funcArgsDelta cid d =>
    rcases ht : dictLookup s.tools cid with _ | t <;>
      rcases hd : d with _ | txt <;>
        simp [respStep, ht, hd, SSE.isToolUseStart]
  | itemDoneFunctionCall cid args =>
    rcases ht : dictLookup s.tools cid with _ | t
    · simp [respStep, ht]
    · have hne := dictLookup_some_not_isEmpty s.tools cid t ht
      by_cases hc : t.closed = true <;>
        rcases ha : args with _ | a <;>
          simp [respStep, ht, hc, ha, SSE.isToolUseStart, hne,
            dictSet_not_isEmpty]
  | completed uIn uOut => simp [respStep]
  | otherEvent => simp [respStep]

theorem respRun_toolStart (now : Nat) (evs : List RespEvent) (s : RespState) :
    (respRun now s evs).1.tools.isEmpty =
      (s.tools.isEmpty && !(respRun now s evs).2.any SSE.isToolUseStart) := by
  induction evs generalizing s with
  | nil => simp [respRun]
  | cons e rest ih =>
    cases e with
    | completed uIn uOut => simp [respRun]
    | outputTextDelta d =>
      simp [respRun, List.any_append, Bool.not_or, ← Bool.and_assoc,
        ← respStep_toolStart, ih]
    | reasoningDelta d =>
      simp [respRun, List.any_append, Bool.not_or, ← Bool.and_assoc,
        ← respStep_toolStart, ih]
    | itemAddedFunctionCall cid name =>
      simp [respRun, List.any_append, Bool.not_or, ← Bool.and_assoc,
        ← respStep_toolStart, ih]
    | funcArgsDelta cid d =>
      simp [respRun, List.any_append, Bool.not_or, ← Bool.and_assoc,
        ← respStep_toolStart, ih]
    | itemDoneFunctionCall cid args =>
      simp [respRun, List.any_append, Bool.not_or, ← Bool.and_assoc,
        ← respStep_toolStart, ih]
    | otherEvent =>
      simp [respRun, List.any_append, Bool.not_or, ← Bool.and_assoc,
        ← respStep_toolStart, ih]

theorem respCloseAll_no_toolstart (s : RespState) :
    (respCloseAll s).any SSE.isToolUseStart = false := by
  unfold respCloseAll
  simp only [List.any_append, Bool.or_eq_false_iff]
  refine ⟨⟨?_, ?_⟩, ?_⟩
  · split <;> simp [closeThinking, SSE.isToolUseStart]
  · split <;> simp [SSE.isToolUseStart]
  · rw [List.any_eq_false]
    intro e he
    simp only [List.mem_filterMap] at he
    obtain ⟨kv, -, hkv⟩ := he
    split at hkv
    · cases hkv; simp [SSE.isToolUseStart]
    · cases hkv

theorem oaiCloseAll_no_stopdelta (sr : String) (s : OAIState) :
    (oaiCloseAll s).any (isStopReasonDelta sr) = false :=
  inner_any_false _ (oaiCloseAll_inner s) _ (inner_not_stopdelta sr)

/-- C2, amended: in the responses machine the terminal `message_delta`
carries `stop_reason = "tool_use"` exactly when a tool_use
`content_block_start` was emitted (so Scenario A does end with `tool_use`,
as its explicit run shows); the OpenAI chat machine's normal-completion
terminal `message_delta` however always carries `"end_turn"`, even when tool
blocks were opened. -/
theorem C2_amended_stop_reason :
    (∀ (now : Nat) (evs : List RespEvent),
      hasEvt (isStopReasonDelta "tool_use") (responsesStream now evs .ok) =
        hasEvt SSE.isToolUseStart (responsesStream now evs .ok)) ∧
    (∀ (now : Nat) (chunks : List OAIChunk),
      hasEvt (isStopReasonDelta "tool_use") (openaiStream now chunks .ok) = false) ∧
    responsesStream 7
      [.reasoningDelta (some "x"), .outputTextDelta (some "y"),
       .itemAddedFunctionCall (some "c1") "run",
       .funcArgsDelta "c1" (some "\x7b\x7d"),
       .itemDoneFunctionCall "c1" none, .completed 0 0] .ok =
      [.messageStart Usage.zero, .ping,
       .blockStart 0 .thinking, .blockDelta 0 (.thinkingD "x"),
       .blockDelta 0 (.signatureD ""), .blockStop 0,
       .blockStart 1 .text, .blockDelta 1 (.textD "y"),
       .blockStart 2 (.toolUse "c1" "run"),
       .blockDelta 2 (.inputJsonD "\x7b\x7d"), .blockStop 2, .blockStop 1,
       .messageDelta "tool_use" Usage.zero, .messageStop, .doneMarker] := by
  refine ⟨?_, ?_, rfl⟩
  · intro now evs
    have hloop := respRun_inner now RespState.init evs
    have hclose := respCloseAll_inner (respRun now RespState.init evs).1
    have hkey := respRun_toolStart now evs RespState.init
    simp only [show RespState.init.tools.isEmpty = true from rfl,
      Bool.true_and] at hkey
    unfold responsesStream hasEvt
    by_cases hA : (respRun now RespState.init evs).2.any SSE.isToolUseStart = true
    · rw [hA] at hkey
      simp [List.any_append, hA, hkey, isStopReasonDelta, SSE.isToolUseStart,
        inner_any_false _ hloop _ (inner_not_stopdelta "tool_use"),
        inner_any_false _ hclose _ (inner_not_stopdelta "tool_use"),
        respCloseAll_no_toolstart]
    · rw [Bool.not_eq_true] at hA
      rw [hA] at hkey
      simp [List.any_append, hA, hkey, isStopReasonDelta, SSE.isToolUseStart,
        inner_any_false _ hloop _ (inner_not_stopdelta "tool_use"),
        inner_any_false _ hclose _ (inner_not_stopdelta "tool_use"),
        respCloseAll_no_toolstart]
  · intro now chunks
    have hloop := oaiRunChunks_inner now OAIState.init chunks
    unfold openaiStream hasEvt
    simp [List.any_append, isStopReasonDelta, SSE.isToolUseStart,
      inner_any_false _ hloop _ (inner_not_stopdelta "tool_use"),
      oaiCloseAll_no_stopdelta]

/-! ### C6/C7: provider dispatch -/

theorem hasSlash_append (a b : List Char) :
    hasSlash (a ++ b) = (hasSlash a || hasSlash b) := by
  simp [hasSlash, List.any_append]

theorem hasSlash_of_prefix (pre m : String) (hps : strStartsWith pre m = true)
    (hs : hasSlash pre.data = true) : strHasSlash m = true := by
  unfold strStartsWith at hps
  rw [List.isPrefixOf_iff_prefix] at hps
  obtain ⟨t, ht⟩ := hps
  unfold strHasSlash
  rw [← ht, hasSlash_append, hs]
  rfl

theorem hasSlash_of_requested (model : String) (p : ProviderType)
    (hp : get_requested_provider model = some p) : strHasSlash model = true := by
  unfold get_requested_provider at hp
  split_ifs at hp with h1 h2 h3
  · exact hasSlash_of_prefix _ _ h1 (by decide)
  · exact hasSlash_of_prefix _ _ h2 (by decide)
  · exact hasSlash_of_prefix _ _ h3 (by decide)

/-- C6: when the model prefix names a known provider, dispatch selects the
first available provider of the order `requested, then openrouter, copilot,
openai with the requested one removed`, and every candidate keeps the part
of the model identifier after the first slash unchanged, substituting only
the provider prefix. -/
theorem C6_dispatch_fallback_order :
    ∀ (cfg : ProxyConfig) (model : String) (p : ProviderType),
      get_requested_provider model = some p →
      get_provider cfg model = firstAvailable cfg model (claimedTryOrder p) ∧
      (∀ q : ProviderType, model_for_provider model q =
        providerName q ++ "/" ++ strAfterFirstSlash model) := by
  intro cfg model p hp
  constructor
  · by_cases ho : cfg.openrouterApiKey.isSome = true <;>
      by_cases hc : cfg.copilotToken.isSome = true <;>
        by_cases ha : cfg.authFileExists = true <;>
          cases p <;>
            simp [get_provider, hp, make_provider, provider_available,
              firstAvailable, claimedTryOrder, ho, hc, ha]
  · intro q
    have hs := hasSlash_of_requested model p hp
    unfold model_for_provider
    rw [hs]
    rfl

/-- C6 witness: a concrete dispatch where `copilot/gpt-x` is requested but
only the OpenRouter key is configured. -/
theorem C6_dispatch_fallback_order_witness :
    get_requested_provider "copilot/gpt-x" = some .copilot ∧
    (get_provider ⟨some "k", none, false⟩ "copilot/gpt-x" =
      firstAvailable ⟨some "k", none, false⟩ "copilot/gpt-x"
        (claimedTryOrder .copilot) ∧
      (∀ q : ProviderType, model_for_provider "copilot/gpt-x" q =
        providerName q ++ "/" ++ strAfterFirstSlash "copilot/gpt-x")) :=
  ⟨rfl, C6_dispatch_fallback_order ⟨some "k", none, false⟩ "copilot/gpt-x"
    .copilot rfl⟩

/-- C7: when no credential is configured for any provider, `POST
/v1/messages` answers with the 401 JSON `authentication_error` body (no
streaming response is constructed, hence no upstream connection is opened),
and the body's message names the originally requested provider
(case-insensitively; the fixed message in fact names all three configuration
options). -/
theorem C7_no_provider_401 :
    ∀ (cfg : ProxyConfig) (model : String) (p : ProviderType),
      get_requested_provider model = some p →
      cfg.openrouterApiKey = none → cfg.copilotToken = none →
      cfg.authFileExists = false →
      messages cfg model = .jsonError 401 "authentication_error" authErrorMsg ∧
      containsSub (lowerStr (providerName p).data) (lowerStr authErrorMsg.data)
        = true := by
  intro cfg model p hp ho hc ha
  constructor
  · unfold messages
    cases p <;>
      simp [get_provider, hp, make_provider, provider_available, ho, hc, ha]
  · cases p <;> decide

/-- C7 witness: `openai/gpt-x` with no credentials at all. -/
theorem C7_no_provider_401_witness :
    get_requested_provider "openai/gpt-x" = some .openai ∧
    (messages ⟨none, none, false⟩ "openai/gpt-x" =
      .jsonError 401 "authentication_error" authErrorMsg ∧
    containsSub (lowerStr (providerName .openai).data)
      (lowerStr authErrorMsg.data) = true) :=
  ⟨rfl, C7_no_provider_401 ⟨none, none, false⟩ "openai/gpt-x" .openai
    rfl rfl rfl rfl⟩

/-! ### Scanner and dictionary lemmas for C4/C5 -/

theorem thinkScan_append (strict : Bool) (σ : Option (Int × Bool))
    (a b : List SSE) :
    thinkScan strict σ (a ++ b) =
      match thinkScan strict σ a with
      | none => none
      | some σ2 => thinkScan strict σ2 b := by
  induction a generalizing σ with
  | nil => simp [thinkScan]
  | cons e rest ih =>
    simp only [List.cons_append, thinkScan]
    rcases h : thinkStep strict σ e with _ | σ2 <;> simp [h, ih]

theorem thinkScan_stops_ne (strict : Bool) (i : Int) (sg : Bool) (l : List SSE)
    (h : ∀ e ∈ l, ∃ j, e = SSE.blockStop j ∧ j ≠ i) :
    thinkScan strict (some (i, sg)) l = some (some (i, sg)) := by
  induction l with
  | nil => rfl
  | cons e rest ih =>
    obtain ⟨j, hj, hne⟩ := h e (by simp)
    subst hj
    simp only [thinkScan, thinkStep, if_neg hne]
    exact ih fun e he => h e (by simp [he])

theorem thinkScan_stops_none (strict : Bool) (l : List SSE)
    (h : ∀ e ∈ l, ∃ j, e = SSE.blockStop j) :
    thinkScan strict none l = some none := by
  induction l with
  | nil => rfl
  | cons e rest ih =>
    obtain ⟨j, hj⟩ := h e (by simp)
    subst hj
    simp only [thinkScan, thinkStep]
    exact ih fun e he => h e (by simp [he])

theorem dictLookup_mem {K V : Type} [DecidableEq K]
    (d : List (K × V)) (k : K) (v : V) (h : dictLookup d k = some v) :
    (k, v) ∈ d := by
  induction d with
  | nil => simp [dictLookup] at h
  | cons kv rest ih =>
    by_cases hk : kv.1 = k
    · simp only [dictLookup, if_pos hk] at h
      cases h
      rw [← hk]
      exact List.mem_cons_self kv rest
    · simp only [dictLookup, if_neg hk] at h
      exact List.mem_cons_of_mem _ (ih h)

theorem dictSet_fresh {K V : Type} [DecidableEq K]
    (d : List (K × V)) (k : K) (v : V) (h : dictLookup d k = none) :
    dictSet d k v = d ++ [(k, v)] := by
  induction d with
  | nil => rfl
  | cons kv rest ih =>
    by_cases hk : kv.1 = k
    · simp [dictLookup, hk] at h
    · simp only [dictLookup, if_neg hk] at h
      simp [dictSet, hk, ih h]

theorem mem_dictSet_existing {K V : Type} [DecidableEq K]
    (d : List (K × V)) (k : K) (v w : V) (hk : dictLookup d k = some w)
    (hnd : (d.map Prod.fst).Nodup) (kv : K × V) (hm : kv ∈ dictSet d k v) :
    kv = (k, v) ∨ (kv ∈ d ∧ kv.1 ≠ k) := by
  induction d with
  | nil => simp [dictLookup] at hk
  | cons kv2 rest ih =>
    simp only [List.map_cons, List.nodup_cons] at hnd
    by_cases h2 : kv2.1 = k
    · simp only [dictSet, if_pos h2] at hm
      rcases List.mem_cons.mp hm with h | h
      · left; rw [h, h2]
      · right
        refine ⟨List.mem_cons_of_mem _ h, fun hkk => ?_⟩
        apply hnd.1
        have h4 : kv.1 ∈ List.map Prod.fst rest := List.mem_map_of_mem Prod.fst h
        rwa [hkk, ← h2] at h4
    · simp only [dictLookup, if_neg h2] at hk
      simp only [dictSet, if_neg h2] at hm
      rcases List.mem_cons.mp hm with h | h
      · right
        refine ⟨by simp [h], ?_⟩
        rw [h]
        exact h2
      · rcases ih hk hnd.2 h with h3 | h3
        · left; exact h3
        · right; exact ⟨List.mem_cons_of_mem _ h3.1, h3.2⟩

theorem dictSet_keys_existing {K V : Type} [DecidableEq K]
    (d : List (K × V)) (k : K) (v w : V) (hk : dictLookup d k = some w) :
    (dictSet d k v).map Prod.fst = d.map Prod.fst := by
  induction d with
  | nil => simp [dictLookup] at hk
  | cons kv2 rest ih =>
    by_cases h2 : kv2.1 = k
    · simp [dictSet, h2]
    · simp only [dictLookup, if_neg h2] at hk
      simp [dictSet, h2, ih hk]

theorem dictSet_vals_existing {K V A : Type} [DecidableEq K]
    (d : List (K × V)) (k : K) (v w : V) (f : V → A)
    (hk : dictLookup d k = some w) (hf : f v = f w) :
    (dictSet d k v).map (fun kv => f kv.2) = d.map (fun kv => f kv.2) := by
  induction d with
  | nil => simp [dictLookup] at hk
  | cons kv2 rest ih =>
    by_cases h2 : kv2.1 = k
    · simp only [dictLookup, if_pos h2] at hk
      cases hk
      simp [dictSet, h2, hf]
    · simp only [dictLookup, if_neg h2] at hk
      simp [dictSet, h2, ih hk]

/-! ### C4/C5: the responses machine preserves the discipline invariants -/

theorem mem_dictSet_weak {K V : Type} [DecidableEq K]
    (d : List (K × V)) (k : K) (v : V) (kv : K × V)
    (hm : kv ∈ dictSet d k v) : kv = (k, v) ∨ kv ∈ d := by
  induction d with
  | nil => simp [dictSet] at hm; left; exact hm
  | cons kv2 rest ih =>
    by_cases h2 : kv2.1 = k
    · simp only [dictSet, if_pos h2] at hm
      rcases List.mem_cons.mp hm with h | h
      · left; rw [h, h2]
      · right; exact List.mem_cons_of_mem _ h
    · simp only [dictSet, if_neg h2] at hm
      rcases List.mem_cons.mp hm with h | h
      · right; simp [h]
      · rcases ih h with h3 | h3
        · left; exact h3
        · right; exact List.mem_cons_of_mem _ h3

theorem chain_lt_append (a b : List Int) (cut : Int)
    (ha : List.Chain' (· < ·) a) (hb : List.Chain' (· < ·) b)
    (hacut : ∀ x ∈ a, x < cut) (hbcut : ∀ y ∈ b, cut ≤ y) :
    List.Chain' (· < ·) (a ++ b) := by
  rw [List.chain'_append]
  refine ⟨ha, hb, fun x hx y hy => ?_⟩
  have hxa : x ∈ a := by
    obtain ⟨hne, rfl⟩ := List.mem_getLast?_eq_getLast hx
    exact List.getLast_mem hne
  have hyb : y ∈ b := by
    rw [List.eq_cons_of_mem_head? hy]
    exact List.mem_cons_self _ _
  exact lt_of_lt_of_le (hacut x hxa) (hbcut y hyb)

theorem respStep_sim (now : Nat) (s : RespState) (e : RespEvent)
    (hI : RespInv s) :
    RespInv (respStep now s e).1 ∧
    thinkScan false (respScanSt s) (respStep now s e).2 =
      some (respScanSt (respStep now s e).1) ∧
    s.curIdx ≤ (respStep now s e).1.curIdx ∧
    (∀ i ∈ startIdxs (respStep now s e).2,
      s.curIdx ≤ i ∧ i < (respStep now s e).1.curIdx) ∧
    List.Chain' (· < ·) (startIdxs (respStep now s e).2) := by
  obtain ⟨hth, htx, htools, hne1, hne2⟩ := hI
  cases e with
  | outputTextDelta d =>
    cases d with
    | none =>
      exact ⟨⟨hth, htx, htools, hne1, hne2⟩, rfl, le_refl _,
        by simp [respStep, startIdxs], by simp [respStep, startIdxs]⟩
    | some txt =>
      by_cases h1 : s.thinkingStarted = true <;> by_cases h2 : s.textStarted = true
      · have hthv := hth h1
        have htxv := htx h2
        simp only [respStep, h1, h2, if_true, if_false, Bool.false_eq_true]
        refine ⟨⟨?_, ?_, ?_, ?_, ?_⟩, ?_, ?_, ?_, ?_⟩ <;>
          (try simp [respScanSt, h1, thinkScan, thinkStep, closeThinking,
            startIdxs]) <;>
          first
            | rfl
            | omega
            | (intro a b hab
               have hb : b.blockIdx < s.curIdx := htools (a, b) hab
               omega)
      · have hthv := hth h1
        simp only [respStep, h1, h2, if_true, if_false, Bool.false_eq_true]
        refine ⟨⟨?_, ?_, ?_, ?_, ?_⟩, ?_, ?_, ?_, ?_⟩ <;>
          (try simp [respScanSt, h1, thinkScan, thinkStep, closeThinking,
            startIdxs]) <;>
          first
            | rfl
            | omega
            | (intro a b hab
               have hb : b.blockIdx < s.curIdx := htools (a, b) hab
               omega)
      · have htxv := htx h2
        simp only [respStep, h1, h2, if_true, if_false, Bool.false_eq_true]
        refine ⟨⟨?_, ?_, ?_, ?_, ?_⟩, ?_, ?_, ?_, ?_⟩ <;>
          (try simp [respScanSt, h1, thinkScan, thinkStep, closeThinking,
            startIdxs]) <;>
          first
            | rfl
            | omega
            | (intro a b hab
               have hb : b.blockIdx < s.curIdx := htools (a, b) hab
               omega)
      · simp only [respStep, h1, h2, if_true, if_false, Bool.false_eq_true]
        refine ⟨⟨?_, ?_, ?_, ?_, ?_⟩, ?_, ?_, ?_, ?_⟩ <;>
          (try simp [respScanSt, h1, thinkScan, thinkStep, closeThinking,
            startIdxs]) <;>
          first
            | rfl
            | omega
            | (intro a b hab
               have hb : b.blockIdx < s.curIdx := htools (a, b) hab
               omega)
  | reasoningDelta d =>
    cases d with
    | none =>
      exact ⟨⟨hth, htx, htools, hne1, hne2⟩, rfl, le_refl _,
        by simp [respStep, startIdxs], by simp [respStep, startIdxs]⟩
    | some txt =>
      by_cases h1 : s.thinkingStarted = true
      · have hthv := hth h1
        simp only [respStep, h1, if_true]
        refine ⟨⟨hth, htx, htools, hne1, hne2⟩, ?_, le_refl _, ?_, ?_⟩ <;>
          simp [respScanSt, h1, thinkScan, thinkStep, startIdxs]
      · simp only [respStep, h1, if_true, if_false, Bool.false_eq_true]
        refine ⟨⟨?_, ?_, ?_, ?_, ?_⟩, ?_, ?_, ?_, ?_⟩ <;>
          (try simp [respScanSt, h1, thinkScan, thinkStep, startIdxs]) <;>
          first
            | rfl
            | omega
            | (intro h3; have := htx h3; omega)
            | (intro a b hab
               have hb : b.blockIdx < s.curIdx := htools (a, b) hab
               omega)
            | (intro a b hab h4
               have hb : b.blockIdx < s.curIdx := htools (a, b) hab
               omega)
  | itemAddedFunctionCall cid name =>
    simp only [respStep]
    refine ⟨⟨?_, ?_, ?_, ?_, ?_⟩, ?_, ?_, ?_, ?_⟩
    · intro h3
      simp only [] at h3 ⊢
      have := hth h3
      omega
    · intro h3
      simp only [] at h3 ⊢
      have := htx h3
      omega
    · intro kv hkv
      simp only [] at hkv ⊢
      rcases mem_dictSet_weak _ _ _ _ hkv with h | h
      · rw [h]
        simp <;> omega
      · have := htools kv h
        omega
    · exact hne1
    · intro h3 kv hkv
      simp only [] at hkv ⊢
      rcases mem_dictSet_weak _ _ _ _ hkv with h | h
      · rw [h]
        have := hth h3
        simp <;> omega
      · exact hne2 h3 kv h
    · by_cases h1 : s.thinkingStarted = true <;>
        simp [h1, respScanSt, thinkScan, thinkStep]
    · simp <;> omega
    · simp [startIdxs] <;> omega
    · simp [startIdxs]
  | funcArgsDelta cid d =>
    rcases ht : dictLookup s.tools cid with _ | t <;>
      rcases hd : d with _ | txt <;>
      simp only [respStep, ht, hd] <;>
      refine ⟨⟨hth, htx, htools, hne1, hne2⟩, ?_, le_refl _, ?_, ?_⟩ <;>
      by_cases h1 : s.thinkingStarted = true <;>
      simp [h1, respScanSt, thinkScan, thinkStep, startIdxs]
  | itemDoneFunctionCall cid args =>
    rcases ht : dictLookup s.tools cid with _ | t
    · simp only [respStep, ht]
      exact ⟨⟨hth, htx, htools, hne1, hne2⟩, rfl, le_refl _,
        by simp [startIdxs], by simp [startIdxs]⟩
    · by_cases hc : t.closed = true
      · simp only [respStep, ht, hc, if_true]
        exact ⟨⟨hth, htx, htools, hne1, hne2⟩, rfl, le_refl _,
          by simp [startIdxs], by simp [startIdxs]⟩
      · have hmem := dictLookup_mem _ _ _ ht
        simp only [respStep, ht, hc, if_false, Bool.false_eq_true]
        refine ⟨⟨hth, htx, ?_, hne1, ?_⟩, ?_, le_refl _, ?_, ?_⟩
        · intro kv hkv
          simp only [] at hkv
          rcases mem_dictSet_weak _ _ _ _ hkv with h | h
          · rw [h]; simpa using htools _ hmem
          · exact htools kv h
        · intro h3 kv hkv
          simp only [] at hkv ⊢
          rcases mem_dictSet_weak _ _ _ _ hkv with h | h
          · rw [h]; simpa using hne2 h3 _ hmem
          · exact hne2 h3 kv h
        · by_cases h1 : s.thinkingStarted = true
          · have hnea := hne2 h1 _ hmem
            rcases ha : args with _ | a <;>
              simp [h1, respScanSt, thinkScan, thinkStep, hnea]
          · rcases ha : args with _ | a <;>
              simp [h1, respScanSt, thinkScan, thinkStep]
        · rcases ha : args with _ | a <;> simp [startIdxs]
        · rcases ha : args with _ | a <;> simp [startIdxs]
  | completed uIn uOut =>
    exact ⟨⟨hth, htx, htools, hne1, hne2⟩, rfl, le_refl _,
      by simp [respStep, startIdxs], by simp [respStep, startIdxs]⟩
  | otherEvent =>
    exact ⟨⟨hth, htx, htools, hne1, hne2⟩, rfl, le_refl _,
      by simp [respStep, startIdxs], by simp [respStep, startIdxs]⟩


theorem startIdxs_append (a b : List SSE) :
    startIdxs (a ++ b) = startIdxs a ++ startIdxs b := by
  simp [startIdxs, List.filterMap_append]

theorem sim_compose (σ0 σ1 σ2 : Option (Int × Bool)) (c0 c1 c2 : Int)
    (out1 out2 : List SSE)
    (hscan1 : thinkScan false σ0 out1 = some σ1)
    (hscan2 : thinkScan false σ1 out2 = some σ2)
    (hle1 : c0 ≤ c1) (hle2 : c1 ≤ c2)
    (hb1 : ∀ i ∈ startIdxs out1, c0 ≤ i ∧ i < c1)
    (hb2 : ∀ i ∈ startIdxs out2, c1 ≤ i ∧ i < c2)
    (hch1 : List.Chain' (· < ·) (startIdxs out1))
    (hch2 : List.Chain' (· < ·) (startIdxs out2)) :
    thinkScan false σ0 (out1 ++ out2) = some σ2 ∧ c0 ≤ c2 ∧
    (∀ i ∈ startIdxs (out1 ++ out2), c0 ≤ i ∧ i < c2) ∧
    List.Chain' (· < ·) (startIdxs (out1 ++ out2)) := by
  refine ⟨?_, le_trans hle1 hle2, ?_, ?_⟩
  · rw [thinkScan_append, hscan1]
    simpa using hscan2
  · intro i hi
    rw [startIdxs_append, List.mem_append] at hi
    rcases hi with h | h
    · have := hb1 i h
      constructor <;> omega
    · have := hb2 i h
      constructor <;> omega
  · rw [startIdxs_append]
    exact chain_lt_append _ _ c1 hch1 hch2
      (fun x hx => (hb1 x hx).2) (fun y hy => (hb2 y hy).1)

theorem respRun_sim (now : Nat) (evs : List RespEvent) (s : RespState)
    (hI : RespInv s) :
    RespInv (respRun now s evs).1 ∧
    thinkScan false (respScanSt s) (respRun now s evs).2 =
      some (respScanSt (respRun now s evs).1) ∧
    s.curIdx ≤ (respRun now s evs).1.curIdx ∧
    (∀ i ∈ startIdxs (respRun now s evs).2,
      s.curIdx ≤ i ∧ i < (respRun now s evs).1.curIdx) ∧
    List.Chain' (· < ·) (startIdxs (respRun now s evs).2) := by
  induction evs generalizing s with
  | nil =>
    exact ⟨hI, rfl, le_refl _, by simp [respRun, startIdxs],
      by simp [respRun, startIdxs]⟩
  | cons e rest ih =>
    cases e with
    | completed uIn uOut =>
      obtain ⟨hth, htx, htools, hne1, hne2⟩ := hI
      exact ⟨⟨hth, htx, htools, hne1, hne2⟩, rfl, le_refl _,
        by simp [respRun, startIdxs], by simp [respRun, startIdxs]⟩
    | outputTextDelta d =>
      simp only [respRun]
      obtain ⟨hI1, hs1, hl1, hb1, hc1⟩ := respStep_sim now s (.outputTextDelta d) hI
      obtain ⟨hI2, hs2, hl2, hb2, hc2⟩ := ih _ hI1
      obtain ⟨hsc, hlc, hbc, hcc⟩ :=
        sim_compose _ _ _ _ _ _ _ _ hs1 hs2 hl1 hl2 hb1 hb2 hc1 hc2
      exact ⟨hI2, hsc, hlc, hbc, hcc⟩
    | reasoningDelta d =>
      simp only [respRun]
      obtain ⟨hI1, hs1, hl1, hb1, hc1⟩ := respStep_sim now s (.reasoningDelta d) hI
      obtain ⟨hI2, hs2, hl2, hb2, hc2⟩ := ih _ hI1
      obtain ⟨hsc, hlc, hbc, hcc⟩ :=
        sim_compose _ _ _ _ _ _ _ _ hs1 hs2 hl1 hl2 hb1 hb2 hc1 hc2
      exact ⟨hI2, hsc, hlc, hbc, hcc⟩
    | itemAddedFunctionCall cid name =>
      simp only [respRun]
      obtain ⟨hI1, hs1, hl1, hb1, hc1⟩ := respStep_sim now s (.itemAddedFunctionCall cid name) hI
      obtain ⟨hI2, hs2, hl2, hb2, hc2⟩ := ih _ hI1
      obtain ⟨hsc, hlc, hbc, hcc⟩ :=
        sim_compose _ _ _ _ _ _ _ _ hs1 hs2 hl1 hl2 hb1 hb2 hc1 hc2
      exact ⟨hI2, hsc, hlc, hbc, hcc⟩
    | funcArgsDelta cid d =>
      simp only [respRun]
      obtain ⟨hI1, hs1, hl1, hb1, hc1⟩ := respStep_sim now s (.funcArgsDelta cid d) hI
      obtain ⟨hI2, hs2, hl2, hb2, hc2⟩ := ih _ hI1
      obtain ⟨hsc, hlc, hbc, hcc⟩ :=
        sim_compose _ _ _ _ _ _ _ _ hs1 hs2 hl1 hl2 hb1 hb2 hc1 hc2
      exact ⟨hI2, hsc, hlc, hbc, hcc⟩
    | itemDoneFunctionCall cid args =>
      simp only [respRun]
      obtain ⟨hI1, hs1, hl1, hb1, hc1⟩ := respStep_sim now s (.itemDoneFunctionCall cid args) hI
      obtain ⟨hI2, hs2, hl2, hb2, hc2⟩ := ih _ hI1
      obtain ⟨hsc, hlc, hbc, hcc⟩ :=
        sim_compose _ _ _ _ _ _ _ _ hs1 hs2 hl1 hl2 hb1 hb2 hc1 hc2
      exact ⟨hI2, hsc, hlc, hbc, hcc⟩
    | otherEvent =>
      simp only [respRun]
      obtain ⟨hI1, hs1, hl1, hb1, hc1⟩ := respStep_sim now s .otherEvent hI
      obtain ⟨hI2, hs2, hl2, hb2, hc2⟩ := ih _ hI1
      obtain ⟨hsc, hlc, hbc, hcc⟩ :=
        sim_compose _ _ _ _ _ _ _ _ hs1 hs2 hl1 hl2 hb1 hb2 hc1 hc2
      exact ⟨hI2, hsc, hlc, hbc, hcc⟩

theorem respCloseAll_scan (s : RespState) :
    thinkScan false (respScanSt s) (respCloseAll s) = some none := by
  have hstops : ∀ e ∈ (s.tools.filterMap fun kv =>
      if kv.2.started && !kv.2.closed then some (SSE.blockStop kv.2.blockIdx)
      else none), ∃ j, e = SSE.blockStop j := by
    intro e he
    simp only [List.mem_filterMap] at he
    obtain ⟨kv, -, hkv⟩ := he
    split at hkv
    · cases hkv; exact ⟨_, rfl⟩
    · cases hkv
  unfold respCloseAll
  by_cases h1 : s.thinkingStarted = true <;>
    by_cases h2 : s.textStarted = true <;>
    simp [h1, h2, respScanSt, thinkScan_append, thinkScan, thinkStep,
      closeThinking] <;>
    (apply thinkScan_stops_none
     intro e he
     simp only [List.mem_filterMap] at he
     obtain ⟨kv, hkv2, hkv⟩ := he
     split at hkv
     · cases hkv
       exact ⟨_, rfl⟩
     · cases hkv)

theorem respCloseAll_startIdxs (s : RespState) :
    startIdxs (respCloseAll s) = [] := by
  apply List.filterMap_eq_nil_iff.mpr
  intro e he
  unfold respCloseAll at he
  rcases List.mem_append.mp he with h | h
  · rcases List.mem_append.mp h with h3 | h3
    · split at h3 <;> simp [closeThinking] at h3 <;>
        rcases h3 with h4 | h4 <;> simp [h4]
    · split at h3 <;> simp at h3
      simp [h3]
  · simp only [List.mem_filterMap] at h
    obtain ⟨kv, -, hkv⟩ := h
    split at hkv
    · cases hkv; rfl
    · cases hkv

theorem strictlyInc_iff_chain (l : List Int) :
    strictlyInc l = true ↔ List.Chain' (· < ·) l := by
  induction l with
  | nil => simp [strictlyInc]
  | cons a rest ih =>
    cases rest with
    | nil => simp [strictlyInc]
    | cons b rest2 =>
      rw [List.chain'_cons, ← ih]
      simp [strictlyInc]

theorem RespInv_init : RespInv RespState.init := by
  refine ⟨?_, ?_, ?_, ?_, ?_⟩ <;> simp [RespState.init]

theorem responses_thinkOK_ok (now : Nat) (evs : List RespEvent) :
    thinkOK false (responsesStream now evs .ok) = true := by
  obtain ⟨hI, hscan, -, -, -⟩ := respRun_sim now evs RespState.init RespInv_init
  have h0 : respScanSt RespState.init = none := rfl
  rw [h0] at hscan
  unfold thinkOK responsesStream
  rw [thinkScan_append, thinkScan_append,
    show thinkScan false none [SSE.messageStart Usage.zero, SSE.ping] =
      some none from rfl]
  simp only [hscan]
  simp [thinkScan_append, respCloseAll_scan, thinkScan, thinkStep]

theorem responses_startIdxs_inc (now : Nat) (evs : List RespEvent)
    (e : UpstreamEnd) :
    strictlyInc (startIdxs (responsesStream now evs e)) = true := by
  obtain ⟨-, -, -, -, hch⟩ := respRun_sim now evs RespState.init RespInv_init
  rw [strictlyInc_iff_chain]
  unfold responsesStream
  cases e with
  | err m =>
    rw [startIdxs_append, startIdxs_append]
    simpa [startIdxs] using hch
  | ok =>
    rw [startIdxs_append, startIdxs_append, startIdxs_append,
      respCloseAll_startIdxs]
    simpa [startIdxs] using hch

/-! ### C4: the Copilot chat machine and the thinking discipline -/

theorem coStepReasoning_sim (s : CoState) (r : Option String) (hI : CoInv s) :
    CoInv (coStepReasoning s r).1 ∧
    thinkScan false (coScanSt s) (coStepReasoning s r).2 =
      some (coScanSt (coStepReasoning s r).1) := by
  obtain ⟨hth, htx, htools, hne1, hne2⟩ := hI
  cases r with
  | none => exact ⟨⟨hth, htx, htools, hne1, hne2⟩, rfl⟩
  | some txt =>
    by_cases h1 : s.thinkingStarted = true
    · simp only [coStepReasoning, h1, if_true]
      exact ⟨⟨fun _ => hth h1, htx, htools, fun _ => hne1 h1,
        fun _ => hne2 h1⟩, by simp [coScanSt, h1, thinkScan, thinkStep]⟩
    · simp only [coStepReasoning, h1, if_true, if_false, Bool.false_eq_true]
      refine ⟨⟨?_, ?_, ?_, ?_, ?_⟩, ?_⟩ <;>
        (try simp [coScanSt, h1, thinkScan, thinkStep]) <;>
        first
          | omega
          | (intro h3; have := htx h3; omega)
          | (intro a b hab
             have hb : b.blockIdx < s.curIdx := htools (a, b) hab
             omega)
          | (intro a b hab h4
             have hb : b.blockIdx < s.curIdx := htools (a, b) hab
             omega)

theorem coStepContent_sim (s : CoState) (c : Option String) (hI : CoInv s) :
    CoInv (coStepContent s c).1 ∧
    thinkScan false (coScanSt s) (coStepContent s c).2 =
      some (coScanSt (coStepContent s c).1) := by
  obtain ⟨hth, htx, htools, hne1, hne2⟩ := hI
  cases c with
  | none => exact ⟨⟨hth, htx, htools, hne1, hne2⟩, rfl⟩
  | some txt =>
    by_cases h1 : s.thinkingStarted = true <;> by_cases h2 : s.textStarted = true
    · have hthv := hth h1
      have htxv := htx h2
      simp only [coStepContent, h1, h2, if_true, if_false, Bool.false_eq_true]
      refine ⟨⟨?_, ?_, ?_, ?_, ?_⟩, ?_⟩ <;>
        (try simp [coScanSt, h1, thinkScan, thinkStep, closeThinking]) <;>
        first
          | omega
          | (intro a b hab
             have hb : b.blockIdx < s.curIdx := htools (a, b) hab
             omega)
    · have hthv := hth h1
      simp only [coStepContent, h1, h2, if_true, if_false, Bool.false_eq_true]
      refine ⟨⟨?_, ?_, ?_, ?_, ?_⟩, ?_⟩ <;>
        (try simp [coScanSt, h1, thinkScan, thinkStep, closeThinking]) <;>
        first
          | omega
          | (intro a b hab
             have hb : b.blockIdx < s.curIdx := htools (a, b) hab
             omega)
    · have htxv := htx h2
      simp only [coStepContent, h1, h2, if_true, if_false, Bool.false_eq_true]
      refine ⟨⟨?_, ?_, ?_, ?_, ?_⟩, ?_⟩ <;>
        (try simp [coScanSt, h1, thinkScan, thinkStep, closeThinking]) <;>
        first
          | omega
          | (intro a b hab
             have hb : b.blockIdx < s.curIdx := htools (a, b) hab
             omega)
    · simp only [coStepContent, h1, h2, if_true, if_false, Bool.false_eq_true]
      refine ⟨⟨?_, ?_, ?_, ?_, ?_⟩, ?_⟩ <;>
        (try simp [coScanSt, h1, thinkScan, thinkStep, closeThinking]) <;>
        first
          | omega
          | (intro a b hab
             have hb : b.blockIdx < s.curIdx := htools (a, b) hab
             omega)

theorem tools_set_lt {K : Type} [DecidableEq K] (d : List (K × ToolSlot))
    (cur : Int) (k : K) (v : ToolSlot)
    (hall : ∀ kv ∈ d, kv.2.blockIdx < cur) (hv : v.blockIdx < cur) :
    ∀ kv ∈ dictSet d k v, kv.2.blockIdx < cur := by
  intro kv hkv
  rcases mem_dictSet_weak _ _ _ _ hkv with h | h
  · rw [h]; exact hv
  · exact hall kv h

theorem tools_set_ne {K : Type} [DecidableEq K] (d : List (K × ToolSlot))
    (x : Int) (k : K) (v : ToolSlot)
    (hall : ∀ kv ∈ d, kv.2.blockIdx ≠ x) (hv : v.blockIdx ≠ x) :
    ∀ kv ∈ dictSet d k v, kv.2.blockIdx ≠ x := by
  intro kv hkv
  rcases mem_dictSet_weak _ _ _ _ hkv with h | h
  · rw [h]; exact hv
  · exact hall kv h

theorem tools_le_mono (d : List (Nat × ToolSlot)) (c1 c2 : Int) (hle : c1 ≤ c2)
    (hall : ∀ kv ∈ d, kv.2.blockIdx < c1) : ∀ kv ∈ d, kv.2.blockIdx < c2 :=
  fun kv hkv => lt_of_lt_of_le (hall kv hkv) hle

theorem coStepToolCall_sim (now : Nat) (s : CoState) (tc : CoToolCallDelta)
    (hI : CoInv s) :
    CoInv (coStepToolCall now s tc).1 ∧
    thinkScan false (coScanSt s) (coStepToolCall now s tc).2 =
      some (coScanSt (coStepToolCall now s tc).1) := by
  obtain ⟨hth, htx, htools, hne1, hne2⟩ := hI
  by_cases hmem : (dictLookup s.tools tc.index).isSome = true
  · rw [Option.isSome_iff_exists] at hmem
    obtain ⟨t, ht⟩ := hmem
    have htmem := dictLookup_mem _ _ _ ht
    have htlt : t.blockIdx < s.curIdx := htools _ htmem
    simp only [coStepToolCall, ht, Option.isSome_some, if_true]
    rcases heqf : tc.fname with _ | nm
    · simp only []
      refine ⟨⟨hth, htx, tools_set_lt _ _ _ _ htools htlt, hne1,
        fun h3 => tools_set_ne _ _ _ _ (hne2 h3) (hne2 h3 _ htmem)⟩, ?_⟩
      rcases heqa : tc.fargs with _ | a <;>
        by_cases hst : t.started = true <;>
        by_cases h1 : s.thinkingStarted = true <;>
        simp [heqa, hst, h1, coScanSt, thinkScan, thinkStep]
    · by_cases hst : t.started = true
      · simp only [hst, if_true]
        refine ⟨⟨hth, htx, tools_set_lt _ _ _ _ htools htlt, hne1,
          fun h3 => tools_set_ne _ _ _ _ (hne2 h3) (hne2 h3 _ htmem)⟩, ?_⟩
        rcases heqa : tc.fargs with _ | a <;>
          by_cases h1 : s.thinkingStarted = true <;>
          simp [heqa, hst, h1, coScanSt, thinkScan, thinkStep]
      · simp only [hst, if_false, Bool.false_eq_true]
        refine ⟨⟨hth, htx, tools_set_lt _ _ _ _ htools htlt, hne1,
          fun h3 => tools_set_ne _ _ _ _ (hne2 h3) (hne2 h3 _ htmem)⟩, ?_⟩
        rcases heqa : tc.fargs with _ | a <;>
          by_cases h1 : s.thinkingStarted = true <;>
          simp [heqa, hst, h1, coScanSt, thinkScan, thinkStep]
  · simp only [Bool.not_eq_true, Option.not_isSome_iff_eq_none] at hmem
    simp only [coStepToolCall, hmem, Option.isSome_none, Bool.false_eq_true,
      if_false, dictLookup_dictSet_self]
    by_cases h2 : s.textStarted = true
    · have htxv := htx h2
      simp only [h2, if_true]
      rcases heqf : tc.fname with _ | nm
      · simp only []
        refine ⟨⟨?_, by simp, ?_, by simp, ?_⟩, ?_⟩
        · intro h3
          dsimp only at h3 ⊢
          have := hth h3
          omega
        · exact tools_set_lt _ _ _ _
            (tools_set_lt _ _ _ _ (tools_le_mono _ _ _ (by dsimp only; omega) htools)
              (by dsimp only; omega))
            (by dsimp only; omega)
        · intro h3
          dsimp only at h3
          refine tools_set_ne _ _ _ _
            (tools_set_ne _ _ _ _ (hne2 h3) (by dsimp only; have := hth h3; omega))
            (by dsimp only; have := hth h3; omega)
        · rcases heqa : tc.fargs with _ | a
          · by_cases h1 : s.thinkingStarted = true
            · have hne12 := hne1 h1 h2
              simp [heqa, h1, coScanSt, thinkScan, thinkStep, hne12]
            · simp [heqa, h1, coScanSt, thinkScan, thinkStep]
          · by_cases h1 : s.thinkingStarted = true
            · have hne12 := hne1 h1 h2
              simp [heqa, h1, coScanSt, thinkScan, thinkStep, hne12]
            · simp [heqa, h1, coScanSt, thinkScan, thinkStep]
      · simp only []
        refine ⟨⟨?_, by simp, ?_, by simp, ?_⟩, ?_⟩
        · intro h3
          dsimp only at h3 ⊢
          have := hth h3
          omega
        · exact tools_set_lt _ _ _ _
            (tools_set_lt _ _ _ _ (tools_le_mono _ _ _ (by dsimp only; omega) htools)
              (by dsimp only; omega))
            (by dsimp only; omega)
        · intro h3
          dsimp only at h3
          refine tools_set_ne _ _ _ _
            (tools_set_ne _ _ _ _ (hne2 h3) (by dsimp only; have := hth h3; omega))
            (by dsimp only; have := hth h3; omega)
        · rcases heqa : tc.fargs with _ | a
          · by_cases h1 : s.thinkingStarted = true
            · have hne12 := hne1 h1 h2
              simp [heqa, h1, coScanSt, thinkScan, thinkStep, hne12]
            · simp [heqa, h1, coScanSt, thinkScan, thinkStep]
          · by_cases h1 : s.thinkingStarted = true
            · have hne12 := hne1 h1 h2
              simp [heqa, h1, coScanSt, thinkScan, thinkStep, hne12]
            · simp [heqa, h1, coScanSt, thinkScan, thinkStep]
    · simp only [h2, if_false, Bool.false_eq_true]
      rcases heqf : tc.fname with _ | nm
      · simp only []
        refine ⟨⟨?_, ?_, ?_, ?_, ?_⟩, ?_⟩
        · intro h3
          dsimp only at h3 ⊢
          have := hth h3
          omega
        · simp
        · exact tools_set_lt _ _ _ _
            (tools_set_lt _ _ _ _ (tools_le_mono _ _ _ (by dsimp only; omega) htools)
              (by dsimp only; omega))
            (by dsimp only; omega)
        · simp
        · intro h3
          dsimp only at h3
          refine tools_set_ne _ _ _ _
            (tools_set_ne _ _ _ _ (hne2 h3) (by dsimp only; have := hth h3; omega))
            (by dsimp only; have := hth h3; omega)
        · rcases heqa : tc.fargs with _ | a <;>
            by_cases h1 : s.thinkingStarted = true <;>
            simp [heqa, h1, coScanSt, thinkScan, thinkStep]
      · simp only []
        refine ⟨⟨?_, ?_, ?_, ?_, ?_⟩, ?_⟩
        · intro h3
          dsimp only at h3 ⊢
          have := hth h3
          omega
        · simp
        · exact tools_set_lt _ _ _ _
            (tools_set_lt _ _ _ _ (tools_le_mono _ _ _ (by dsimp only; omega) htools)
              (by dsimp only; omega))
            (by dsimp only; omega)
        · simp
        · intro h3
          dsimp only at h3
          refine tools_set_ne _ _ _ _
            (tools_set_ne _ _ _ _ (hne2 h3) (by dsimp only; have := hth h3; omega))
            (by dsimp only; have := hth h3; omega)
        · rcases heqa : tc.fargs with _ | a <;>
            by_cases h1 : s.thinkingStarted = true <;>
            simp [heqa, h1, coScanSt, thinkScan, thinkStep]

theorem coStepFinish_sim (s : CoState) (f : Option String) (hI : CoInv s) :
    CoInv (coStepFinish s f).1 ∧
    thinkScan false (coScanSt s) (coStepFinish s f).2 =
      some (coScanSt (coStepFinish s f).1) := by
  obtain ⟨hth, htx, htools, hne1, hne2⟩ := hI
  by_cases hf : f = some "tool_calls"
  · unfold coStepFinish
    rw [if_pos hf]
    refine ⟨⟨hth, htx, ?_, hne1, ?_⟩, ?_⟩
    · intro kv hkv
      simp only [List.mem_map] at hkv
      obtain ⟨kv0, hkv0, rfl⟩ := hkv
      have := htools kv0 hkv0
      dsimp only
      split <;> simpa using this
    · intro h3 kv hkv
      simp only [List.mem_map] at hkv
      obtain ⟨kv0, hkv0, rfl⟩ := hkv
      have := hne2 h3 kv0 hkv0
      dsimp only
      split <;> simpa using this
    · by_cases h1 : s.thinkingStarted = true
      · simp only [coScanSt, h1, if_true]
        apply thinkScan_stops_ne
        intro e he
        simp only [List.mem_filterMap] at he
        obtain ⟨kv, hkv, hkv2⟩ := he
        split at hkv2
        · cases hkv2
          exact ⟨_, rfl, hne2 h1 kv hkv⟩
        · cases hkv2
      · simp only [coScanSt, h1, if_false, Bool.false_eq_true]
        apply thinkScan_stops_none
        intro e he
        simp only [List.mem_filterMap] at he
        obtain ⟨kv, hkv, hkv2⟩ := he
        split at hkv2
        · cases hkv2
          exact ⟨_, rfl⟩
        · cases hkv2
  · unfold coStepFinish
    rw [if_neg hf]
    exact ⟨⟨hth, htx, htools, hne1, hne2⟩, rfl⟩

theorem coStepToolCalls_sim (now : Nat) (s : CoState)
    (tcs : List CoToolCallDelta) (hI : CoInv s) :
    CoInv (coStepToolCalls now s tcs).1 ∧
    thinkScan false (coScanSt s) (coStepToolCalls now s tcs).2 =
      some (coScanSt (coStepToolCalls now s tcs).1) := by
  induction tcs generalizing s with
  | nil => exact ⟨hI, rfl⟩
  | cons tc rest ih =>
    simp only [coStepToolCalls]
    obtain ⟨hI1, hs1⟩ := coStepToolCall_sim now s tc hI
    obtain ⟨hI2, hs2⟩ := ih _ hI1
    refine ⟨hI2, ?_⟩
    rw [thinkScan_append, hs1]
    simpa using hs2

theorem scan_compose (σ0 σ1 σ2 : Option (Int × Bool)) (a b : List SSE)
    (h1 : thinkScan false σ0 a = some σ1)
    (h2 : thinkScan false σ1 b = some σ2) :
    thinkScan false σ0 (a ++ b) = some σ2 := by
  rw [thinkScan_append, h1]
  simpa using h2

theorem coStepData_sim (now : Nat) (s : CoState) (d : CoData) (hI : CoInv s) :
    CoInv (coStepData now s d).1 ∧
    thinkScan false (coScanSt s) (coStepData now s d).2 =
      some (coScanSt (coStepData now s d).1) := by
  obtain ⟨du, dro, drt, dc, dtc, df⟩ := d
  have key : ∀ t : CoState, CoInv t → coScanSt t = coScanSt s →
      CoInv (coStepFinish (coStepToolCalls now (coStepContent
        (coStepReasoning t drt).1 dc).1 dtc).1 df).1 ∧
      thinkScan false (coScanSt s)
        ((coStepReasoning t drt).2 ++
         (coStepContent (coStepReasoning t drt).1 dc).2 ++
         (coStepToolCalls now (coStepContent
           (coStepReasoning t drt).1 dc).1 dtc).2 ++
         (coStepFinish (coStepToolCalls now (coStepContent
           (coStepReasoning t drt).1 dc).1 dtc).1 df).2) =
      some (coScanSt (coStepFinish (coStepToolCalls now (coStepContent
        (coStepReasoning t drt).1 dc).1 dtc).1 df).1) := by
    intro t hIt hsc
    obtain ⟨hI1, hs1⟩ := coStepReasoning_sim t drt hIt
    obtain ⟨hI2, hs2⟩ := coStepContent_sim _ dc hI1
    obtain ⟨hI3, hs3⟩ := coStepToolCalls_sim now _ dtc hI2
    obtain ⟨hI4, hs4⟩ := coStepFinish_sim _ df hI3
    rw [hsc] at hs1
    exact ⟨hI4, scan_compose _ _ _ _ _
      (scan_compose _ _ _ _ _ (scan_compose _ _ _ _ _ hs1 hs2) hs3) hs4⟩
  cases du <;> cases dro <;>
    exact key _ ⟨hI.1, hI.2, hI.3, hI.4, hI.5⟩ rfl

theorem coRunData_sim (now : Nat) (s : CoState) (ds : List CoData)
    (hI : CoInv s) :
    CoInv (coRunData now s ds).1 ∧
    thinkScan false (coScanSt s) (coRunData now s ds).2 =
      some (coScanSt (coRunData now s ds).1) := by
  induction ds generalizing s with
  | nil => exact ⟨hI, rfl⟩
  | cons d rest ih =>
    simp only [coRunData]
    obtain ⟨hI1, hs1⟩ := coStepData_sim now s d hI
    obtain ⟨hI2, hs2⟩ := ih _ hI1
    exact ⟨hI2, scan_compose _ _ _ _ _ hs1 hs2⟩

theorem coCloseAll_scan (s : CoState) :
    thinkScan false (coScanSt s) (coCloseAll s) = some none := by
  unfold coCloseAll
  by_cases h1 : s.thinkingStarted = true <;>
    by_cases h2 : s.textStarted = true <;>
    simp [h1, h2, coScanSt, thinkScan_append, thinkScan, thinkStep,
      closeThinking] <;>
    (apply thinkScan_stops_none
     intro e he
     simp only [List.mem_filterMap] at he
     obtain ⟨kv, hkv2, hkv⟩ := he
     split at hkv
     · cases hkv
       exact ⟨_, rfl⟩
     · cases hkv)

theorem CoInv_init : CoInv CoState.init := by
  refine ⟨?_, ?_, ?_, ?_, ?_⟩ <;> simp [CoState.init]

theorem thinkStep_error (σ : Option (Int × Bool)) (m : String) :
    thinkStep false σ (SSE.errorEvent m) = some σ := by
  rcases σ with _ | ⟨i, sg⟩ <;> rfl

theorem thinkScan_errIf (σ : Option (Int × Bool)) (c : Prop) [Decidable c]
    (m : String) :
    thinkScan false σ (if c then [SSE.errorEvent m] else []) = some σ := by
  split <;> simp [thinkScan, thinkStep_error]

theorem copilot_thinkOK_ok (now : Nat) (targetModel : String)
    (ds : List CoData) :
    thinkOK false (copilotStream now targetModel ds .ok) = true := by
  obtain ⟨-, hscan⟩ := coRunData_sim now CoState.init ds CoInv_init
  rw [show coScanSt CoState.init = none from rfl] at hscan
  unfold thinkOK copilotStream
  rw [thinkScan_append, thinkScan_append,
    show thinkScan false none [SSE.messageStart Usage.zero, SSE.ping] =
      some none from rfl]
  simp only [hscan]
  simp [thinkScan_append, thinkScan_errIf, coCloseAll_scan, thinkScan,
    thinkStep]

theorem dictSet_dictSet_self {K V : Type} [DecidableEq K]
    (d : List (K × V)) (k : K) (v w : V) :
    dictSet (dictSet d k v) k w = dictSet d k w := by
  induction d with
  | nil => simp [dictSet]
  | cons kv rest ih =>
    by_cases h : kv.1 = k <;> simp [dictSet, h, ih]

theorem dictLookup_none_notin {K V : Type} [DecidableEq K]
    (d : List (K × V)) (k : K) (h : dictLookup d k = none) :
    k ∉ d.map Prod.fst := by
  induction d with
  | nil => simp
  | cons kv rest ih =>
    by_cases hk : kv.1 = k
    · simp [dictLookup, hk] at h
    · simp only [dictLookup, if_neg hk] at h
      simp only [List.map_cons, List.mem_cons]
      rintro (h2 | h2)
      · exact hk h2.symm
      · exact ih h h2

theorem startIdxs_nil : startIdxs [] = [] := rfl

theorem startIdxs_cons_start (i : Int) (k : BlockKind) (l : List SSE) :
    startIdxs (SSE.blockStart i k :: l) = i :: startIdxs l := rfl

theorem startIdxs_cons_delta (i : Int) (d : DeltaKind) (l : List SSE) :
    startIdxs (SSE.blockDelta i d :: l) = startIdxs l := rfl

theorem startIdxs_cons_stop (i : Int) (l : List SSE) :
    startIdxs (SSE.blockStop i :: l) = startIdxs l := rfl

theorem map_close_blockIdx (l : List (Nat × ToolSlot)) :
    ((l.map fun kv => (kv.1, if kv.2.started && !kv.2.closed then
      { kv.2 with closed := true } else kv.2)).map fun kv => kv.2.blockIdx) =
    l.map fun kv => kv.2.blockIdx := by
  induction l with
  | nil => rfl
  | cons kv rest ih =>
    simp only [List.map_cons, ih]
    congr 1
    dsimp only
    split <;> rfl

theorem oai_fresh_inv (s : OAIState) (seen : List Int)
    (htools : ∀ kv ∈ s.tools, kv.2.blockIdx < s.curIdx)
    (hkn : (s.tools.map Prod.fst).Nodup)
    (htn : (s.tools.map fun kv => kv.2.blockIdx).Nodup)
    (hsn : seen.Nodup) (hsl : ∀ i ∈ seen, i < s.curIdx)
    (hun : ∀ kv ∈ s.tools, kv.2.started = false → kv.2.blockIdx ∉ seen)
    (k : Nat) (t2 : ToolSlot) (hmem : dictLookup s.tools k = none)
    (hbi : t2.blockIdx = s.curIdx)
    (bth btx : Bool) (hbth : bth = false) (hbtx : btx = false)
    (ti xi : Int) (u : Option (Nat × Nat))
    (starts : List Int)
    (hst : starts = [] ∨ (starts = [s.curIdx] ∧ t2.started = true)) :
    OAIInv { textStarted := btx, textIdx := xi, thinkingStarted := bth,
             thinkingIdx := ti, curIdx := s.curIdx + 1,
             tools := s.tools ++ [(k, t2)], usage := u }
      (seen ++ starts) := by
  refine ⟨?_, ?_, ?_, ?_, ?_, ?_, ?_, ?_, ?_, ?_⟩
  · intro h3
    simp [hbth] at h3
  · intro h3
    simp [hbtx] at h3
  · intro kv hkv
    dsimp only at hkv ⊢
    rcases List.mem_append.mp hkv with h | h
    · have := htools kv h
      omega
    · simp only [List.mem_singleton] at h
      subst h
      dsimp only
      omega
  · intro h3
    simp [hbth] at h3
  · intro h3
    simp [hbth] at h3
  · dsimp only
    simp only [List.map_append, List.map_cons, List.map_nil]
    refine List.nodup_append.mpr ⟨hkn, List.nodup_singleton _, ?_⟩
    intro x hx hx2
    simp only [List.mem_singleton] at hx2
    subst hx2
    exact dictLookup_none_notin _ _ hmem hx
  · dsimp only
    simp only [List.map_append, List.map_cons, List.map_nil]
    refine List.nodup_append.mpr ⟨htn, List.nodup_singleton _, ?_⟩
    intro x hx hx2
    simp only [List.mem_singleton] at hx2
    subst hx2
    simp only [List.mem_map] at hx
    obtain ⟨kv, hkv, hkv2⟩ := hx
    have := htools kv hkv
    omega
  · rcases hst with h | ⟨h, -⟩
    · subst h
      simpa using hsn
    · subst h
      refine List.nodup_append.mpr ⟨hsn, List.nodup_singleton _, ?_⟩
      intro x hx hx2
      simp only [List.mem_singleton] at hx2
      subst hx2
      have := hsl _ hx
      omega
  · intro i hi
    dsimp only
    rcases List.mem_append.mp hi with h | h
    · have := hsl i h
      omega
    · rcases hst with h2 | ⟨h2, -⟩ <;> subst h2
      · simp at h
      · simp only [List.mem_singleton] at h
        omega
  · intro kv hkv hst4
    dsimp only at hkv hst4 ⊢
    rcases List.mem_append.mp hkv with h | h
    · have h5 := hun kv h hst4
      have h6 := htools kv h
      intro hmem2
      rcases List.mem_append.mp hmem2 with h7 | h7
      · exact h5 h7
      · rcases hst with h8 | ⟨h8, -⟩ <;> subst h8
        · simp at h7
        · simp only [List.mem_singleton] at h7
          omega
    · simp only [List.mem_singleton] at h
      subst h
      dsimp only at hst4
      rcases hst with h8 | ⟨h8, hstt⟩
      · subst h8
        intro hmem2
        have hb2 : ((k, t2) : Nat × ToolSlot).2.blockIdx = s.curIdx := hbi
        rcases List.mem_append.mp hmem2 with h7 | h7
        · have := hsl _ h7
          omega
        · simp at h7
      · rw [hstt] at hst4
        simp at hst4

theorem oai_exist_inv (s : OAIState) (seen : List Int)
    (hth : s.thinkingStarted = true → s.thinkingIdx < s.curIdx)
    (htx : s.textStarted = true → s.textIdx < s.curIdx)
    (htools : ∀ kv ∈ s.tools, kv.2.blockIdx < s.curIdx)
    (hne1 : s.thinkingStarted = true → s.textStarted = true →
      s.textIdx ≠ s.thinkingIdx)
    (hne2 : s.thinkingStarted = true → ∀ kv ∈ s.tools,
      kv.2.blockIdx ≠ s.thinkingIdx)
    (hkn : (s.tools.map Prod.fst).Nodup)
    (htn : (s.tools.map fun kv => kv.2.blockIdx).Nodup)
    (hsn : seen.Nodup) (hsl : ∀ i ∈ seen, i < s.curIdx)
    (hun : ∀ kv ∈ s.tools, kv.2.started = false → kv.2.blockIdx ∉ seen)
    (k : Nat) (t0 t2 : ToolSlot) (ht : dictLookup s.tools k = some t0)
    (hb : t2.blockIdx = t0.blockIdx)
    (starts : List Int)
    (hcase : (t2.started = t0.started ∧ starts = []) ∨
      (t0.started = false ∧ t2.started = true ∧ starts = [t0.blockIdx])) :
    OAIInv { s with tools := dictSet s.tools k t2 } (seen ++ starts) := by
  have htmem : (k, t0) ∈ s.tools := dictLookup_mem _ _ _ ht
  have htlt : t0.blockIdx < s.curIdx := htools _ htmem
  refine ⟨hth, htx, ?_, hne1, ?_, ?_, ?_, ?_, ?_, ?_⟩
  · intro kv hkv
    dsimp only at hkv ⊢
    rcases mem_dictSet_existing _ _ _ _ ht hkn kv hkv with h | ⟨h, -⟩
    · subst h
      have hb2 : ((k, t2) : Nat × ToolSlot).2.blockIdx = t0.blockIdx := hb
      omega
    · exact htools kv h
  · intro h3 kv hkv
    dsimp only at h3 hkv ⊢
    rcases mem_dictSet_existing _ _ _ _ ht hkn kv hkv with h | ⟨h, -⟩
    · subst h
      dsimp only
      rw [hb]
      exact hne2 h3 _ htmem
    · exact hne2 h3 kv h
  · dsimp only
    rw [dictSet_keys_existing _ _ _ _ ht]
    exact hkn
  · dsimp only
    rw [show (dictSet s.tools k t2).map (fun kv => kv.2.blockIdx) =
        s.tools.map (fun kv => kv.2.blockIdx) from
      dictSet_vals_existing _ _ _ _ (fun v => v.blockIdx) ht hb]
    exact htn
  · rcases hcase with ⟨-, h⟩ | ⟨hst0, -, h⟩ <;> subst h
    · simpa using hsn
    · refine List.nodup_append.mpr ⟨hsn, List.nodup_singleton _, ?_⟩
      intro x hx hx2
      simp only [List.mem_singleton] at hx2
      subst hx2
      exact hun _ htmem hst0 hx
  · intro i hi
    dsimp only
    rcases List.mem_append.mp hi with h | h
    · exact hsl i h
    · rcases hcase with ⟨-, h2⟩ | ⟨-, -, h2⟩ <;> subst h2
      · simp at h
      · simp only [List.mem_singleton] at h
        omega
  · intro kv hkv hst4
    dsimp only at hkv hst4 ⊢
    rcases mem_dictSet_existing _ _ _ _ ht hkn kv hkv with h | ⟨h, hne⟩
    · subst h
      dsimp only at hst4 ⊢
      rcases hcase with ⟨hsame, h2⟩ | ⟨-, hstt, h2⟩ <;> subst h2
      · rw [hst4] at hsame
        have h5 := hun _ htmem hsame.symm
        rw [hb]
        simpa using h5
      · rw [hstt] at hst4
        simp at hst4
    · have h5 := hun kv h hst4
      rcases hcase with ⟨-, h2⟩ | ⟨-, -, h2⟩ <;> subst h2
      · simpa using h5
      · intro hmem2
        rcases List.mem_append.mp hmem2 with h7 | h7
        · exact h5 h7
        · simp only [List.mem_singleton] at h7
          have := List.inj_on_of_nodup_map htn h htmem h7
          rw [this] at hne
          exact hne rfl

theorem oaiStepReasoning_sim (s : OAIState) (seen : List Int)
    (r : Option String) (hI : OAIInv s seen) :
    OAIInv (oaiStepReasoning s r).1
      (seen ++ startIdxs (oaiStepReasoning s r).2) ∧
    thinkScan false (oaiScanSt s) (oaiStepReasoning s r).2 =
      some (oaiScanSt (oaiStepReasoning s r).1) := by
  obtain ⟨hth, htx, htools, hne1, hne2, hkn, htn, hsn, hsl, hun⟩ := hI
  cases r with
  | none =>
    refine ⟨?_, rfl⟩
    simpa [oaiStepReasoning, startIdxs] using
      (⟨hth, htx, htools, hne1, hne2, hkn, htn, hsn, hsl, hun⟩ : OAIInv s seen)
  | some txt =>
    by_cases h1 : s.thinkingStarted = true
    · simp only [oaiStepReasoning, h1, if_true]
      refine ⟨?_, by simp [oaiScanSt, h1, thinkScan, thinkStep]⟩
      simpa [startIdxs] using
        (⟨hth, htx, htools, hne1, hne2, hkn, htn, hsn, hsl, hun⟩ : OAIInv s seen)
    · simp only [oaiStepReasoning, h1, if_false, Bool.false_eq_true]
      refine ⟨⟨?_, ?_, ?_, ?_, ?_, ?_, ?_, ?_, ?_, ?_⟩, ?_⟩
      · intro h3
        dsimp only
        omega
      · intro h3
        dsimp only at h3 ⊢
        have := htx h3
        omega
      · intro kv hkv
        dsimp only at hkv ⊢
        have := htools kv hkv
        omega
      · intro h3 h4
        dsimp only at h4 ⊢
        have := htx h4
        omega
      · intro h3 kv hkv
        dsimp only at hkv ⊢
        have := htools kv hkv
        omega
      · exact hkn
      · exact htn
      · simp only [startIdxs_cons_start, startIdxs_cons_delta, startIdxs_nil]
        refine List.nodup_append.mpr ⟨hsn, List.nodup_singleton _, ?_⟩
        intro x hx hx2
        simp only [List.mem_singleton] at hx2
        subst hx2
        have := hsl _ hx
        omega
      · simp only [startIdxs_cons_start, startIdxs_cons_delta, startIdxs_nil]
        intro i hi
        try dsimp only
        rcases List.mem_append.mp hi with h | h
        · have := hsl i h
          omega
        · simp only [List.mem_singleton] at h
          omega
      · simp only [startIdxs_cons_start, startIdxs_cons_delta, startIdxs_nil]
        intro kv hkv hst4
        try dsimp only at hkv hst4 ⊢
        have h5 := hun kv hkv hst4
        have h6 := htools kv hkv
        intro hmem2
        rcases List.mem_append.mp hmem2 with h7 | h7
        · exact h5 h7
        · simp only [List.mem_singleton] at h7
          omega
      · simp [oaiScanSt, h1, thinkScan, thinkStep]

theorem oaiStepContent_sim (s : OAIState) (seen : List Int)
    (c : Option String) (hI : OAIInv s seen) :
    OAIInv (oaiStepContent s c).1
      (seen ++ startIdxs (oaiStepContent s c).2) ∧
    thinkScan false (oaiScanSt s) (oaiStepContent s c).2 =
      some (oaiScanSt (oaiStepContent s c).1) := by
  obtain ⟨hth, htx, htools, hne1, hne2, hkn, htn, hsn, hsl, hun⟩ := hI
  cases c with
  | none =>
    refine ⟨?_, rfl⟩
    simpa [oaiStepContent, startIdxs] using
      (⟨hth, htx, htools, hne1, hne2, hkn, htn, hsn, hsl, hun⟩ : OAIInv s seen)
  | some txt =>
    cases h1 : s.thinkingStarted <;> cases h2 : s.textStarted <;>
      simp only [oaiStepContent, h1, h2, eq_self_iff_true, if_true, if_false,
        Bool.false_eq_true]
    · -- thinking off, text off: open text at curIdx
      refine ⟨⟨?_, ?_, ?_, ?_, ?_, ?_, ?_, ?_, ?_, ?_⟩, ?_⟩
      · intro h3
        simp at h3
      · intro h3
        dsimp only
        omega
      · intro kv hkv
        dsimp only at hkv ⊢
        have := htools kv hkv
        omega
      · intro h3 h4
        simp at h3
      · intro h3 kv hkv
        simp at h3
      · exact hkn
      · exact htn
      · simp only [startIdxs_append, startIdxs_cons_start, startIdxs_cons_delta, startIdxs_nil, List.nil_append, List.append_nil]
        refine List.nodup_append.mpr ⟨hsn, List.nodup_singleton _, ?_⟩
        intro x hx hx2
        simp only [List.mem_singleton] at hx2
        subst hx2
        have := hsl _ hx
        omega
      · simp only [startIdxs_append, startIdxs_cons_start, startIdxs_cons_delta, startIdxs_nil, List.nil_append, List.append_nil]
        intro i hi
        try dsimp only
        rcases List.mem_append.mp hi with h | h
        · have := hsl i h
          omega
        · simp only [List.mem_singleton] at h
          omega
      · simp only [startIdxs_append, startIdxs_cons_start, startIdxs_cons_delta, startIdxs_nil, List.nil_append, List.append_nil]
        intro kv hkv hst4
        try dsimp only at hkv hst4 ⊢
        have h5 := hun kv hkv hst4
        have h6 := htools kv hkv
        intro hmem2
        rcases List.mem_append.mp hmem2 with h7 | h7
        · exact h5 h7
        · simp only [List.mem_singleton] at h7
          omega
      · simp [oaiScanSt, h1, thinkScan, thinkStep]
    · -- thinking off, text on: just a delta
      refine ⟨?_, by simp [oaiScanSt, h1, thinkScan, thinkStep]⟩
      simpa [startIdxs] using
        (⟨hth, htx, htools, hne1, hne2, hkn, htn, hsn, hsl, hun⟩ : OAIInv s seen)
    · -- thinking on, text off: close thinking, open text at curIdx
      refine ⟨⟨?_, ?_, ?_, ?_, ?_, ?_, ?_, ?_, ?_, ?_⟩, ?_⟩
      · intro h3
        simp at h3
      · intro h3
        dsimp only
        omega
      · intro kv hkv
        dsimp only at hkv ⊢
        have := htools kv hkv
        omega
      · intro h3
        simp at h3
      · intro h3
        simp at h3
      · exact hkn
      · exact htn
      · simp only [closeThinking, List.cons_append, List.nil_append,
          startIdxs_cons_start, startIdxs_cons_delta, startIdxs_cons_stop,
          startIdxs_nil]
        refine List.nodup_append.mpr ⟨hsn, List.nodup_singleton _, ?_⟩
        intro x hx hx2
        simp only [List.mem_singleton] at hx2
        subst hx2
        have := hsl _ hx
        omega
      · simp only [closeThinking, List.cons_append, List.nil_append,
          startIdxs_cons_start, startIdxs_cons_delta, startIdxs_cons_stop,
          startIdxs_nil]
        intro i hi
        try dsimp only
        rcases List.mem_append.mp hi with h | h
        · have := hsl i h
          omega
        · simp only [List.mem_singleton] at h
          omega
      · simp only [closeThinking, List.cons_append, List.nil_append,
          startIdxs_cons_start, startIdxs_cons_delta, startIdxs_cons_stop,
          startIdxs_nil]
        intro kv hkv hst4
        try dsimp only at hkv hst4 ⊢
        have h5 := hun kv hkv hst4
        have h6 := htools kv hkv
        intro hmem2
        rcases List.mem_append.mp hmem2 with h7 | h7
        · exact h5 h7
        · simp only [List.mem_singleton] at h7
          omega
      · have hne := hne1 h1
        simp [oaiScanSt, h1, thinkScan, thinkStep, closeThinking]
    · -- thinking on, text on: close thinking, delta on existing text
      refine ⟨⟨?_, ?_, ?_, ?_, ?_, ?_, ?_, ?_, ?_, ?_⟩, ?_⟩
      · intro h3
        simp at h3
      · intro h3
        dsimp only
        exact htx h2
      · exact htools
      · intro h3
        simp at h3
      · intro h3
        simp at h3
      · exact hkn
      · exact htn
      · simpa [closeThinking, startIdxs] using hsn
      · simpa [closeThinking, startIdxs] using hsl
      · intro kv hkv hst4
        dsimp only at hkv hst4 ⊢
        have h5 := hun kv hkv hst4
        simpa [closeThinking, startIdxs] using h5
      · simp [oaiScanSt, h1, thinkScan, thinkStep, closeThinking]

theorem oaiStepToolCall_sim (now : Nat) (s : OAIState) (seen : List Int)
    (tc : OAIToolCallDelta) (hI : OAIInv s seen) :
    OAIInv (oaiStepToolCall now s tc).1
      (seen ++ startIdxs (oaiStepToolCall now s tc).2) ∧
    thinkScan false (oaiScanSt s) (oaiStepToolCall now s tc).2 =
      some (oaiScanSt (oaiStepToolCall now s tc).1) := by
  obtain ⟨hth, htx, htools, hne1, hne2, hkn, htn, hsn, hsl, hun⟩ := hI
  by_cases hmem : (dictLookup s.tools tc.index).isSome = true
  · obtain ⟨t0, ht⟩ := Option.isSome_iff_exists.mp hmem
    have hInvSame : ∀ t2 : ToolSlot, t2.blockIdx = t0.blockIdx →
        t2.started = t0.started →
        OAIInv { s with tools := dictSet s.tools tc.index t2 } (seen ++ []) :=
      fun t2 hb hs2 =>
        oai_exist_inv s seen hth htx htools hne1 hne2 hkn htn hsn hsl hun
          tc.index t0 t2 ht hb [] (Or.inl ⟨hs2, rfl⟩)
    have hInvStart : ∀ t2 : ToolSlot, t2.blockIdx = t0.blockIdx →
        t0.started = false → t2.started = true →
        OAIInv { s with tools := dictSet s.tools tc.index t2 }
          (seen ++ [t0.blockIdx]) :=
      fun t2 hb hs0 hs2 =>
        oai_exist_inv s seen hth htx htools hne1 hne2 hkn htn hsn hsl hun
          tc.index t0 t2 ht hb [t0.blockIdx] (Or.inr ⟨hs0, hs2, rfl⟩)
    simp only [oaiStepToolCall, hmem, if_true]
    rw [ht]
    rcases htid : tc.tid with _ | newid <;>
      rcases heqf : tc.fname with _ | nm <;>
      rcases heqa : tc.fargs with _ | a <;>
      refine ⟨?_, ?_⟩
    · simpa [startIdxs] using hInvSame t0 rfl rfl
    · by_cases h1 : s.thinkingStarted = true <;>
        simp [h1, oaiScanSt, thinkScan, thinkStep]
    · by_cases hst : t0.started = true <;>
        simpa [hst, startIdxs] using hInvSame t0 rfl rfl
    · by_cases hst : t0.started = true <;>
        by_cases h1 : s.thinkingStarted = true <;>
        simp [hst, h1, oaiScanSt, thinkScan, thinkStep]
    · by_cases hst : t0.started = true
      · simpa [hst, startIdxs] using hInvSame t0 rfl rfl
      · have hst0 : t0.started = false := by
          revert hst
          cases t0.started <;> simp
        simpa [hst, startIdxs] using
          hInvStart { t0 with name := nm, started := true } rfl hst0 rfl
    · by_cases hst : t0.started = true <;>
        by_cases h1 : s.thinkingStarted = true <;>
        simp [hst, h1, oaiScanSt, thinkScan, thinkStep]
    · by_cases hst : t0.started = true
      · simpa [hst, startIdxs] using hInvSame t0 rfl rfl
      · have hst0 : t0.started = false := by
          revert hst
          cases t0.started <;> simp
        simpa [hst, startIdxs] using
          hInvStart { t0 with name := nm, started := true } rfl hst0 rfl
    · by_cases hst : t0.started = true <;>
        by_cases h1 : s.thinkingStarted = true <;>
        simp [hst, h1, oaiScanSt, thinkScan, thinkStep]
    · simpa [startIdxs] using hInvSame { t0 with tid := newid } rfl rfl
    · by_cases h1 : s.thinkingStarted = true <;>
        simp [h1, oaiScanSt, thinkScan, thinkStep]
    · by_cases hst : t0.started = true <;>
        simpa [hst, startIdxs] using hInvSame { t0 with tid := newid } rfl rfl
    · by_cases hst : t0.started = true <;>
        by_cases h1 : s.thinkingStarted = true <;>
        simp [hst, h1, oaiScanSt, thinkScan, thinkStep]
    · by_cases hst : t0.started = true
      · simpa [hst, startIdxs] using hInvSame { t0 with tid := newid } rfl rfl
      · have hst0 : t0.started = false := by
          revert hst
          cases t0.started <;> simp
        simpa [hst, startIdxs] using
          hInvStart { t0 with tid := newid, name := nm, started := true }
            rfl hst0 rfl
    · by_cases hst : t0.started = true <;>
        by_cases h1 : s.thinkingStarted = true <;>
        simp [hst, h1, oaiScanSt, thinkScan, thinkStep]
    · by_cases hst : t0.started = true
      · simpa [hst, startIdxs] using hInvSame { t0 with tid := newid } rfl rfl
      · have hst0 : t0.started = false := by
          revert hst
          cases t0.started <;> simp
        simpa [hst, startIdxs] using
          hInvStart { t0 with tid := newid, name := nm, started := true }
            rfl hst0 rfl
    · by_cases hst : t0.started = true <;>
        by_cases h1 : s.thinkingStarted = true <;>
        simp [hst, h1, oaiScanSt, thinkScan, thinkStep]
  · have hnone : dictLookup s.tools tc.index = none := by
      cases hcc : dictLookup s.tools tc.index
      · rfl
      · rw [hcc] at hmem
        simp at hmem
    rcases htid : tc.tid with _ | newid <;>
      rcases heqf : tc.fname with _ | nm <;>
      rcases heqa : tc.fargs with _ | a <;>
      cases h1 : s.thinkingStarted <;>
      cases hx : s.textStarted <;>
      simp only [oaiStepToolCall, hnone, htid, heqf, heqa, Option.isSome_none,
        Bool.false_eq_true, if_false, h1, hx, eq_self_iff_true, if_true,
        dictLookup_dictSet_self] <;>
      rw [dictSet_dictSet_self, dictSet_fresh _ _ _ hnone] <;>
      refine ⟨oai_fresh_inv _ _ htools hkn htn hsn hsl hun _ _ hnone rfl _ _
        rfl rfl _ _ _ _ ?_, ?_⟩ <;>
      first
        | exact Or.inl rfl
        | exact Or.inr ⟨rfl, rfl⟩
        | simp [oaiScanSt, h1, hx, thinkScan, thinkStep, closeThinking]

theorem oaiStepFinish_sim (s : OAIState) (seen : List Int) (f : Option String)
    (hI : OAIInv s seen) :
    OAIInv (oaiStepFinish s f).1 (seen ++ startIdxs (oaiStepFinish s f).2) ∧
    thinkScan false (oaiScanSt s) (oaiStepFinish s f).2 =
      some (oaiScanSt (oaiStepFinish s f).1) := by
  obtain ⟨hth, htx, htools, hne1, hne2, hkn, htn, hsn, hsl, hun⟩ := hI
  by_cases hf : f = some "tool_calls"
  · unfold oaiStepFinish
    rw [if_pos hf]
    have hsi : startIdxs (s.tools.filterMap fun kv =>
        if kv.2.started && !kv.2.closed then some (SSE.blockStop kv.2.blockIdx)
        else none) = [] := by
      apply List.filterMap_eq_nil_iff.mpr
      intro e he
      simp only [List.mem_filterMap] at he
      obtain ⟨kv, -, hkv⟩ := he
      split at hkv
      · cases hkv
        rfl
      · cases hkv
    refine ⟨?_, ?_⟩
    · rw [hsi, List.append_nil]
      refine ⟨hth, htx, ?_, hne1, ?_, ?_, ?_, hsn, hsl, ?_⟩
      · intro kv hkv
        simp only [List.mem_map] at hkv
        obtain ⟨kv0, hkv0, rfl⟩ := hkv
        have := htools kv0 hkv0
        dsimp only
        split <;> simpa using this
      · intro h3 kv hkv
        simp only [List.mem_map] at hkv
        obtain ⟨kv0, hkv0, rfl⟩ := hkv
        have := hne2 h3 kv0 hkv0
        dsimp only
        split <;> simpa using this
      · dsimp only
        rw [List.map_map]
        exact hkn
      · dsimp only
        rw [map_close_blockIdx]
        exact htn
      · intro kv hkv hst4
        simp only [List.mem_map] at hkv
        obtain ⟨kv0, hkv0, rfl⟩ := hkv
        have hsteq : kv0.2.started = false := by
          dsimp only at hst4
          split at hst4 <;> simpa using hst4
        have h5 := hun kv0 hkv0 hsteq
        dsimp only
        split <;> simpa using h5
    · by_cases h1 : s.thinkingStarted = true
      · simp only [oaiScanSt, h1, if_true]
        apply thinkScan_stops_ne
        intro e he
        simp only [List.mem_filterMap] at he
        obtain ⟨kv, hkv, hkv2⟩ := he
        split at hkv2
        · cases hkv2
          exact ⟨_, rfl, hne2 h1 kv hkv⟩
        · cases hkv2
      · simp only [oaiScanSt, h1, if_false, Bool.false_eq_true]
        apply thinkScan_stops_none
        intro e he
        simp only [List.mem_filterMap] at he
        obtain ⟨kv, hkv, hkv2⟩ := he
        split at hkv2
        · cases hkv2
          exact ⟨_, rfl⟩
        · cases hkv2
  · unfold oaiStepFinish
    rw [if_neg hf]
    refine ⟨?_, rfl⟩
    simpa [startIdxs] using
      (⟨hth, htx, htools, hne1, hne2, hkn, htn, hsn, hsl, hun⟩ : OAIInv s seen)

theorem oaiStepToolCalls_sim (now : Nat) (s : OAIState) (seen : List Int)
    (tcs : List OAIToolCallDelta) (hI : OAIInv s seen) :
    OAIInv (oaiStepToolCalls now s tcs).1
      (seen ++ startIdxs (oaiStepToolCalls now s tcs).2) ∧
    thinkScan false (oaiScanSt s) (oaiStepToolCalls now s tcs).2 =
      some (oaiScanSt (oaiStepToolCalls now s tcs).1) := by
  induction tcs generalizing s seen with
  | nil =>
    refine ⟨?_, rfl⟩
    simpa [oaiStepToolCalls, startIdxs] using hI
  | cons tc rest ih =>
    simp only [oaiStepToolCalls]
    obtain ⟨hI1, hs1⟩ := oaiStepToolCall_sim now s seen tc hI
    obtain ⟨hI2, hs2⟩ := ih _ _ hI1
    refine ⟨?_, scan_compose _ _ _ _ _ hs1 hs2⟩
    simpa [startIdxs_append, List.append_assoc] using hI2

theorem oaiStepChunk_sim (now : Nat) (s : OAIState) (seen : List Int)
    (ch : OAIChunk) (hI : OAIInv s seen) :
    OAIInv (oaiStepChunk now s ch).1
      (seen ++ startIdxs (oaiStepChunk now s ch).2) ∧
    thinkScan false (oaiScanSt s) (oaiStepChunk now s ch).2 =
      some (oaiScanSt (oaiStepChunk now s ch).1) := by
  obtain ⟨du, dch⟩ := ch
  cases dch with
  | none =>
    cases du <;>
    · refine ⟨?_, rfl⟩
      simp only [oaiStepChunk, startIdxs_nil, List.append_nil]
      exact ⟨hI.1, hI.2, hI.3, hI.4, hI.5, hI.6, hI.7, hI.8, hI.9, hI.10⟩
  | some d =>
    obtain ⟨drt, dc, dtc, df⟩ := d
    have key : ∀ t : OAIState, OAIInv t seen → oaiScanSt t = oaiScanSt s →
        OAIInv (oaiStepFinish (oaiStepToolCalls now (oaiStepContent
          (oaiStepReasoning t drt).1 dc).1 dtc).1 df).1
          (seen ++ startIdxs
            ((oaiStepReasoning t drt).2 ++
             (oaiStepContent (oaiStepReasoning t drt).1 dc).2 ++
             (oaiStepToolCalls now (oaiStepContent
               (oaiStepReasoning t drt).1 dc).1 dtc).2 ++
             (oaiStepFinish (oaiStepToolCalls now (oaiStepContent
               (oaiStepReasoning t drt).1 dc).1 dtc).1 df).2)) ∧
        thinkScan false (oaiScanSt s)
          ((oaiStepReasoning t drt).2 ++
           (oaiStepContent (oaiStepReasoning t drt).1 dc).2 ++
           (oaiStepToolCalls now (oaiStepContent
             (oaiStepReasoning t drt).1 dc).1 dtc).2 ++
           (oaiStepFinish (oaiStepToolCalls now (oaiStepContent
             (oaiStepReasoning t drt).1 dc).1 dtc).1 df).2) =
        some (oaiScanSt (oaiStepFinish (oaiStepToolCalls now (oaiStepContent
          (oaiStepReasoning t drt).1 dc).1 dtc).1 df).1) := by
      intro t hIt hsc
      obtain ⟨hI1, hs1⟩ := oaiStepReasoning_sim t seen drt hIt
      obtain ⟨hI2, hs2⟩ := oaiStepContent_sim _ _ dc hI1
      obtain ⟨hI3, hs3⟩ := oaiStepToolCalls_sim now _ _ dtc hI2
      obtain ⟨hI4, hs4⟩ := oaiStepFinish_sim _ _ df hI3
      rw [hsc] at hs1
      refine ⟨?_, scan_compose _ _ _ _ _
        (scan_compose _ _ _ _ _ (scan_compose _ _ _ _ _ hs1 hs2) hs3) hs4⟩
      simpa [startIdxs_append, List.append_assoc] using hI4
    cases du <;>
      exact key _ ⟨hI.1, hI.2, hI.3, hI.4, hI.5, hI.6, hI.7, hI.8, hI.9,
        hI.10⟩ rfl

theorem oaiRunChunks_sim (now : Nat) (s : OAIState) (seen : List Int)
    (chs : List OAIChunk) (hI : OAIInv s seen) :
    OAIInv (oaiRunChunks now s chs).1
      (seen ++ startIdxs (oaiRunChunks now s chs).2) ∧
    thinkScan false (oaiScanSt s) (oaiRunChunks now s chs).2 =
      some (oaiScanSt (oaiRunChunks now s chs).1) := by
  induction chs generalizing s seen with
  | nil =>
    refine ⟨?_, rfl⟩
    simpa [oaiRunChunks, startIdxs] using hI
  | cons ch rest ih =>
    simp only [oaiRunChunks]
    obtain ⟨hI1, hs1⟩ := oaiStepChunk_sim now s seen ch hI
    obtain ⟨hI2, hs2⟩ := ih _ _ hI1
    refine ⟨?_, scan_compose _ _ _ _ _ hs1 hs2⟩
    simpa [startIdxs_append, List.append_assoc] using hI2

theorem oaiCloseAll_scan (s : OAIState) :
    thinkScan false (oaiScanSt s) (oaiCloseAll s) = some none := by
  unfold oaiCloseAll
  by_cases h1 : s.thinkingStarted = true <;>
    by_cases h2 : s.textStarted = true <;>
    simp [h1, h2, oaiScanSt, thinkScan_append, thinkScan, thinkStep,
      closeThinking] <;>
    (apply thinkScan_stops_none
     intro e he
     simp only [List.mem_filterMap] at he
     obtain ⟨kv, hkv2, hkv⟩ := he
     split at hkv
     · cases hkv
       exact ⟨_, rfl⟩
     · cases hkv)

theorem oaiCloseAll_startIdxs (s : OAIState) :
    startIdxs (oaiCloseAll s) = [] := by
  apply List.filterMap_eq_nil_iff.mpr
  intro e he
  unfold oaiCloseAll at he
  rcases List.mem_append.mp he with h | h
  · rcases List.mem_append.mp h with h3 | h3
    · split at h3 <;> simp [closeThinking] at h3 <;>
        rcases h3 with h4 | h4 <;> simp [h4]
    · split at h3 <;> simp at h3
      simp [h3]
  · simp only [List.mem_filterMap] at h
    obtain ⟨kv, -, hkv⟩ := h
    split at hkv
    · cases hkv
      rfl
    · cases hkv

theorem OAIInv_init : OAIInv OAIState.init [] := by
  refine ⟨?_, ?_, ?_, ?_, ?_, ?_, ?_, ?_, ?_, ?_⟩ <;> simp [OAIState.init]

theorem openai_thinkOK_ok (now : Nat) (chunks : List OAIChunk) :
    thinkOK false (openaiStream now chunks .ok) = true := by
  obtain ⟨-, hscan⟩ := oaiRunChunks_sim now OAIState.init [] chunks OAIInv_init
  rw [show oaiScanSt OAIState.init = none from rfl] at hscan
  unfold thinkOK openaiStream
  rw [thinkScan_append, thinkScan_append,
    show thinkScan false none [SSE.messageStart Usage.zero, SSE.ping] =
      some none from rfl]
  simp only [hscan]
  simp [thinkScan_append, oaiCloseAll_scan, thinkScan, thinkStep]

theorem openai_startIdxs_nodup (now : Nat) (chunks : List OAIChunk)
    (e : UpstreamEnd) :
    (startIdxs (openaiStream now chunks e)).Nodup := by
  obtain ⟨hI, -⟩ := oaiRunChunks_sim now OAIState.init [] chunks OAIInv_init
  have hsn := hI.8
  unfold openaiStream
  cases e with
  | err m =>
    rw [startIdxs_append, startIdxs_append]
    simpa [startIdxs] using hsn
  | ok =>
    rw [startIdxs_append, startIdxs_append, startIdxs_append,
      oaiCloseAll_startIdxs]
    simpa [startIdxs] using hsn

theorem co_fresh_inv (s : CoState) (seen : List Int)
    (hth : s.thinkingStarted = true → s.thinkingIdx < s.curIdx)
    (htools : ∀ kv ∈ s.tools, kv.2.blockIdx < s.curIdx)
    (hne2 : s.thinkingStarted = true → ∀ kv ∈ s.tools,
      kv.2.blockIdx ≠ s.thinkingIdx)
    (hkn : (s.tools.map Prod.fst).Nodup)
    (htn : (s.tools.map fun kv => kv.2.blockIdx).Nodup)
    (hsn : seen.Nodup) (hsl : ∀ i ∈ seen, i < s.curIdx)
    (hun : ∀ kv ∈ s.tools, kv.2.started = false → kv.2.blockIdx ∉ seen)
    (k : Nat) (t2 : ToolSlot) (hmem : dictLookup s.tools k = none)
    (hbi : t2.blockIdx = s.curIdx)
    (bth btx : Bool) (hbth : bth = s.thinkingStarted) (hbtx : btx = false)
    (xi : Int) (u : Option CoUsage) (hc : Bool) (ro : Option String)
    (starts : List Int)
    (hst : starts = [] ∨ (starts = [s.curIdx] ∧ t2.started = true)) :
    CoSeenInv { textStarted := btx, textIdx := xi,
                thinkingStarted := bth, thinkingIdx := s.thinkingIdx,
                curIdx := s.curIdx + 1, tools := s.tools ++ [(k, t2)],
                usage := u, hadContent := hc, reasoningOpaque := ro }
      (seen ++ starts) := by
  refine ⟨?_, ?_, ?_, ?_, ?_, ?_, ?_, ?_, ?_, ?_⟩
  · intro h3
    dsimp only at h3 ⊢
    rw [hbth] at h3
    have := hth h3
    omega
  · intro h3
    simp [hbtx] at h3
  · intro kv hkv
    dsimp only at hkv ⊢
    rcases List.mem_append.mp hkv with h | h
    · have := htools kv h
      omega
    · simp only [List.mem_singleton] at h
      subst h
      have hb2 : ((k, t2) : Nat × ToolSlot).2.blockIdx = s.curIdx := hbi
      omega
  · intro h3 h4
    simp [hbtx] at h4
  · intro h3 kv hkv
    dsimp only at h3 hkv ⊢
    rw [hbth] at h3
    have hth3 := hth h3
    rcases List.mem_append.mp hkv with h | h
    · exact hne2 h3 kv h
    · simp only [List.mem_singleton] at h
      subst h
      have hb2 : ((k, t2) : Nat × ToolSlot).2.blockIdx = s.curIdx := hbi
      omega
  · dsimp only
    simp only [List.map_append, List.map_cons, List.map_nil]
    refine List.nodup_append.mpr ⟨hkn, List.nodup_singleton _, ?_⟩
    intro x hx hx2
    simp only [List.mem_singleton] at hx2
    subst hx2
    exact dictLookup_none_notin _ _ hmem hx
  · dsimp only
    simp only [List.map_append, List.map_cons, List.map_nil]
    refine List.nodup_append.mpr ⟨htn, List.nodup_singleton _, ?_⟩
    intro x hx hx2
    simp only [List.mem_singleton] at hx2
    subst hx2
    simp only [List.mem_map] at hx
    obtain ⟨kv, hkv, hkv2⟩ := hx
    have := htools kv hkv
    omega
  · rcases hst with h | ⟨h, -⟩
    · subst h
      simpa using hsn
    · subst h
      refine List.nodup_append.mpr ⟨hsn, List.nodup_singleton _, ?_⟩
      intro x hx hx2
      simp only [List.mem_singleton] at hx2
      subst hx2
      have := hsl _ hx
      omega
  · intro i hi
    dsimp only
    rcases List.mem_append.mp hi with h | h
    · have := hsl i h
      omega
    · rcases hst with h2 | ⟨h2, -⟩ <;> subst h2
      · simp at h
      · simp only [List.mem_singleton] at h
        omega
  · intro kv hkv hst4
    dsimp only at hkv hst4 ⊢
    rcases List.mem_append.mp hkv with h | h
    · have h5 := hun kv h hst4
      have h6 := htools kv h
      intro hmem2
      rcases List.mem_append.mp hmem2 with h7 | h7
      · exact h5 h7
      · rcases hst with h8 | ⟨h8, -⟩ <;> subst h8
        · simp at h7
        · simp only [List.mem_singleton] at h7
          omega
    · simp only [List.mem_singleton] at h
      subst h
      dsimp only at hst4
      rcases hst with h8 | ⟨h8, hstt⟩
      · subst h8
        intro hmem2
        have hb2 : ((k, t2) : Nat × ToolSlot).2.blockIdx = s.curIdx := hbi
        rcases List.mem_append.mp hmem2 with h7 | h7
        · have := hsl _ h7
          omega
        · simp at h7
      · rw [hstt] at hst4
        simp at hst4

theorem co_exist_inv (s : CoState) (seen : List Int)
    (hth : s.thinkingStarted = true → s.thinkingIdx < s.curIdx)
    (htx : s.textStarted = true → s.textIdx < s.curIdx)
    (htools : ∀ kv ∈ s.tools, kv.2.blockIdx < s.curIdx)
    (hne1 : s.thinkingStarted = true → s.textStarted = true →
      s.textIdx ≠ s.thinkingIdx)
    (hne2 : s.thinkingStarted = true → ∀ kv ∈ s.tools,
      kv.2.blockIdx ≠ s.thinkingIdx)
    (hkn : (s.tools.map Prod.fst).Nodup)
    (htn : (s.tools.map fun kv => kv.2.blockIdx).Nodup)
    (hsn : seen.Nodup) (hsl : ∀ i ∈ seen, i < s.curIdx)
    (hun : ∀ kv ∈ s.tools, kv.2.started = false → kv.2.blockIdx ∉ seen)
    (k : Nat) (t0 t2 : ToolSlot) (ht : dictLookup s.tools k = some t0)
    (hb : t2.blockIdx = t0.blockIdx)
    (hc : Bool)
    (starts : List Int)
    (hcase : (t2.started = t0.started ∧ starts = []) ∨
      (t0.started = false ∧ t2.started = true ∧ starts = [t0.blockIdx])) :
    CoSeenInv { s with hadContent := hc, tools := dictSet s.tools k t2 }
      (seen ++ starts) := by
  have htmem : (k, t0) ∈ s.tools := dictLookup_mem _ _ _ ht
  have htlt : t0.blockIdx < s.curIdx := htools _ htmem
  refine ⟨hth, htx, ?_, hne1, ?_, ?_, ?_, ?_, ?_, ?_⟩
  · intro kv hkv
    dsimp only at hkv ⊢
    rcases mem_dictSet_existing _ _ _ _ ht hkn kv hkv with h | ⟨h, -⟩
    · subst h
      have hb2 : ((k, t2) : Nat × ToolSlot).2.blockIdx = t0.blockIdx := hb
      omega
    · exact htools kv h
  · intro h3 kv hkv
    dsimp only at h3 hkv ⊢
    rcases mem_dictSet_existing _ _ _ _ ht hkn kv hkv with h | ⟨h, -⟩
    · subst h
      dsimp only
      rw [hb]
      exact hne2 h3 _ htmem
    · exact hne2 h3 kv h
  · dsimp only
    rw [dictSet_keys_existing _ _ _ _ ht]
    exact hkn
  · dsimp only
    rw [show (dictSet s.tools k t2).map (fun kv => kv.2.blockIdx) =
        s.tools.map (fun kv => kv.2.blockIdx) from
      dictSet_vals_existing _ _ _ _ (fun v => v.blockIdx) ht hb]
    exact htn
  · rcases hcase with ⟨-, h⟩ | ⟨hst0, -, h⟩ <;> subst h
    · simpa using hsn
    · refine List.nodup_append.mpr ⟨hsn, List.nodup_singleton _, ?_⟩
      intro x hx hx2
      simp only [List.mem_singleton] at hx2
      subst hx2
      exact hun _ htmem hst0 hx
  · intro i hi
    dsimp only
    rcases List.mem_append.mp hi with h | h
    · exact hsl i h
    · rcases hcase with ⟨-, h2⟩ | ⟨-, -, h2⟩ <;> subst h2
      · simp at h
      · simp only [List.mem_singleton] at h
        omega
  · intro kv hkv hst4
    dsimp only at hkv hst4 ⊢
    rcases mem_dictSet_existing _ _ _ _ ht hkn kv hkv with h | ⟨h, hne⟩
    · subst h
      dsimp only at hst4 ⊢
      rcases hcase with ⟨hsame, h2⟩ | ⟨-, hstt, h2⟩ <;> subst h2
      · rw [hst4] at hsame
        have h5 := hun _ htmem hsame.symm
        rw [hb]
        simpa using h5
      · rw [hstt] at hst4
        simp at hst4
    · have h5 := hun kv h hst4
      rcases hcase with ⟨-, h2⟩ | ⟨-, -, h2⟩ <;> subst h2
      · simpa using h5
      · intro hmem2
        rcases List.mem_append.mp hmem2 with h7 | h7
        · exact h5 h7
        · simp only [List.mem_singleton] at h7
          have := List.inj_on_of_nodup_map htn h htmem h7
          rw [this] at hne
          exact hne rfl

theorem coStepReasoningN_sim (s : CoState) (seen : List Int)
    (r : Option String) (hI : CoSeenInv s seen) :
    CoSeenInv (coStepReasoning s r).1
      (seen ++ startIdxs (coStepReasoning s r).2) := by
  obtain ⟨hth, htx, htools, hne1, hne2, hkn, htn, hsn, hsl, hun⟩ := hI
  cases r with
  | none =>
    simpa [coStepReasoning, startIdxs] using
      (⟨hth, htx, htools, hne1, hne2, hkn, htn, hsn, hsl, hun⟩ :
        CoSeenInv s seen)
  | some txt =>
    by_cases h1 : s.thinkingStarted = true
    · simp only [coStepReasoning, h1, if_true, startIdxs_cons_delta,
        startIdxs_nil, List.append_nil]
      exact ⟨fun _ => hth h1, htx, htools, fun _ => hne1 h1,
        fun _ => hne2 h1, hkn, htn, hsn, hsl, hun⟩
    · simp only [coStepReasoning, h1, if_false, Bool.false_eq_true]
      refine ⟨?_, ?_, ?_, ?_, ?_, hkn, htn, ?_, ?_, ?_⟩
      · intro h3
        dsimp only
        omega
      · intro h3
        dsimp only at h3 ⊢
        have := htx h3
        omega
      · intro kv hkv
        dsimp only at hkv ⊢
        have := htools kv hkv
        omega
      · intro h3 h4
        dsimp only at h4 ⊢
        have := htx h4
        omega
      · intro h3 kv hkv
        dsimp only at hkv ⊢
        have := htools kv hkv
        omega
      · simp only [startIdxs_cons_start, startIdxs_cons_delta, startIdxs_nil]
        refine List.nodup_append.mpr ⟨hsn, List.nodup_singleton _, ?_⟩
        intro x hx hx2
        simp only [List.mem_singleton] at hx2
        subst hx2
        have := hsl _ hx
        omega
      · simp only [startIdxs_cons_start, startIdxs_cons_delta, startIdxs_nil]
        intro i hi
        try dsimp only
        rcases List.mem_append.mp hi with h | h
        · have := hsl i h
          omega
        · simp only [List.mem_singleton] at h
          omega
      · simp only [startIdxs_cons_start, startIdxs_cons_delta, startIdxs_nil]
        intro kv hkv hst4
        try dsimp only at hkv hst4 ⊢
        have h5 := hun kv hkv hst4
        have h6 := htools kv hkv
        intro hmem2
        rcases List.mem_append.mp hmem2 with h7 | h7
        · exact h5 h7
        · simp only [List.mem_singleton] at h7
          omega

theorem coStepContentN_sim (s : CoState) (seen : List Int)
    (c : Option String) (hI : CoSeenInv s seen) :
    CoSeenInv (coStepContent s c).1
      (seen ++ startIdxs (coStepContent s c).2) := by
  obtain ⟨hth, htx, htools, hne1, hne2, hkn, htn, hsn, hsl, hun⟩ := hI
  cases c with
  | none =>
    simpa [coStepContent, startIdxs] using
      (⟨hth, htx, htools, hne1, hne2, hkn, htn, hsn, hsl, hun⟩ :
        CoSeenInv s seen)
  | some txt =>
    cases h1 : s.thinkingStarted <;> cases h2 : s.textStarted <;>
      simp only [coStepContent, h1, h2, eq_self_iff_true, if_true, if_false,
        Bool.false_eq_true]
    · -- thinking off, text off: open text at curIdx
      refine ⟨?_, ?_, ?_, ?_, ?_, hkn, htn, ?_, ?_, ?_⟩
      · intro h3
        simp at h3
      · intro h3
        dsimp only
        omega
      · intro kv hkv
        dsimp only at hkv ⊢
        have := htools kv hkv
        omega
      · intro h3 h4
        simp at h3
      · intro h3 kv hkv
        simp at h3
      · simp only [startIdxs_append, startIdxs_cons_start,
          startIdxs_cons_delta, startIdxs_nil, List.nil_append,
          List.append_nil]
        refine List.nodup_append.mpr ⟨hsn, List.nodup_singleton _, ?_⟩
        intro x hx hx2
        simp only [List.mem_singleton] at hx2
        subst hx2
        have := hsl _ hx
        omega
      · simp only [startIdxs_append, startIdxs_cons_start,
          startIdxs_cons_delta, startIdxs_nil, List.nil_append,
          List.append_nil]
        intro i hi
        try dsimp only
        rcases List.mem_append.mp hi with h | h
        · have := hsl i h
          omega
        · simp only [List.mem_singleton] at h
          omega
      · simp only [startIdxs_append, startIdxs_cons_start,
          startIdxs_cons_delta, startIdxs_nil, List.nil_append,
          List.append_nil]
        intro kv hkv hst4
        try dsimp only at hkv hst4 ⊢
        have h5 := hun kv hkv hst4
        have h6 := htools kv hkv
        intro hmem2
        rcases List.mem_append.mp hmem2 with h7 | h7
        · exact h5 h7
        · simp only [List.mem_singleton] at h7
          omega
    · -- thinking off, text on: just a delta
      simp only [startIdxs_append, startIdxs_cons_delta, startIdxs_nil,
        List.nil_append, List.append_nil]
      refine ⟨?_, ?_, htools, ?_, ?_, hkn, htn, hsn, hsl, hun⟩
      · intro h3
        simp at h3
      · intro h3
        dsimp only
        exact htx h2
      · intro h3
        simp at h3
      · intro h3
        simp at h3
    · -- thinking on, text off: close thinking, open text at curIdx
      refine ⟨?_, ?_, ?_, ?_, ?_, hkn, htn, ?_, ?_, ?_⟩
      · intro h3
        simp at h3
      · intro h3
        dsimp only
        omega
      · intro kv hkv
        dsimp only at hkv ⊢
        have := htools kv hkv
        omega
      · intro h3
        simp at h3
      · intro h3
        simp at h3
      · simp only [closeThinking, startIdxs_append, List.cons_append,
          List.nil_append, startIdxs_cons_start, startIdxs_cons_delta,
          startIdxs_cons_stop, startIdxs_nil, List.append_nil]
        refine List.nodup_append.mpr ⟨hsn, List.nodup_singleton _, ?_⟩
        intro x hx hx2
        simp only [List.mem_singleton] at hx2
        subst hx2
        have := hsl _ hx
        omega
      · simp only [closeThinking, startIdxs_append, List.cons_append,
          List.nil_append, startIdxs_cons_start, startIdxs_cons_delta,
          startIdxs_cons_stop, startIdxs_nil, List.append_nil]
        intro i hi
        try dsimp only
        rcases List.mem_append.mp hi with h | h
        · have := hsl i h
          omega
        · simp only [List.mem_singleton] at h
          omega
      · simp only [closeThinking, startIdxs_append, List.cons_append,
          List.nil_append, startIdxs_cons_start, startIdxs_cons_delta,
          startIdxs_cons_stop, startIdxs_nil, List.append_nil]
        intro kv hkv hst4
        try dsimp only at hkv hst4 ⊢
        have h5 := hun kv hkv hst4
        have h6 := htools kv hkv
        intro hmem2
        rcases List.mem_append.mp hmem2 with h7 | h7
        · exact h5 h7
        · simp only [List.mem_singleton] at h7
          omega
    · -- thinking on, text on: close thinking, delta on existing text
      simp only [closeThinking, startIdxs_append, List.cons_append,
        List.nil_append, startIdxs_cons_start, startIdxs_cons_delta,
        startIdxs_cons_stop, startIdxs_nil, List.append_nil]
      refine ⟨?_, ?_, htools, ?_, ?_, hkn, htn, hsn, hsl, hun⟩
      · intro h3
        simp at h3
      · intro h3
        dsimp only
        exact htx h2
      · intro h3
        simp at h3
      · intro h3
        simp at h3

theorem coStepToolCallN_sim (now : Nat) (s : CoState) (seen : List Int)
    (tc : CoToolCallDelta) (hI : CoSeenInv s seen) :
    CoSeenInv (coStepToolCall now s tc).1
      (seen ++ startIdxs (coStepToolCall now s tc).2) := by
  obtain ⟨hth, htx, htools, hne1, hne2, hkn, htn, hsn, hsl, hun⟩ := hI
  by_cases hmem : (dictLookup s.tools tc.index).isSome = true
  · obtain ⟨t0, ht⟩ := Option.isSome_iff_exists.mp hmem
    have hInvSame : ∀ t2 : ToolSlot, t2.blockIdx = t0.blockIdx →
        t2.started = t0.started →
        CoSeenInv
          { s with hadContent := true, tools := dictSet s.tools tc.index t2 }
          (seen ++ []) :=
      fun t2 hb hs2 =>
        co_exist_inv s seen hth htx htools hne1 hne2 hkn htn hsn hsl hun
          tc.index t0 t2 ht hb true [] (Or.inl ⟨hs2, rfl⟩)
    have hInvStart : ∀ t2 : ToolSlot, t2.blockIdx = t0.blockIdx →
        t0.started = false → t2.started = true →
        CoSeenInv
          { s with hadContent := true, tools := dictSet s.tools tc.index t2 }
          (seen ++ [t0.blockIdx]) :=
      fun t2 hb hs0 hs2 =>
        co_exist_inv s seen hth htx htools hne1 hne2 hkn htn hsn hsl hun
          tc.index t0 t2 ht hb true [t0.blockIdx] (Or.inr ⟨hs0, hs2, rfl⟩)
    simp only [coStepToolCall, hmem, if_true]
    rw [ht]
    rcases heqf : tc.fname with _ | nm <;>
      rcases heqa : tc.fargs with _ | a
    · simpa [startIdxs] using hInvSame t0 rfl rfl
    · by_cases hst : t0.started = true <;>
        simpa [hst, startIdxs] using hInvSame t0 rfl rfl
    · by_cases hst : t0.started = true
      · simpa [hst, startIdxs] using hInvSame t0 rfl rfl
      · have hst0 : t0.started = false := by
          revert hst
          cases t0.started <;> simp
        simpa [hst, startIdxs] using
          hInvStart { t0 with name := nm, started := true } rfl hst0 rfl
    · by_cases hst : t0.started = true
      · simpa [hst, startIdxs] using hInvSame t0 rfl rfl
      · have hst0 : t0.started = false := by
          revert hst
          cases t0.started <;> simp
        simpa [hst, startIdxs] using
          hInvStart { t0 with name := nm, started := true } rfl hst0 rfl
  · have hnone : dictLookup s.tools tc.index = none := by
      cases hcc : dictLookup s.tools tc.index
      · rfl
      · rw [hcc] at hmem
        simp at hmem
    rcases heqf : tc.fname with _ | nm <;>
      rcases heqa : tc.fargs with _ | a <;>
      cases h1 : s.thinkingStarted <;>
      cases hx : s.textStarted <;>
      simp only [coStepToolCall, hnone, heqf, heqa, Option.isSome_none,
        Bool.false_eq_true, if_false, h1, hx, eq_self_iff_true, if_true,
        dictLookup_dictSet_self] <;>
      rw [dictSet_dictSet_self, dictSet_fresh _ _ _ hnone] <;>
      refine co_fresh_inv _ _ hth htools hne2 hkn htn hsn hsl hun _ _ hnone
        rfl _ _ h1.symm rfl _ _ _ _ _ ?_ <;>
      first
        | exact Or.inl rfl
        | exact Or.inr ⟨rfl, rfl⟩

theorem coStepFinishN_sim (s : CoState) (seen : List Int) (f : Option String)
    (hI : CoSeenInv s seen) :
    CoSeenInv (coStepFinish s f).1 (seen ++ startIdxs (coStepFinish s f).2) := by
  obtain ⟨hth, htx, htools, hne1, hne2, hkn, htn, hsn, hsl, hun⟩ := hI
  by_cases hf : f = some "tool_calls"
  · unfold coStepFinish
    rw [if_pos hf]
    have hsi : startIdxs (s.tools.filterMap fun kv =>
        if kv.2.started && !kv.2.closed then some (SSE.blockStop kv.2.blockIdx)
        else none) = [] := by
      apply List.filterMap_eq_nil_iff.mpr
      intro e he
      simp only [List.mem_filterMap] at he
      obtain ⟨kv, -, hkv⟩ := he
      split at hkv
      · cases hkv
        rfl
      · cases hkv
    rw [hsi, List.append_nil]
    refine ⟨hth, htx, ?_, hne1, ?_, ?_, ?_, hsn, hsl, ?_⟩
    · intro kv hkv
      simp only [List.mem_map] at hkv
      obtain ⟨kv0, hkv0, rfl⟩ := hkv
      have := htools kv0 hkv0
      dsimp only
      split <;> simpa using this
    · intro h3 kv hkv
      simp only [List.mem_map] at hkv
      obtain ⟨kv0, hkv0, rfl⟩ := hkv
      have := hne2 h3 kv0 hkv0
      dsimp only
      split <;> simpa using this
    · dsimp only
      rw [List.map_map]
      exact hkn
    · dsimp only
      rw [map_close_blockIdx]
      exact htn
    · intro kv hkv hst4
      simp only [List.mem_map] at hkv
      obtain ⟨kv0, hkv0, rfl⟩ := hkv
      have hsteq : kv0.2.started = false := by
        dsimp only at hst4
        split at hst4 <;> simpa using hst4
      have h5 := hun kv0 hkv0 hsteq
      dsimp only
      split <;> simpa using h5
  · unfold coStepFinish
    rw [if_neg hf]
    simpa [startIdxs] using
      (⟨hth, htx, htools, hne1, hne2, hkn, htn, hsn, hsl, hun⟩ :
        CoSeenInv s seen)

theorem coStepToolCallsN_sim (now : Nat) (s : CoState) (seen : List Int)
    (tcs : List CoToolCallDelta) (hI : CoSeenInv s seen) :
    CoSeenInv (coStepToolCalls now s tcs).1
      (seen ++ startIdxs (coStepToolCalls now s tcs).2) := by
  induction tcs generalizing s seen with
  | nil => simpa [coStepToolCalls, startIdxs] using hI
  | cons tc rest ih =>
    simp only [coStepToolCalls]
    have hI1 := coStepToolCallN_sim now s seen tc hI
    have hI2 := ih _ _ hI1
    simpa [startIdxs_append, List.append_assoc] using hI2

theorem coStepDataN_sim (now : Nat) (s : CoState) (seen : List Int)
    (d : CoData) (hI : CoSeenInv s seen) :
    CoSeenInv (coStepData now s d).1
      (seen ++ startIdxs (coStepData now s d).2) := by
  obtain ⟨du, dro, drt, dc, dtc, df⟩ := d
  have key : ∀ t : CoState, CoSeenInv t seen →
      CoSeenInv (coStepFinish (coStepToolCalls now (coStepContent
        (coStepReasoning t drt).1 dc).1 dtc).1 df).1
        (seen ++ startIdxs
          ((coStepReasoning t drt).2 ++
           (coStepContent (coStepReasoning t drt).1 dc).2 ++
           (coStepToolCalls now (coStepContent
             (coStepReasoning t drt).1 dc).1 dtc).2 ++
           (coStepFinish (coStepToolCalls now (coStepContent
             (coStepReasoning t drt).1 dc).1 dtc).1 df).2)) := by
    intro t hIt
    have hI1 := coStepReasoningN_sim t seen drt hIt
    have hI2 := coStepContentN_sim _ _ dc hI1
    have hI3 := coStepToolCallsN_sim now _ _ dtc hI2
    have hI4 := coStepFinishN_sim _ _ df hI3
    simpa [startIdxs_append, List.append_assoc] using hI4
  cases du <;> cases dro <;>
    exact key _ ⟨hI.1, hI.2, hI.3, hI.4, hI.5, hI.6, hI.7, hI.8, hI.9, hI.10⟩

theorem coRunDataN_sim (now : Nat) (s : CoState) (seen : List Int)
    (ds : List CoData) (hI : CoSeenInv s seen) :
    CoSeenInv (coRunData now s ds).1
      (seen ++ startIdxs (coRunData now s ds).2) := by
  induction ds generalizing s seen with
  | nil => simpa [coRunData, startIdxs] using hI
  | cons d rest ih =>
    simp only [coRunData]
    have hI1 := coStepDataN_sim now s seen d hI
    have hI2 := ih _ _ hI1
    simpa [startIdxs_append, List.append_assoc] using hI2

theorem coCloseAll_startIdxs (s : CoState) :
    startIdxs (coCloseAll s) = [] := by
  apply List.filterMap_eq_nil_iff.mpr
  intro e he
  unfold coCloseAll at he
  rcases List.mem_append.mp he with h | h
  · rcases List.mem_append.mp h with h3 | h3
    · split at h3 <;> simp [closeThinking] at h3 <;>
        rcases h3 with h4 | h4 <;> simp [h4]
    · split at h3 <;> simp at h3
      simp [h3]
  · simp only [List.mem_filterMap] at h
    obtain ⟨kv, -, hkv⟩ := h
    split at hkv
    · cases hkv
      rfl
    · cases hkv

theorem CoSeenInv_init : CoSeenInv CoState.init [] := by
  refine ⟨?_, ?_, ?_, ?_, ?_, ?_, ?_, ?_, ?_, ?_⟩ <;> simp [CoState.init]

theorem copilot_startIdxs_nodup (now : Nat) (targetModel : String)
    (ds : List CoData) (e : UpstreamEnd) :
    (startIdxs (copilotStream now targetModel ds e)).Nodup := by
  have hI := coRunDataN_sim now CoState.init [] ds CoSeenInv_init
  have hsn := hI.8
  unfold copilotStream
  cases e with
  | err m =>
    rw [startIdxs_append, startIdxs_append]
    simpa [startIdxs] using hsn
  | ok =>
    have herr : startIdxs
        (if (!(coRunData now CoState.init ds).1.hadContent &&
            (coRunData now CoState.init ds).1.tools.isEmpty) = true then
          [SSE.errorEvent (copilotNoContentMsg targetModel)]
        else []) = [] := by
      split <;> rfl
    rw [startIdxs_append, startIdxs_append, startIdxs_append,
      startIdxs_append, coCloseAll_startIdxs, herr]
    simpa [startIdxs] using hsn

/-- C4 (amended): on every normal-completion stream (`UpstreamEnd.ok`) of the
chat-completions, Copilot and responses machines, an opened thinking block is
closed — a `signature_delta` followed by its `content_block_stop` — before the
next `content_block_start` of a text block and before the terminal
`message_delta`/`message_stop` sequence; a `tool_use` `content_block_start`,
however, may be emitted while a thinking block is still open. -/
theorem C4_amended_thinking_closed :
    (∀ now chunks, thinkOK false (openaiStream now chunks .ok) = true) ∧
    (∀ now targetModel ds,
      thinkOK false (copilotStream now targetModel ds .ok) = true) ∧
    (∀ now evs, thinkOK false (responsesStream now evs .ok) = true) :=
  ⟨openai_thinkOK_ok, copilot_thinkOK_ok, responses_thinkOK_ok⟩

/-- C5 (amended): within one request no `content_block_start` index is ever
reused: the responses machine emits its start indices in strictly increasing
order, and the chat-completions and Copilot machines emit pairwise-distinct
start indices (a deferred tool start may appear out of order). -/
theorem C5_amended_block_index_freshness :
    (∀ now evs e, strictlyInc (startIdxs (responsesStream now evs e)) = true) ∧
    (∀ now chunks e, (startIdxs (openaiStream now chunks e)).Nodup) ∧
    (∀ now targetModel ds e,
      (startIdxs (copilotStream now targetModel ds e)).Nodup) :=
  ⟨responses_startIdxs_inc, openai_startIdxs_nodup, copilot_startIdxs_nodup⟩

end AnthropicBridge
